import Mathlib

/-!
Verification of a best-fit linear memory allocator (src/main.cpp).

The program consists of:
* a generic binary heap with an index-change observer
  (template Heap in src/main.cpp, lines 22-55 and 468-598);
* memory segments and their size comparator (lines 58-84, 428-465);
* a MemoryManager combining a segment list and a heap of free segments
  (lines 98-114 and 354-425);
* a query-stream driver (lines 239-351).

We embed the code shallowly:
* size_t indices become Nat; kNullIndex is the size_t value (size_t)(-1);
* the heap's backing std::vector<T> becomes a List T;
* std::list<MemorySegment> becomes an arena (List MemorySegment indexed by
  segment id, the embedding of a stable iterator) plus the id sequence;
* the index-change observer of the MemoryManager instantiation writes into
  the arena, so the specialised heap threads the arena through its calls.

The generic heap is embedded twice, exactly as a C++ template is
instantiated twice: once purely (namespace Heap, an arbitrary element type
and comparator, no observer effect) and once for the manager (namespace
MSHeap, elements are segment ids, the comparator dereferences the arena and
the observer updates heap_index fields in the arena).

One deliberate modelling point: in Heap::erase the code pops the vector and
then calls SiftUp(index).  When index was the last slot, that SiftUp reads
elements_[size] - one past the logical end, but still inside the vector's
buffer, where the value just removed is still stored.  We model the vector
buffer faithfully: erase runs its sift-up on the list before dropping the
last entry, so a read of the popped slot sees the popped value, and the
sift-up's accessed indices are reported so that out-of-bounds accesses are
observable.
-/

set_option maxHeartbeats 1000000

/-- static constexpr size_t kNullIndex = static_cast<size_t>(-1). -/
def kNullIndex : Nat := 18446744073709551615

/-- Read of a backing-store slot: elements_[i].  Out-of-range reads return
the default element (they are undefined behaviour in the source; no verified
statement depends on this choice). -/
def geti {T : Type} [Inhabited T] (l : List T) (i : Nat) : T :=
  (l[i]?).getD default

namespace Heap

variable {T : Type} [Inhabited T]

/-- size_t Heap::Parent(size_t index): index ? (index - 1) / 2 : index. -/
def Parent (index : Nat) : Nat :=
  if index = 0 then index else (index - 1) / 2

/-- size_t Heap::LeftSon(size_t index):
index < size / 2 ? 2 * index + 1 : kNullIndex. -/
def LeftSon (size index : Nat) : Nat :=
  if index < size / 2 then 2 * index + 1 else kNullIndex

/-- size_t Heap::RightSon(size_t index):
size > 2 and index < (size - 1) / 2 ? 2 * index + 2 : kNullIndex. -/
def RightSon (size index : Nat) : Nat :=
  if size > 2 ∧ index < (size - 1) / 2 then 2 * index + 2 else kNullIndex

/-- bool Heap::CompareElements(first, second):
compare_(elements_[first], elements_[second]). -/
def CompareElements (cmp : T → T → Bool) (l : List T)
    (first_index second_index : Nat) : Bool :=
  cmp (geti l first_index) (geti l second_index)

/-- void Heap::SwapElements(first, second): the storage effect of
std::swap(elements_[first], elements_[second]).  (The observer calls of the
source are absent here; the MSHeap instantiation below has them.) -/
def SwapElements (l : List T) (first_index second_index : Nat) : List T :=
  (l.set first_index (geti l second_index)).set second_index (geti l first_index)

/-- The loop of size_t Heap::SiftUp(size_t index).  new_index is the
local variable of the source; the third component collects every
backing-storage index the loop reads or writes. -/
def SiftUpGo (cmp : T → T → Bool) (l : List T) (index new_index : Nat) :
    List T × Nat × List Nat :=
  if h : index = 0 then (l, new_index, [])
  else if CompareElements cmp l index (Parent index) then
    let r := SiftUpGo cmp (SwapElements l index (Parent index)) (Parent index) new_index
    (r.1, r.2.1, index :: Parent index :: r.2.2)
  else (l, index, [index, Parent index])
termination_by index
decreasing_by
  simp only [Parent, if_neg h]
  omega

/-- size_t Heap::SiftUp(size_t index): new_index starts equal to index. -/
def SiftUp (cmp : T → T → Bool) (l : List T) (index : Nat) :
    List T × Nat × List Nat :=
  SiftUpGo cmp l index index

/-- The best_son_index computation of Heap::SiftDown's loop body:
LeftSon unless RightSon exists and compares ahead of it. -/
def BestSon (cmp : T → T → Bool) (l : List T) (index : Nat) : Nat :=
  if RightSon l.length index ≠ kNullIndex ∧
      CompareElements cmp l (RightSon l.length index) (LeftSon l.length index)
  then RightSon l.length index
  else LeftSon l.length index

/-- The indices read while computing BestSon (the right-son comparison is
evaluated only when RightSon is not null, by the source's short-circuit). -/
def BestSonAccess (l : List T) (index : Nat) : List Nat :=
  if RightSon l.length index ≠ kNullIndex then
    [RightSon l.length index, LeftSon l.length index]
  else []

/-- void Heap::SiftDown(size_t index).  The source's loop exits by setting
index = kNullIndex, which makes LeftSon(index) = kNullIndex on the next test
because no C++ vector holds 2^63 elements; the embedding returns directly.
The second component collects every backing-storage index read or written. -/
def SiftDown (cmp : T → T → Bool) (l : List T) (index : Nat) :
    List T × List Nat :=
  if h : LeftSon l.length index = kNullIndex then (l, [])
  else if CompareElements cmp l (BestSon cmp l index) index then
    let r := SiftDown cmp (SwapElements l (BestSon cmp l index) index)
      (BestSon cmp l index)
    (r.1, BestSonAccess l index ++ [BestSon cmp l index, index] ++ r.2)
  else (l, BestSonAccess l index ++ [BestSon cmp l index, index])
termination_by l.length - index
decreasing_by
  simp only [SwapElements, List.length_set]
  simp only [BestSon, LeftSon, RightSon, kNullIndex] at h ⊢
  split_ifs at h ⊢ <;> omega

/-- size_t Heap::push(const T& value): push_back, notify (no storage effect
here), then SiftUp(size - 1); returns the storage and SiftUp's result. -/
def push (cmp : T → T → Bool) (l : List T) (value : T) : List T × Nat :=
  let l1 := l ++ [value]
  let r := SiftUp cmp l1 (l1.length - 1)
  (r.1, r.2.1)

/-- void Heap::erase(size_t index): swap with the last slot, notify
kNullIndex (no storage effect here), pop_back, SiftUp(index),
SiftDown(index).  The sift-up runs on the un-popped buffer (see the header
comment); the accessed-index lists of the two sifts are returned so that
their bounds can be stated.  The first list holds the indices the initial
swap touches (judged against the pre-erase size), the second the sift
accesses (judged against the post-erase size). -/
def erase (cmp : T → T → Bool) (l : List T) (index : Nat) :
    List T × List Nat × List Nat :=
  let l1 := SwapElements l index (l.length - 1)
  let r := SiftUp cmp l1 index
  let l2 := r.1.dropLast
  let r2 := SiftDown cmp l2 index
  (r2.1, [index, l.length - 1], r.2.2 ++ r2.2)

/-- const T& Heap::top(): elements_[0]. -/
def top (l : List T) : T := geti l 0

/-- void Heap::pop(): swap root with last, notify kNullIndex, pop_back,
SiftDown(0). -/
def pop (cmp : T → T → Bool) (l : List T) : List T :=
  let l1 := SwapElements l 0 (l.length - 1)
  (SiftDown cmp l1.dropLast 0).1

end Heap

/-! ## Memory segments and the arena embedding of std::list<MemorySegment> -/

/-- struct MemorySegment { int left; int right; size_t heap_index; }.
The constructor MemorySegment(left, right) sets heap_index = kNullIndex. -/
structure MemorySegment where
  left : Int
  right : Int
  heap_index : Nat
deriving DecidableEq, Repr

instance : Inhabited MemorySegment := ⟨⟨0, 0, kNullIndex⟩⟩

/-- The arena holding every std::list node ever created; a segment id (its
position here) embeds a stable MemorySegmentIterator.  Nodes erased from the
list simply stop being referenced by the id sequence. -/
abbrev Arena : Type := List MemorySegment

/-- Dereference an iterator: *it. -/
def getSeg (a : Arena) (i : Nat) : MemorySegment := geti a i

/-- size_t MemorySegment::Size(): right >= left ? right - left : 0. -/
def MemorySegment.Size (s : MemorySegment) : Nat :=
  if s.right ≥ s.left then (s.right - s.left).toNat else 0

/-- MemorySegment MemorySegment::Unite(const MemorySegment& other):
none embeds the std::runtime_error throw on non-adjacent segments. -/
def MemorySegment.Unite (s other : MemorySegment) : Option MemorySegment :=
  if s.left = other.right then some ⟨other.left, s.right, kNullIndex⟩
  else if s.right = other.left then some ⟨s.left, other.right, kNullIndex⟩
  else none

/-- bool MemorySegmentSizeCompare::operator()(first, second):
first->Size() == second->Size() ? first->left < second->left
                                : first->Size() > second->Size(). -/
def MemorySegmentSizeCompare (a : Arena) (first second : Nat) : Bool :=
  if (getSeg a first).Size = (getSeg a second).Size then
    decide ((getSeg a first).left < (getSeg a second).left)
  else decide ((getSeg a first).Size > (getSeg a second).Size)

/-- void MemorySegmentsHeapObserver::operator()(segment, new_index):
segment->heap_index = new_index. -/
def notifySeg (a : Arena) (i : Nat) (new_index : Nat) : Arena :=
  a.set i { getSeg a i with heap_index := new_index }

/-! ## MSHeap: the Heap<MemorySegmentIterator, MemorySegmentSizeCompare>
instantiation, with MemorySegmentsHeapObserver as index-change observer.
Elements are segment ids; the arena is threaded through every call because
the observer writes to it and the comparator reads from it. -/

namespace MSHeap

/-- SwapElements: NotifyIndexChange(elements_[first], second);
NotifyIndexChange(elements_[second], first); std::swap. -/
def SwapElements (a : Arena) (l : List Nat) (first_index second_index : Nat) :
    Arena × List Nat :=
  let a1 := notifySeg a (geti l first_index) second_index
  let a2 := notifySeg a1 (geti l second_index) first_index
  (a2, Heap.SwapElements l first_index second_index)

/-- The SiftUp loop of the manager's heap instance. -/
def SiftUpGo (a : Arena) (l : List Nat) (index new_index : Nat) :
    Arena × List Nat × Nat :=
  if h : index = 0 then (a, l, new_index)
  else if MemorySegmentSizeCompare a (geti l index) (geti l (Heap.Parent index)) then
    SiftUpGo (SwapElements a l index (Heap.Parent index)).1
      (SwapElements a l index (Heap.Parent index)).2 (Heap.Parent index) new_index
  else (a, l, index)
termination_by index
decreasing_by
  simp only [Heap.Parent, if_neg h]
  omega

/-- SiftDown of the manager's heap instance; its best_son_index computation
is Heap.BestSon with the arena-dereferencing comparator. -/
def SiftDown (a : Arena) (l : List Nat) (index : Nat) : Arena × List Nat :=
  if h : Heap.LeftSon l.length index = kNullIndex then (a, l)
  else if MemorySegmentSizeCompare a
      (geti l (Heap.BestSon (MemorySegmentSizeCompare a) l index)) (geti l index) then
    SiftDown (SwapElements a l (Heap.BestSon (MemorySegmentSizeCompare a) l index) index).1
      (SwapElements a l (Heap.BestSon (MemorySegmentSizeCompare a) l index) index).2
      (Heap.BestSon (MemorySegmentSizeCompare a) l index)
  else (a, l)
termination_by l.length - index
decreasing_by
  simp only [SwapElements, Heap.SwapElements, List.length_set]
  simp only [Heap.BestSon, Heap.LeftSon, Heap.RightSon, kNullIndex] at h ⊢
  split_ifs at h ⊢ <;> omega

/-- size_t Heap::push(const T& value) for the manager's instance:
push_back, NotifyIndexChange(value, size - 1), SiftUp(size - 1). -/
def push (a : Arena) (l : List Nat) (value : Nat) : Arena × List Nat × Nat :=
  let l1 := l ++ [value]
  let a1 := notifySeg a value (l1.length - 1)
  SiftUpGo a1 l1 (l1.length - 1) (l1.length - 1)

/-- void Heap::erase(size_t index) for the manager's instance; the sift-up
runs on the un-popped buffer exactly as in Heap.erase. -/
def erase (a : Arena) (l : List Nat) (index : Nat) : Arena × List Nat :=
  let s1 := SwapElements a l index (l.length - 1)
  let a2 := notifySeg s1.1 (geti s1.2 (l.length - 1)) kNullIndex
  let r := SiftUpGo a2 s1.2 index index
  let l2 := r.2.1.dropLast
  SiftDown r.1 l2 index

end MSHeap

/-! ## MemoryManager -/

/-- The state of a MemoryManager: the arena of list nodes, the id sequence
memory_segments_ (address order) and the heap storage free_memory_segments_
(segment ids). -/
structure MMState where
  arena : Arena
  segs : List Nat
  heap : List Nat
deriving Repr

namespace MemoryManager

/-- std::list::insert(pos, v): insert v immediately before the node pos. -/
def insertBefore (l : List Nat) (pos v : Nat) : List Nat :=
  match l with
  | [] => [v]
  | x :: xs => if x = pos then v :: x :: xs else x :: insertBefore xs pos v

/-- MemoryManager::MemoryManager(size_t memory_size): one segment
[0, memory_size) is created and pushed onto the free heap. -/
def init (memory_size : Nat) : MMState :=
  let initial_memory : MemorySegment := ⟨0, (memory_size : Int), kNullIndex⟩
  let arena0 : Arena := [initial_memory]
  let r := MSHeap.push arena0 [] 0
  ⟨r.1, [0], r.2.1⟩

/-- Allocate's split branch bookkeeping: a.set for max_free->left = right. -/
def setLeft (a : Arena) (i : Nat) (new_left : Int) : Arena :=
  a.set i { getSeg a i with left := new_left }

/-- MemoryManager::Iterator MemoryManager::Allocate(size_t size).
Returns the new state and the handle (none embeds Iterator(nullptr)). -/
def Allocate (st : MMState) (size : Nat) : MMState × Option Nat :=
  if st.heap.length = 0 then (st, none)
  else
    let top := geti st.heap 0
    if size > (getSeg st.arena top).Size then (st, none)
    else if size = (getSeg st.arena top).Size then
      let r := MSHeap.erase st.arena st.heap ((getSeg st.arena top).heap_index)
      (⟨r.1, st.segs, r.2⟩, some top)
    else
      let new_id := st.arena.length
      let allocated : MemorySegment :=
        ⟨(getSeg st.arena top).left, (getSeg st.arena top).left + (size : Int),
          kNullIndex⟩
      let arena1 := st.arena ++ [allocated]
      let segs1 := insertBefore st.segs top new_id
      let arena2 := setLeft arena1 top allocated.right
      let r := MSHeap.erase arena2 st.heap ((getSeg arena2 top).heap_index)
      let r2 := MSHeap.push r.1 r.2 top
      (⟨r2.1, segs1, r2.2.1⟩, some new_id)

/-- void MemoryManager::AppendIfFree(remaining, appending): if the appending
neighbour is free, unite it into remaining, erase it from the heap and from
the segment list.  none embeds the exception thrown by Unite. -/
def AppendIfFree (st : MMState) (remaining appending : Nat) : Option MMState :=
  if (getSeg st.arena appending).heap_index ≠ kNullIndex then
    match (getSeg st.arena remaining).Unite (getSeg st.arena appending) with
    | none => none
    | some merged =>
      let arena1 := st.arena.set remaining merged
      let r := MSHeap.erase arena1 st.heap ((getSeg arena1 appending).heap_index)
      some ⟨r.1, st.segs.erase appending, r.2⟩
  else some st

/-- void MemoryManager::Free(Iterator position): try to append the list
neighbours, then push the (possibly united) segment onto the free heap.
The right neighbour is the node after position in the original sequence; it
is untouched by a merge with the left neighbour, matching the saved
right_iterator of the source. -/
def Free (st : MMState) (position : Nat) : Option MMState :=
  let idx := st.segs.indexOf position
  let rightNeighbor := st.segs[idx + 1]?
  let afterLeft : Option MMState :=
    if idx ≠ 0 then AppendIfFree st position (geti st.segs (idx - 1))
    else some st
  afterLeft.bind fun st1 =>
    let afterRight : Option MMState :=
      match rightNeighbor with
      | some r => AppendIfFree st1 position r
      | none => some st1
    afterRight.map fun st2 =>
      let p := MSHeap.push st2.arena st2.heap position
      ⟨p.1, st2.segs, p.2.1⟩

end MemoryManager

/-- Reachable manager states: the constructed state, any Allocate result,
and any Free of a handle that respects the documented contract (the segment
is in the list and currently allocated).  The bound on the arena length
records that a C++ process cannot hold SIZE_MAX live std::list nodes, which
is what makes (size_t)(-1) usable as a sentinel index. -/
inductive Reach (memory_size : Nat) : MMState → Prop where
  | init : Reach memory_size (MemoryManager.init memory_size)
  | alloc {st : MMState} (size : Nat) : Reach memory_size st →
      st.arena.length + 1 < kNullIndex →
      Reach memory_size (MemoryManager.Allocate st size).1
  | free {st st' : MMState} (position : Nat) : Reach memory_size st →
      position ∈ st.segs →
      (getSeg st.arena position).heap_index = kNullIndex →
      MemoryManager.Free st position = some st' →
      Reach memory_size st'

/-! ## The driver -/

/-- The two query shapes held by the MemoryManagerQuery wrapper. -/
inductive MemoryManagerQuery where
  | allocationQ (allocation_size : Nat)
  | freeQ (allocation_query_index : Nat)
deriving DecidableEq, Repr

/-- std::vector<MemoryManagerQuery> ReadMemoryManagerQueries(stream):
query_numeric >= 0 gives AllocationQuery{query_numeric}, otherwise
FreeQuery{-query_numeric - 1}. -/
def ReadMemoryManagerQueries (input : List Int) : List MemoryManagerQuery :=
  input.map fun query_numeric =>
    if query_numeric ≥ 0 then .allocationQ query_numeric.toNat
    else .freeQ (-query_numeric - 1).toNat

/-- struct MemoryManagerAllocationResponse { bool success; size_t position; }. -/
structure MemoryManagerAllocationResponse where
  success : Bool
  position : Nat
deriving DecidableEq, Repr

def MakeSuccessfulAllocation (position : Nat) : MemoryManagerAllocationResponse :=
  ⟨true, position⟩

def MakeFailedAllocation : MemoryManagerAllocationResponse :=
  ⟨false, 0⟩

/-- The loop body of RunMemoryManager: n is query_n, results is the
pre-sized vector of remembered iterators (none embeds the null iterator).
The Option result embeds an exception escaping the loop. -/
def RunMemoryManagerGo (st : MMState) (results : List (Option Nat)) (n : Nat) :
    List MemoryManagerQuery → Option (List MemoryManagerAllocationResponse)
  | [] => some []
  | .allocationQ s :: rest =>
    let r := MemoryManager.Allocate st s
    let results1 := results.set n r.2
    let response := match r.2 with
      | some id => MakeSuccessfulAllocation ((getSeg r.1.arena id).left.toNat)
      | none => MakeFailedAllocation
    (RunMemoryManagerGo r.1 results1 (n + 1) rest).map fun rs => response :: rs
  | .freeQ j :: rest =>
    let results1 := results.set n none
    match (results1[j]?).getD none with
    | some id =>
      match MemoryManager.Free st id with
      | some st1 => RunMemoryManagerGo st1 results1 (n + 1) rest
      | none => none
    | none => RunMemoryManagerGo st results1 (n + 1) rest

/-- std::vector<MemoryManagerAllocationResponse> RunMemoryManager(...). -/
def RunMemoryManager (memory_size : Nat) (queries : List MemoryManagerQuery) :
    Option (List MemoryManagerAllocationResponse) :=
  RunMemoryManagerGo (MemoryManager.init memory_size)
    (List.replicate queries.length none) 0 queries

/-- void OutputMemoryManagerResponses(responses, ostream): one line per
response, position + 1 on success and -1 on failure, as integers. -/
def OutputMemoryManagerResponses
    (responses : List MemoryManagerAllocationResponse) : List Int :=
  responses.map fun response =>
    if response.success then (response.position : Int) + 1 else -1

/-- Spec-side driver, following the claim's words: a non-negative value v is
an allocation request of size v; a negative v is a free request for the
(-v-1)-th (0-indexed) prior request; a free request whose referent failed to
allocate or was itself a free request performs no operation on the manager;
the output holds, for each allocation request in stream order, its 1-indexed
starting address on success or -1 on failure, and nothing for free
requests. -/
def DriverSpecGo (st : MMState) (results : List (Option Nat)) (n : Nat) :
    List MemoryManagerQuery → Option (List Int)
  | [] => some []
  | .allocationQ s :: rest =>
    let r := MemoryManager.Allocate st s
    let out : Int := match r.2 with
      | some id => (getSeg r.1.arena id).left + 1
      | none => -1
    (DriverSpecGo r.1 (results.set n r.2) (n + 1) rest).map fun os => out :: os
  | .freeQ j :: rest =>
    let results1 := results.set n none
    match (results1[j]?).getD none with
    | some id => (MemoryManager.Free st id).bind fun st1 =>
        DriverSpecGo st1 results1 (n + 1) rest
    | none => DriverSpecGo st results1 (n + 1) rest

/-- The spec-side driver run on a raw value stream. -/
def DriverSpec (memory_size : Nat) (input : List Int) : Option (List Int) :=
  let queries := ReadMemoryManagerQueries input
  DriverSpecGo (MemoryManager.init memory_size)
    (List.replicate queries.length none) 0 queries

/-! ## Stated properties -/

/-- The ordering contract of the heap's comparator: Compare(a, b) means
"a must end up nearer the root than b"; a usable comparator is a strict
weak order.  MemorySegmentSizeCompare over a fixed arena is one. -/
structure IsSWO {T : Type} (cmp : T → T → Bool) : Prop where
  irrefl : ∀ a, cmp a a = false
  cmp_trans : ∀ a b c, cmp a b = true → cmp b c = true → cmp a c = true
  negtrans : ∀ a b c, cmp a b = false → cmp b c = false → cmp a c = false

/-- The binary-heap order: no element compares ahead of its parent. -/
def HeapProp {T : Type} [Inhabited T] (cmp : T → T → Bool) (l : List T) : Prop :=
  ∀ c, c < l.length → 0 < c → cmp (geti l c) (geti l (Heap.Parent c)) = false

instance {T : Type} [Inhabited T] (cmp : T → T → Bool) (l : List T) :
    Decidable (HeapProp cmp l) := by
  unfold HeapProp
  infer_instance

/-- The segment of the manager's sequence at position k. -/
def SegAt (st : MMState) (k : Nat) : MemorySegment :=
  getSeg st.arena (geti st.segs k)

/-- The segment sequence partitions [0, memory_size): ascending, contiguous,
first left 0, last right memory_size. -/
def Partition (st : MMState) (memory_size : Nat) : Prop :=
  st.segs ≠ [] ∧
  (SegAt st 0).left = 0 ∧
  (SegAt st (st.segs.length - 1)).right = (memory_size : Int) ∧
  (∀ k, k < st.segs.length → (SegAt st k).left ≤ (SegAt st k).right) ∧
  (∀ k, k + 1 < st.segs.length → (SegAt st k).right = (SegAt st (k + 1)).left)

/-- No two address-adjacent segments of the sequence are both free, free
meaning a non-sentinel heap_index (the code's own free/allocated
discriminator). -/
def NoAdjacentFree (st : MMState) : Prop :=
  ∀ k, k + 1 < st.segs.length →
    ¬((SegAt st k).heap_index ≠ kNullIndex ∧
      (SegAt st (k + 1)).heap_index ≠ kNullIndex)

/-- A segment of the sequence is in the free heap iff its heap_index is not
the sentinel, and then heap_index is its true slot in the heap storage. -/
def HeapMembership (st : MMState) : Prop :=
  ∀ i ∈ st.segs,
    ((getSeg st.arena i).heap_index ≠ kNullIndex ↔ i ∈ st.heap) ∧
    (i ∈ st.heap →
      (getSeg st.arena i).heap_index < st.heap.length ∧
      geti st.heap ((getSeg st.arena i).heap_index) = i)

/-- x is covered by some free segment of st. -/
def FreeCovers (st : MMState) (x : Int) : Prop :=
  ∃ i ∈ st.heap, (getSeg st.arena i).left ≤ x ∧ x < (getSeg st.arena i).right

/-- Every segment record (and the out-of-range default) has non-negative
endpoints.  This is the part of the coverage invariant that the driver's
printed positions depend on: position + 1 with position = size_t(left). -/
def NonnegLR (st : MMState) : Prop :=
  ∀ id : Nat, 0 ≤ (getSeg st.arena id).left ∧ 0 ≤ (getSeg st.arena id).right

/-- The full inductive invariant of reachable manager states. -/
structure MMInv (st : MMState) (memory_size : Nat) : Prop where
  segs_nodup : st.segs.Nodup
  segs_lt : ∀ i ∈ st.segs, i < st.arena.length
  heap_sub : ∀ i ∈ st.heap, i ∈ st.segs
  heap_nodup : st.heap.Nodup
  track_in : ∀ k, k < st.heap.length →
    (getSeg st.arena (geti st.heap k)).heap_index = k
  track_out : ∀ i ∈ st.segs, i ∉ st.heap →
    (getSeg st.arena i).heap_index = kNullIndex
  arena_bound : st.arena.length < kNullIndex
  heap_ordered : HeapProp (MemorySegmentSizeCompare st.arena) st.heap
  part : Partition st memory_size
  no_adj : ∀ k, k + 1 < st.segs.length →
    ¬(geti st.segs k ∈ st.heap ∧ geti st.segs (k + 1) ∈ st.heap)

/-- During sift-up only the edge from the hole to its parent may be
unordered, and the hole's children fit below the hole's parent (so the
parent may move down into the hole). -/
def SiftUpState {T : Type} [Inhabited T] (cmp : T → T → Bool) (l : List T)
    (hole : Nat) : Prop :=
  (∀ c, c < l.length → 0 < c → c ≠ hole →
    cmp (geti l c) (geti l (Heap.Parent c)) = false) ∧
  (∀ c, c < l.length → 0 < c → Heap.Parent c = hole →
    cmp (geti l c) (geti l (Heap.Parent hole)) = false)

/-- During sift-down only the edges from the hole's children to the hole may
be unordered, and (when the hole is not the root) the hole's children fit
below the hole's parent. -/
def SiftDownState {T : Type} [Inhabited T] (cmp : T → T → Bool) (l : List T)
    (hole : Nat) : Prop :=
  (∀ c, c < l.length → 0 < c → Heap.Parent c ≠ hole →
    cmp (geti l c) (geti l (Heap.Parent c)) = false) ∧
  (∀ c, c < l.length → 0 < c → Heap.Parent c = hole → 0 < hole →
    cmp (geti l c) (geti l (Heap.Parent hole)) = false)

/-! # Theorems -/

/-! ## Basic facts about storage reads, set and swap -/

theorem geti_eq_getElem {T : Type} [Inhabited T] {l : List T} {i : Nat}
    (h : i < l.length) : geti l i = l[i] := by
  simp [geti, List.getElem?_eq_getElem h]

theorem geti_of_le {T : Type} [Inhabited T] {l : List T} {i : Nat}
    (h : l.length ≤ i) : geti l i = default := by
  simp [geti, List.getElem?_eq_none h]

theorem geti_set_self {T : Type} [Inhabited T] {l : List T} {i : Nat} {x : T}
    (h : i < l.length) : geti (l.set i x) i = x := by
  simp [geti, List.getElem?_set_self h]

theorem geti_set_ne {T : Type} [Inhabited T] {l : List T} {i j : Nat} {x : T}
    (h : i ≠ j) : geti (l.set i x) j = geti l j := by
  simp [geti, List.getElem?_set_ne h]

theorem geti_append_lt {T : Type} [Inhabited T] {l m : List T} {i : Nat}
    (h : i < l.length) : geti (l ++ m) i = geti l i := by
  simp [geti, List.getElem?_append, h]

theorem geti_concat_len {T : Type} [Inhabited T] {l : List T} {x : T} :
    geti (l ++ [x]) l.length = x := by
  simp [geti, List.getElem?_concat_length]

theorem geti_dropLast {T : Type} [Inhabited T] {l : List T} {i : Nat}
    (h : i < l.length - 1) : geti l.dropLast i = geti l i := by
  have h2 : i < l.length := by omega
  simp [geti, List.getElem?_dropLast, h, List.getElem?_eq_getElem h2]

theorem set_geti_self {T : Type} [Inhabited T] (l : List T) (i : Nat) :
    l.set i (geti l i) = l := by
  apply List.ext_getElem?
  intro n
  rw [List.getElem?_set]
  split_ifs with h1 h2
  · subst h1
    rw [geti_eq_getElem h2, List.getElem?_eq_getElem h2]
  · subst h1
    rw [List.getElem?_eq_none (by omega)]
  · rfl

namespace Heap

variable {T : Type} [Inhabited T] {cmp : T → T → Bool}

theorem length_swap (l : List T) (i j : Nat) :
    (SwapElements l i j).length = l.length := by
  simp [SwapElements]

theorem swap_self (l : List T) (i : Nat) : SwapElements l i i = l := by
  unfold SwapElements
  rw [set_geti_self, set_geti_self]

theorem swap_comm (l : List T) (i j : Nat) :
    SwapElements l i j = SwapElements l j i := by
  rcases eq_or_ne i j with rfl | h
  · rfl
  · unfold SwapElements
    rw [List.set_comm _ _ _ h]

theorem swap_geti_snd {l : List T} {i j : Nat} (hi : i < l.length)
    (hj : j < l.length) : geti (SwapElements l i j) j = geti l i := by
  unfold SwapElements
  rw [geti_set_self (by simpa using hj)]

theorem swap_geti_fst {l : List T} {i j : Nat} (hij : i ≠ j)
    (hi : i < l.length) : geti (SwapElements l i j) i = geti l j := by
  unfold SwapElements
  rw [geti_set_ne (Ne.symm hij), geti_set_self hi]

theorem swap_geti_other {l : List T} {i j k : Nat} (hki : k ≠ i) (hkj : k ≠ j) :
    geti (SwapElements l i j) k = geti l k := by
  unfold SwapElements
  rw [geti_set_ne (Ne.symm hkj), geti_set_ne (Ne.symm hki)]

/-- Auxiliary for swap_perm: replacing slot j by a while keeping the old
value in front is a permutation of pushing a in front. -/
theorem set_cons_perm {T : Type} [Inhabited T] :
    ∀ (l : List T) (j : Nat) (a : T), j < l.length →
      List.Perm (geti l j :: l.set j a) (a :: l) := by
  intro l
  induction l with
  | nil => intro j a h; simp at h
  | cons b t ih =>
    intro j a h
    cases j with
    | zero =>
      simp only [geti, List.getElem?_cons_zero, Option.getD_some, List.set_cons_zero]
      exact List.Perm.swap a b t
    | succ j =>
      have hj : j < t.length := by simpa using h
      have h1 : geti (b :: t) (j + 1) = geti t j := by simp [geti]
      rw [h1, List.set_cons_succ]
      exact (List.Perm.swap b (geti t j) _).trans
        (((ih j a hj).cons b).trans (List.Perm.swap a b t))

theorem swap_perm_aux {T : Type} [Inhabited T] :
    ∀ (l : List T) (i j : Nat), i < j → j < l.length →
      List.Perm (SwapElements l i j) l := by
  intro l
  induction l with
  | nil => intro i j _ h; simp at h
  | cons b t ih =>
    intro i j hij hj
    cases i with
    | zero =>
      cases j with
      | zero => omega
      | succ j =>
        have hjt : j < t.length := by simpa using hj
        have h0 : geti (b :: t) (j + 1) = geti t j := by simp [geti]
        have h1 : geti (b :: t) 0 = b := by simp [geti]
        unfold SwapElements
        rw [h0, h1, List.set_cons_zero, List.set_cons_succ]
        exact set_cons_perm t j b hjt
    | succ i =>
      cases j with
      | zero => omega
      | succ j =>
        have hjt : j < t.length := by simpa using hj
        have h0 : geti (b :: t) (j + 1) = geti t j := by simp [geti]
        have h1 : geti (b :: t) (i + 1) = geti t i := by simp [geti]
        unfold SwapElements
        rw [h0, h1, List.set_cons_succ, List.set_cons_succ]
        exact (ih i j (by omega) hjt).cons b

theorem swap_perm {l : List T} {i j : Nat} (hi : i < l.length)
    (hj : j < l.length) : List.Perm (SwapElements l i j) l := by
  rcases Nat.lt_trichotomy i j with h | h | h
  · exact swap_perm_aux l i j h hj
  · subst h; rw [swap_self]
  · rw [swap_comm]; exact swap_perm_aux l j i h hi

end Heap

/-! ## Strict-weak-order facts -/

theorem IsSWO.asymm {T : Type} {cmp : T → T → Bool} (h : IsSWO cmp) {a b : T}
    (hab : cmp a b = true) : cmp b a = false := by
  cases hv : cmp b a with
  | false => rfl
  | true =>
    have := h.cmp_trans a b a hab hv
    rw [h.irrefl] at this
    exact absurd this (by simp)

/-! ## SiftUp lemmas -/

namespace Heap

variable {T : Type} [Inhabited T]

theorem parent_lt {i : Nat} (h : i ≠ 0) : Parent i < i := by
  unfold Parent
  rw [if_neg h]
  omega

theorem parent_le (i : Nat) : Parent i ≤ i := by
  unfold Parent
  split <;> omega

theorem siftUpGo_length (cmp : T → T → Bool) (l : List T) (i n : Nat) :
    (SiftUpGo cmp l i n).1.length = l.length := by
  induction l, i, n using SiftUpGo.induct cmp with
  | case1 l n => rw [SiftUpGo]; simp
  | case2 l i n h hc ih =>
    rw [SiftUpGo]
    simp only [dif_neg h, if_pos hc]
    simpa [SwapElements] using ih
  | case3 l i n h hc =>
    rw [SiftUpGo]
    simp [h, hc]

theorem siftUpGo_perm (cmp : T → T → Bool) :
    ∀ (l : List T) (i n : Nat), i < l.length →
      List.Perm (SiftUpGo cmp l i n).1 l := by
  intro l i n
  induction l, i, n using SiftUpGo.induct cmp with
  | case1 l n =>
    intro _
    rw [SiftUpGo]
    simp
  | case2 l i n h hc ih =>
    intro hi
    have hp : Parent i < l.length := lt_of_le_of_lt (parent_le i) hi
    rw [SiftUpGo]
    simp only [dif_neg h, if_pos hc]
    have hi2 : Parent i < (SwapElements l i (Parent i)).length := by
      rw [length_swap]; exact hp
    exact (ih hi2).trans (swap_perm hi hp)
  | case3 l i n h hc =>
    intro _
    rw [SiftUpGo]
    simp [h, hc]

theorem siftUpGo_geti_above (cmp : T → T → Bool) :
    ∀ (l : List T) (i n : Nat) (j : Nat), i < j →
      geti (SiftUpGo cmp l i n).1 j = geti l j := by
  intro l i n
  induction l, i, n using SiftUpGo.induct cmp with
  | case1 l n =>
    intro j _
    rw [SiftUpGo]
    simp
  | case2 l i n h hc ih =>
    intro j hj
    rw [SiftUpGo]
    simp only [dif_neg h, if_pos hc]
    rw [ih j (lt_of_le_of_lt (parent_le i) hj)]
    exact swap_geti_other (by omega) (by
      have := parent_le i
      omega)
  | case3 l i n h hc =>
    intro j _
    rw [SiftUpGo]
    simp [h, hc]

theorem siftUpGo_accesses (cmp : T → T → Bool) :
    ∀ (l : List T) (i n : Nat) (x : Nat), x ∈ (SiftUpGo cmp l i n).2.2 → x ≤ i := by
  intro l i n
  induction l, i, n using SiftUpGo.induct cmp with
  | case1 l n =>
    intro x hx
    rw [SiftUpGo] at hx
    simp at hx
  | case2 l i n h hc ih =>
    intro x hx
    rw [SiftUpGo] at hx
    simp only [dif_neg h, if_pos hc, List.mem_cons] at hx
    rcases hx with rfl | rfl | hx
    · exact le_refl _
    · exact parent_le i
    · exact le_trans (le_trans (ih x hx) (parent_le i)) (le_refl i)
  | case3 l i n h hc =>
    intro x hx
    rw [SiftUpGo] at hx
    simp only [dif_neg h, if_neg hc, List.mem_cons, List.not_mem_nil,
      or_false] at hx
    rcases hx with rfl | rfl
    · exact le_refl _
    · exact parent_le i

theorem siftUpGo_result (cmp : T → T → Bool) :
    ∀ (l : List T) (i n : Nat), i < l.length →
      ((SiftUpGo cmp l i n).2.1 = n ∧
        geti (SiftUpGo cmp l i n).1 0 = geti l i) ∨
      geti (SiftUpGo cmp l i n).1 (SiftUpGo cmp l i n).2.1 = geti l i := by
  intro l i n
  induction l, i, n using SiftUpGo.induct cmp with
  | case1 l n =>
    intro _
    rw [SiftUpGo]
    simp
  | case2 l i n h hc ih =>
    intro hi
    have hp : Parent i < l.length := lt_of_le_of_lt (parent_le i) hi
    have hkey : geti (SwapElements l i (Parent i)) (Parent i) = geti l i :=
      swap_geti_snd hi hp
    rw [SiftUpGo]
    simp only [dif_neg h, if_pos hc]
    have hi2 : Parent i < (SwapElements l i (Parent i)).length := by
      rw [length_swap]; exact hp
    rcases ih hi2 with ⟨h1, h2⟩ | h1
    · exact Or.inl ⟨h1, by rw [h2, hkey]⟩
    · exact Or.inr (by rw [h1, hkey])
  | case3 l i n h hc =>
    intro _
    rw [SiftUpGo]
    simp [h, hc]

theorem swap_append {l : List T} {z : T} {i j : Nat} (hi : i < l.length)
    (hj : j < l.length) :
    SwapElements (l ++ [z]) i j = SwapElements l i j ++ [z] := by
  unfold SwapElements
  rw [geti_append_lt hj, geti_append_lt hi, List.set_append, if_pos hi,
    List.set_append, if_pos (by simpa using hj)]

theorem siftUpGo_confine (cmp : T → T → Bool) :
    ∀ (l : List T) (i n : Nat) (z : T), i < l.length →
      SiftUpGo cmp (l ++ [z]) i n =
        ((SiftUpGo cmp l i n).1 ++ [z], (SiftUpGo cmp l i n).2.1,
          (SiftUpGo cmp l i n).2.2) := by
  intro l i n
  induction l, i, n using SiftUpGo.induct cmp with
  | case1 l n =>
    intro z _
    rw [SiftUpGo]
    conv_rhs => rw [SiftUpGo]
    simp
  | case2 l i n h hc ih =>
    intro z hi
    have hp : Parent i < l.length := lt_of_le_of_lt (parent_le i) hi
    have hcz : CompareElements cmp (l ++ [z]) i (Parent i) = true := by
      unfold CompareElements at hc ⊢
      rw [geti_append_lt hi, geti_append_lt hp]
      exact hc
    conv_lhs => rw [SiftUpGo]
    conv_rhs => rw [SiftUpGo]
    simp only [dif_neg h, if_pos hcz, if_pos hc]
    rw [swap_append hi hp, ih z (by rw [length_swap]; exact hp)]
  | case3 l i n h hc =>
    intro z hi
    have hp : Parent i < l.length := lt_of_le_of_lt (parent_le i) hi
    have hcz : ¬(CompareElements cmp (l ++ [z]) i (Parent i) = true) := by
      unfold CompareElements at hc ⊢
      rw [geti_append_lt hi, geti_append_lt hp]
      exact hc
    conv_lhs => rw [SiftUpGo]
    conv_rhs => rw [SiftUpGo]
    simp only [dif_neg h, if_neg hcz, if_neg hc]

theorem siftUpGo_heapProp (cmp : T → T → Bool) (hswo : IsSWO cmp) :
    ∀ (l : List T) (i n : Nat), i < l.length → SiftUpState cmp l i →
      HeapProp cmp (SiftUpGo cmp l i n).1 := by
  intro l i n
  induction l, i, n using SiftUpGo.induct cmp with
  | case1 l n =>
    intro _ hst
    rw [SiftUpGo]
    simp only [dif_pos rfl]
    intro c hcl hc0
    exact hst.1 c hcl hc0 (by omega)
  | case3 l i n h hc =>
    intro hi hst
    rw [SiftUpGo]
    simp only [dif_neg h, if_neg hc]
    intro c hcl hc0
    by_cases hci : c = i
    · subst hci
      simpa [CompareElements] using hc
    · exact hst.1 c hcl hc0 hci
  | case2 l i n h hc ih =>
    intro hi hst
    rw [SiftUpGo]
    simp only [dif_neg h, if_pos hc]
    set p := Parent i with hp_def
    have hpi : p < i := parent_lt h
    have hpl : p < l.length := lt_trans hpi hi
    have hlen' : (SwapElements l i p).length = l.length := length_swap l i p
    have hgi : geti (SwapElements l i p) p = geti l i := swap_geti_snd hi hpl
    have hgp : geti (SwapElements l i p) i = geti l p := by
      rw [swap_comm]
      exact swap_geti_snd hpl hi
    have hother : ∀ k, k ≠ i → k ≠ p →
        geti (SwapElements l i p) k = geti l k := fun k hki hkp =>
      swap_geti_other hki hkp
    have hcmp : cmp (geti l i) (geti l p) = true := hc
    have hst' : SiftUpState cmp (SwapElements l i p) p := by
      constructor
      · intro c hcl hc0 hcp
        rw [hlen'] at hcl
        by_cases hci : c = i
        · subst hci
          rw [hgp, show Parent c = p from hp_def.symm, hgi]
          exact hswo.asymm hcmp
        · have hgc : geti (SwapElements l i p) c = geti l c := hother c hci hcp
          by_cases hpci : Parent c = i
          · rw [hgc, hpci, hgp]
            have h2 := hst.2 c hcl hc0 hpci
            rwa [← hp_def] at h2
          · by_cases hpcp : Parent c = p
            · rw [hgc, hpcp, hgi]
              have h1 : cmp (geti l c) (geti l p) = false := by
                have h3 := hst.1 c hcl hc0 hci
                rwa [hpcp] at h3
              cases hq : cmp (geti l c) (geti l i) with
              | false => rfl
              | true =>
                have h4 := hswo.cmp_trans _ _ _ hq hcmp
                rw [h1] at h4
                exact absurd h4 (by simp)
            · rw [hgc, hother (Parent c) hpci hpcp]
              exact hst.1 c hcl hc0 hci
      · intro c hcl hc0 hpc
        rw [hlen'] at hcl
        by_cases hp0 : p = 0
        · have hpp0 : Parent p = p := by rw [hp0]; rfl
          rw [hpp0, hgi]
          by_cases hci : c = i
          · subst hci
            rw [hgp]
            exact hswo.asymm hcmp
          · have hcp : c ≠ p := by omega
            rw [hother c hci hcp]
            have h1 : cmp (geti l c) (geti l p) = false := by
              have h3 := hst.1 c hcl hc0 hci
              rwa [hpc] at h3
            cases hq : cmp (geti l c) (geti l i) with
            | false => rfl
            | true =>
              have h4 := hswo.cmp_trans _ _ _ hq hcmp
              rw [h1] at h4
              exact absurd h4 (by simp)
        · have hppp : Parent p < p := parent_lt hp0
          have hz1 : Parent p ≠ i := by omega
          have hz2 : Parent p ≠ p := by omega
          rw [hother (Parent p) hz1 hz2]
          by_cases hci : c = i
          · subst hci
            rw [hgp]
            exact hst.1 p hpl (by omega) (by omega)
          · have hcc : Parent c < c := parent_lt (by omega)
            have hcp : c ≠ p := by omega
            rw [hother c hci hcp]
            have h1 : cmp (geti l c) (geti l p) = false := by
              have h3 := hst.1 c hcl hc0 hci
              rwa [hpc] at h3
            have h2 : cmp (geti l p) (geti l (Parent p)) = false :=
              hst.1 p hpl (by omega) (by omega)
            exact hswo.negtrans _ _ _ h1 h2
    exact ih (by rw [hlen']; exact hpl) hst'

end Heap

/-! ## SiftDown lemmas -/

namespace Heap

variable {T : Type} [Inhabited T]

theorem parent_child_left (i : Nat) : Parent (2 * i + 1) = i := by
  simp only [Parent]
  split <;> omega

theorem parent_child_right (i : Nat) : Parent (2 * i + 2) = i := by
  simp only [Parent]
  split <;> omega

theorem children_of {c i : Nat} (hp : Parent c = i) (hc0 : 0 < c) :
    c = 2 * i + 1 ∨ c = 2 * i + 2 := by
  simp only [Parent] at hp
  split at hp <;> omega

theorem leftSon_of_ne {size i : Nat} (h : LeftSon size i ≠ kNullIndex) :
    LeftSon size i = 2 * i + 1 ∧ 2 * i + 1 < size := by
  by_cases hc : i < size / 2
  · exact ⟨by simp only [LeftSon, if_pos hc], by omega⟩
  · simp only [LeftSon, if_neg hc] at h
    exact absurd rfl h

theorem rightSon_of_ne {size i : Nat} (h : RightSon size i ≠ kNullIndex) :
    RightSon size i = 2 * i + 2 ∧ 2 * i + 2 < size := by
  by_cases hc : size > 2 ∧ i < (size - 1) / 2
  · exact ⟨by simp only [RightSon, if_pos hc], by omega⟩
  · simp only [RightSon, if_neg hc] at h
    exact absurd rfl h

theorem rightSon_ne_of_lt {size i : Nat} (h : 2 * i + 2 < size)
    (hsize : size ≤ kNullIndex) : RightSon size i ≠ kNullIndex := by
  have hc : size > 2 ∧ i < (size - 1) / 2 := by omega
  simp only [RightSon, if_pos hc]
  simp only [kNullIndex] at hsize ⊢
  omega

theorem no_child_of_leftSon_null {size i c : Nat} (h : LeftSon size i = kNullIndex)
    (hsize : size ≤ kNullIndex) (hc : c < size) (hc0 : 0 < c)
    (hp : Parent c = i) : False := by
  simp only [Parent] at hp
  simp only [LeftSon] at h
  simp only [kNullIndex] at h hsize
  split at hp
  · omega
  · split at h <;> omega

/-- The two possible outcomes of the best_son_index choice. -/
theorem bestSon_cases (cmp : T → T → Bool) (l : List T) (i : Nat) :
    (BestSon cmp l i = LeftSon l.length i ∧
      (RightSon l.length i ≠ kNullIndex →
        cmp (geti l (RightSon l.length i)) (geti l (LeftSon l.length i)) = false)) ∨
    (BestSon cmp l i = RightSon l.length i ∧ RightSon l.length i ≠ kNullIndex ∧
      cmp (geti l (RightSon l.length i)) (geti l (LeftSon l.length i)) = true) := by
  by_cases hc : RightSon l.length i ≠ kNullIndex ∧
      CompareElements cmp l (RightSon l.length i) (LeftSon l.length i) = true
  · refine Or.inr ⟨?_, hc.1, hc.2⟩
    simp only [BestSon, if_pos hc]
  · refine Or.inl ⟨?_, ?_⟩
    · simp only [BestSon, if_neg hc]
    · intro hrs
      rcases Decidable.not_and_iff_or_not.mp hc with h1 | h2
      · exact absurd hrs h1
      · simpa [CompareElements] using h2

/-- In the non-null case, BestSon is a strict child of the hole. -/
theorem bestSon_bounds (cmp : T → T → Bool) (l : List T) (i : Nat)
    (h : LeftSon l.length i ≠ kNullIndex) :
    Parent (BestSon cmp l i) = i ∧ i < BestSon cmp l i ∧
      BestSon cmp l i < l.length ∧ 0 < BestSon cmp l i := by
  obtain ⟨hls, hlt⟩ := leftSon_of_ne h
  rcases bestSon_cases cmp l i with ⟨hb, _⟩ | ⟨hb, hrs, _⟩
  · rw [hb, hls]
    exact ⟨parent_child_left i, by omega, by omega, by omega⟩
  · obtain ⟨hrv, hrlt⟩ := rightSon_of_ne hrs
    rw [hb, hrv]
    exact ⟨parent_child_right i, by omega, by omega, by omega⟩

theorem siftDown_length (cmp : T → T → Bool) :
    ∀ (l : List T) (i : Nat), (SiftDown cmp l i).1.length = l.length := by
  intro l i
  induction l, i using SiftDown.induct cmp with
  | case1 l i h =>
    rw [SiftDown]
    simp [h]
  | case2 l i h hc ih =>
    rw [SiftDown]
    simp only [dif_neg h, if_pos hc]
    rw [ih, length_swap]
  | case3 l i h hc =>
    rw [SiftDown]
    simp [h, hc]

theorem siftDown_perm (cmp : T → T → Bool) :
    ∀ (l : List T) (i : Nat), List.Perm (SiftDown cmp l i).1 l := by
  intro l i
  induction l, i using SiftDown.induct cmp with
  | case1 l i h =>
    rw [SiftDown]
    simp [h]
  | case2 l i h hc ih =>
    obtain ⟨_, hbi, hbl, _⟩ := bestSon_bounds cmp l i h
    have hil : i < l.length := by omega
    rw [SiftDown]
    simp only [dif_neg h, if_pos hc]
    exact ih.trans (swap_perm hbl hil)
  | case3 l i h hc =>
    rw [SiftDown]
    simp [h, hc]

theorem siftDown_accesses (cmp : T → T → Bool) :
    ∀ (l : List T) (i : Nat), ∀ x ∈ (SiftDown cmp l i).2, x < l.length := by
  intro l i
  induction l, i using SiftDown.induct cmp with
  | case1 l i h =>
    intro x hx
    rw [SiftDown] at hx
    simp [h] at hx
  | case2 l i h hc ih =>
    intro x hx
    obtain ⟨_, hbi, hbl, _⟩ := bestSon_bounds cmp l i h
    obtain ⟨hls, hlt⟩ := leftSon_of_ne h
    rw [SiftDown] at hx
    simp only [dif_neg h, if_pos hc] at hx
    rw [List.mem_append, List.mem_append] at hx
    rcases hx with (hx | hx) | hx
    · unfold BestSonAccess at hx
      split at hx
      next hrs =>
        obtain ⟨hrv, hrlt⟩ := rightSon_of_ne hrs
        simp only [List.mem_cons, List.not_mem_nil, or_false] at hx
        rcases hx with rfl | rfl
        · omega
        · omega
      next => simp at hx
    · simp only [List.mem_cons, List.not_mem_nil, or_false] at hx
      rcases hx with rfl | rfl
      · exact hbl
      · omega
    · have h2 := ih x hx
      rwa [length_swap] at h2
  | case3 l i h hc =>
    intro x hx
    obtain ⟨_, hbi, hbl, _⟩ := bestSon_bounds cmp l i h
    obtain ⟨hls, hlt⟩ := leftSon_of_ne h
    rw [SiftDown] at hx
    simp only [dif_neg h, if_neg hc] at hx
    rw [List.mem_append] at hx
    rcases hx with hx | hx
    · unfold BestSonAccess at hx
      split at hx
      next hrs =>
        obtain ⟨hrv, hrlt⟩ := rightSon_of_ne hrs
        simp only [List.mem_cons, List.not_mem_nil, or_false] at hx
        rcases hx with rfl | rfl
        · omega
        · omega
      next => simp at hx
    · simp only [List.mem_cons, List.not_mem_nil, or_false] at hx
      rcases hx with rfl | rfl
      · exact hbl
      · omega

theorem siftDown_noop (cmp : T → T → Bool) (l : List T) (i : Nat)
    (hheap : HeapProp cmp l) : (SiftDown cmp l i).1 = l := by
  rw [SiftDown]
  by_cases h : LeftSon l.length i = kNullIndex
  · simp [h]
  · obtain ⟨hpb, hbi, hbl, hb0⟩ := bestSon_bounds cmp l i h
    have hcmp : CompareElements cmp l (BestSon cmp l i) i = false := by
      have := hheap (BestSon cmp l i) hbl hb0
      rwa [hpb] at this
    simp [h, hcmp]

theorem siftDown_heapProp (cmp : T → T → Bool) (hswo : IsSWO cmp) :
    ∀ (l : List T) (i : Nat), l.length ≤ kNullIndex → SiftDownState cmp l i →
      HeapProp cmp (SiftDown cmp l i).1 := by
  intro l i
  induction l, i using SiftDown.induct cmp with
  | case1 l i h =>
    intro hlen hst
    rw [SiftDown]
    simp only [dif_pos h]
    show HeapProp cmp l
    intro c hcl hc0
    by_cases hpc : Parent c = i
    · exact (no_child_of_leftSon_null h hlen hcl hc0 hpc).elim
    · exact hst.1 c hcl hc0 hpc
  | case3 l i h hc =>
    intro hlen hst
    rw [SiftDown]
    simp only [dif_neg h, if_neg hc]
    show HeapProp cmp l
    obtain ⟨hls, hlt⟩ := leftSon_of_ne h
    intro c hcl hc0
    by_cases hpc : Parent c = i
    · rcases children_of hpc hc0 with rfl | rfl
      · rcases bestSon_cases cmp l i with ⟨hb, _⟩ | ⟨hb, hrs, hcmp⟩
        · have hcf : cmp (geti l (2 * i + 1)) (geti l i) = false := by
            have h9 := hc
            rw [hb, hls] at h9
            simpa [CompareElements] using h9
          rw [hpc]
          exact hcf
        · have hrf : cmp (geti l (RightSon l.length i)) (geti l i) = false := by
            have h9 := hc
            rw [hb] at h9
            simpa [CompareElements] using h9
          obtain ⟨hrv, _⟩ := rightSon_of_ne hrs
          rw [hpc]
          cases hq : cmp (geti l (2 * i + 1)) (geti l i) with
          | false => rfl
          | true =>
            have hcmp2 : cmp (geti l (2 * i + 2)) (geti l (2 * i + 1)) = true := by
              rwa [hrv, hls] at hcmp
            have h4 := hswo.cmp_trans _ _ _ hcmp2 hq
            rw [hrv] at hrf
            rw [hrf] at h4
            exact absurd h4 (by simp)
      · have hrs : RightSon l.length i ≠ kNullIndex := rightSon_ne_of_lt hcl hlen
        obtain ⟨hrv, _⟩ := rightSon_of_ne hrs
        rw [hpc]
        rcases bestSon_cases cmp l i with ⟨hb, himp⟩ | ⟨hb, hrs2, _⟩
        · have hlf : cmp (geti l (2 * i + 1)) (geti l i) = false := by
            have h9 := hc
            rw [hb, hls] at h9
            simpa [CompareElements] using h9
          have hrlf : cmp (geti l (2 * i + 2)) (geti l (2 * i + 1)) = false := by
            have h9 := himp hrs
            rwa [hrv, hls] at h9
          exact hswo.negtrans _ _ _ hrlf hlf
        · have h9 := hc
          rw [hb, hrv] at h9
          simpa [CompareElements] using h9
    · exact hst.1 c hcl hc0 hpc
  | case2 l i h hc ih =>
    intro hlen hst
    rw [SiftDown]
    simp only [dif_neg h, if_pos hc]
    obtain ⟨hpb, hbi, hbl, hb0⟩ := bestSon_bounds cmp l i h
    obtain ⟨hls, hlt⟩ := leftSon_of_ne h
    have hil : i < l.length := by omega
    set b := BestSon cmp l i with hb_def
    set l' := SwapElements l b i with hl'_def
    have hlen' : l'.length = l.length := length_swap l b i
    have hgb : geti l' b = geti l i := swap_geti_fst (by omega) hbl
    have hgi : geti l' i = geti l b := swap_geti_snd hbl hil
    have hother : ∀ k, k ≠ b → k ≠ i → geti l' k = geti l k := fun k h1 h2 =>
      swap_geti_other h1 h2
    have hcmpb : cmp (geti l b) (geti l i) = true := by
      simpa [CompareElements] using hc
    have hst' : SiftDownState cmp l' b := by
      constructor
      · intro c hcl hc0 hpc
        rw [hlen'] at hcl
        by_cases hci : c = i
        · subst hci
          rw [hgi, hother (Parent c) (by
              have := parent_lt (show c ≠ 0 by omega)
              omega) (by
              have := parent_lt (show c ≠ 0 by omega)
              omega)]
          exact hst.2 b hbl hb0 hpb hc0
        · by_cases hcb : c = b
          · subst hcb
            rw [hgb, hpb, hgi]
            exact hswo.asymm hcmpb
          · rw [hother c hcb hci]
            by_cases hpci : Parent c = i
            · rcases children_of hpci hc0 with hcv | hcv
              · rw [hpci, hgi]
                rcases bestSon_cases cmp l i with ⟨hb2, _⟩ | ⟨hb2, hrs, hcmp2⟩
                · exact absurd (by rw [hb_def, hb2, hls, hcv] : c = b).symm
                    (Ne.symm hcb)
                · obtain ⟨hrv, _⟩ := rightSon_of_ne hrs
                  have h6 := hswo.asymm hcmp2
                  rw [hrv, hls] at h6
                  rw [hcv, show b = 2 * i + 2 by rw [hb_def, hb2, hrv]]
                  exact h6
              · rw [hpci, hgi]
                rcases bestSon_cases cmp l i with ⟨hb2, himp⟩ | ⟨hb2, hrs, _⟩
                · have hrs : RightSon l.length i ≠ kNullIndex :=
                    rightSon_ne_of_lt (by omega) hlen
                  obtain ⟨hrv, _⟩ := rightSon_of_ne hrs
                  have h5 := himp hrs
                  rw [hrv, hls] at h5
                  rw [hcv, show b = 2 * i + 1 by rw [hb_def, hb2, hls]]
                  exact h5
                · exfalso
                  apply hcb
                  obtain ⟨hrv, _⟩ := rightSon_of_ne hrs
                  rw [hb_def, hb2, hrv, hcv]
            · rw [hother (Parent c) hpc hpci]
              exact hst.1 c hcl hc0 hpci
      · intro c hcl hc0 hpc hb0'
        rw [hlen'] at hcl
        have hplt : Parent c < c := parent_lt (by omega)
        have hcb : c ≠ b := by omega
        have hci : c ≠ i := by omega
        rw [hother c hcb hci, hpb, hgi]
        have h7 := hst.1 c hcl hc0 (by rw [hpc]; omega)
        rwa [hpc] at h7
    exact ih (by rw [hlen']; exact hlen) hst'

end Heap

/-! ## Top, push and erase lemmas -/

theorem dropLast_append_geti {T : Type} [Inhabited T] (m : List T) (h : m ≠ []) :
    m.dropLast ++ [geti m (m.length - 1)] = m := by
  have hl : m.length - 1 < m.length := by
    cases m
    · simp at h
    · simp
  rw [geti_eq_getElem hl, ← List.getLast_eq_getElem m h]
  exact List.dropLast_append_getLast h

namespace Heap

variable {T : Type} [Inhabited T]

/-- With a strict weak order, the root of a heap-ordered storage is extremal:
no element compares ahead of it. -/
theorem heapProp_top (cmp : T → T → Bool) (hswo : IsSWO cmp) (l : List T)
    (hheap : HeapProp cmp l) :
    ∀ j, j < l.length → cmp (geti l j) (geti l 0) = false := by
  intro j
  induction j using Nat.strong_induction_on with
  | _ j ih =>
    intro hj
    by_cases hj0 : j = 0
    · subst hj0
      exact hswo.irrefl _
    · have h1 := hheap j hj (Nat.pos_of_ne_zero hj0)
      have h2 := ih (Parent j) (parent_lt hj0)
        (lt_of_le_of_lt (parent_le j) hj)
      exact hswo.negtrans _ _ _ h1 h2

theorem heapProp_dropLast (cmp : T → T → Bool) (l : List T)
    (hheap : HeapProp cmp l) : HeapProp cmp l.dropLast := by
  intro c hcl hc0
  rw [List.length_dropLast] at hcl
  rw [geti_dropLast hcl, geti_dropLast (lt_of_le_of_lt (parent_le c) hcl)]
  exact hheap c (by omega) hc0

theorem push_length (cmp : T → T → Bool) (l : List T) (v : T) :
    (push cmp l v).1.length = l.length + 1 := by
  simp only [push, SiftUp]
  rw [siftUpGo_length]
  simp

theorem push_perm (cmp : T → T → Bool) (l : List T) (v : T) :
    List.Perm (push cmp l v).1 (l ++ [v]) := by
  simp only [push, SiftUp]
  exact siftUpGo_perm cmp (l ++ [v]) _ _ (by simp)

theorem push_heapProp (cmp : T → T → Bool) (hswo : IsSWO cmp) (l : List T)
    (v : T) (hheap : HeapProp cmp l) : HeapProp cmp (push cmp l v).1 := by
  simp only [push, SiftUp]
  apply siftUpGo_heapProp cmp hswo _ _ _ (by simp)
  constructor
  · intro c hcl hc0 hcn
    have hcl2 : c < l.length := by
      simp at hcl hcn
      omega
    rw [geti_append_lt hcl2, geti_append_lt (lt_of_le_of_lt (parent_le c) hcl2)]
    exact hheap c hcl2 hc0
  · intro c hcl hc0 hpc
    exfalso
    simp only [List.length_append, List.length_cons, List.length_nil] at hcl hpc
    rcases children_of hpc hc0 with hcv | hcv <;> omega

/-- What the index returned by push points at: the pushed value, except when
the value rose all the way to the root from a non-root start, in which case
push returns the insertion index while the value sits at slot 0. -/
theorem push_result (cmp : T → T → Bool) (l : List T) (v : T) :
    geti (push cmp l v).1 (push cmp l v).2 = v ∨
    ((push cmp l v).2 = l.length ∧ geti (push cmp l v).1 0 = v) := by
  have hlen : (l ++ [v]).length - 1 < (l ++ [v]).length := by simp
  have hval : geti (l ++ [v]) ((l ++ [v]).length - 1) = v := by
    have : (l ++ [v]).length - 1 = l.length := by simp
    rw [this]
    exact geti_concat_len
  have h := siftUpGo_result cmp (l ++ [v]) ((l ++ [v]).length - 1)
    ((l ++ [v]).length - 1) hlen
  rw [hval] at h
  simp only [push, SiftUp]
  rcases h with ⟨h1, h2⟩ | h1
  · right
    refine ⟨?_, h2⟩
    rw [h1]
    simp
  · left
    exact h1

theorem siftUpGo_confine_fst (cmp : T → T → Bool) (l : List T) (i n : Nat)
    (z : T) (hi : i < l.length) :
    (SiftUpGo cmp (l ++ [z]) i n).1 = (SiftUpGo cmp l i n).1 ++ [z] := by
  rw [siftUpGo_confine cmp l i n z hi]

/-- erase at the last slot, when the buffer sift-up's first comparison fails
(or the slot is the root): the result is exactly the storage minus its last
entry. -/
theorem erase_last (cmp : T → T → Bool) (l : List T)
    (hc : cmp (geti l (l.length - 1)) (geti l (Parent (l.length - 1))) = false ∨
      l.length - 1 = 0) :
    (erase cmp l (l.length - 1)).1 = l.dropLast := by
  simp only [erase, SiftUp]
  rw [swap_self]
  have h1 : (SiftUpGo cmp l (l.length - 1) (l.length - 1)).1 = l := by
    by_cases h0 : l.length - 1 = 0
    · rw [h0, SiftUpGo]
      simp
    · rcases hc with hc | hc
      · rw [SiftUpGo]
        simp only [dif_neg h0]
        rw [if_neg (by simpa [CompareElements] using hc)]
      · exact absurd hc h0
  rw [h1]
  rw [SiftDown]
  have h2 : LeftSon (l.length - 1) (l.length - 1) = kNullIndex := by
    simp only [LeftSon]
    rw [if_neg (by omega)]
  simp [List.length_dropLast, h2]

/-- erase below the last slot: the sift-up stays inside the popped storage,
so erase is sift-up then sift-down on the swapped-and-popped storage. -/
theorem erase_decompose (cmp : T → T → Bool) (l : List T) (i : Nat)
    (hi : i + 1 < l.length) :
    (erase cmp l i).1 =
      (SiftDown cmp
        (SiftUpGo cmp ((SwapElements l i (l.length - 1)).dropLast) i i).1 i).1 := by
  simp only [erase, SiftUp]
  have hne : SwapElements l i (l.length - 1) ≠ [] := by
    intro hcon
    have h3 := length_swap l i (l.length - 1)
    rw [hcon] at h3
    simp at h3
    omega
  have hlast : geti (SwapElements l i (l.length - 1))
      ((SwapElements l i (l.length - 1)).length - 1) = geti l i := by
    rw [length_swap]
    exact swap_geti_snd (by omega) (by omega)
  have hdecomp : (SwapElements l i (l.length - 1)).dropLast ++ [geti l i] =
      SwapElements l i (l.length - 1) := by
    rw [← hlast]
    exact dropLast_append_geti _ hne
  conv_lhs => rw [← hdecomp]
  rw [siftUpGo_confine_fst cmp _ i i _
    (by rw [List.length_dropLast, length_swap]; omega), List.dropLast_concat]

/-- Full correctness of erase on a heap-ordered storage: the element at the
erased slot is removed, the rest is a permutation, and the result is
heap-ordered again. -/
theorem erase_spec (cmp : T → T → Bool) (hswo : IsSWO cmp) (l : List T) (i : Nat)
    (hi : i < l.length) (hlen : l.length ≤ kNullIndex) (hheap : HeapProp cmp l) :
    List.Perm ((erase cmp l i).1 ++ [geti l i]) l ∧
    HeapProp cmp (erase cmp l i).1 ∧
    (erase cmp l i).1.length = l.length - 1 := by
  by_cases hcase : i + 1 < l.length
  · have hne : SwapElements l i (l.length - 1) ≠ [] := by
      intro hcon
      have h3 := length_swap l i (l.length - 1)
      rw [hcon] at h3
      simp at h3
      omega
    have hD_len : (SwapElements l i (l.length - 1)).dropLast.length = l.length - 1 := by
      rw [List.length_dropLast, length_swap]
    have hD_i : geti (SwapElements l i (l.length - 1)).dropLast i =
        geti l (l.length - 1) := by
      rw [geti_dropLast (by rw [length_swap]; omega)]
      exact swap_geti_fst (by omega) (by omega)
    have hD_other : ∀ k, k < l.length - 1 → k ≠ i →
        geti (SwapElements l i (l.length - 1)).dropLast k = geti l k := by
      intro k hk hki
      rw [geti_dropLast (by rw [length_swap]; omega)]
      exact swap_geti_other hki (by omega)
    have hDperm : List.Perm
        ((SwapElements l i (l.length - 1)).dropLast ++ [geti l i]) l := by
      have hlast : geti (SwapElements l i (l.length - 1))
          ((SwapElements l i (l.length - 1)).length - 1) = geti l i := by
        rw [length_swap]
        exact swap_geti_snd (by omega) (by omega)
      rw [← hlast, dropLast_append_geti _ hne]
      exact swap_perm (by omega) (by omega)
    rw [erase_decompose cmp l i hcase]
    set D := (SwapElements l i (l.length - 1)).dropLast with hD_def
    by_cases hB : i ≠ 0 ∧ cmp (geti D i) (geti D (Parent i)) = true
    · obtain ⟨hi0, hcB⟩ := hB
      have hpil : Parent i < l.length - 1 := by
        have := parent_lt hi0
        omega
      have hDP : geti D (Parent i) = geti l (Parent i) :=
        hD_other (Parent i) hpil (by have := parent_lt hi0; omega)
      have hup : SiftUpState cmp D i := by
        constructor
        · intro c hcl hc0 hcn
          rw [hD_len] at hcl
          by_cases hpci : Parent c = i
          · rw [hD_other c hcl hcn, hpci]
            cases hq : cmp (geti l c) (geti D i) with
            | false => rfl
            | true =>
              have h3 := hswo.cmp_trans _ _ _ hq hcB
              rw [hDP] at h3
              have h1 : cmp (geti l c) (geti l i) = false := by
                have h5 := hheap c (by omega) hc0
                rwa [hpci] at h5
              have h2 : cmp (geti l i) (geti l (Parent i)) = false :=
                hheap i hi (Nat.pos_of_ne_zero hi0)
              have h4 := hswo.negtrans _ _ _ h1 h2
              rw [h4] at h3
              exact absurd h3 (by simp)
          · rw [hD_other c hcl hcn,
              hD_other (Parent c) (lt_of_le_of_lt (parent_le c) hcl) hpci]
            exact hheap c (by omega) hc0
        · intro c hcl hc0 hpci
          rw [hD_len] at hcl
          have hcip : i < c := by
            have := parent_lt (Nat.pos_iff_ne_zero.mp hc0)
            omega
          rw [hD_other c hcl (by omega), hDP]
          have h1 : cmp (geti l c) (geti l i) = false := by
            have h5 := hheap c (by omega) hc0
            rwa [hpci] at h5
          have h2 : cmp (geti l i) (geti l (Parent i)) = false :=
            hheap i hi (Nat.pos_of_ne_zero hi0)
          exact hswo.negtrans _ _ _ h1 h2
      have hprop := siftUpGo_heapProp cmp hswo D i i (by rw [hD_len]; omega) hup
      have hnoop := siftDown_noop cmp _ i hprop
      rw [hnoop]
      refine ⟨?_, hprop, ?_⟩
      · exact ((siftUpGo_perm cmp D i i (by rw [hD_len]; omega)).append_right _).trans
          hDperm
      · rw [siftUpGo_length, hD_len]
    · have hcfA : i ≠ 0 → cmp (geti D i) (geti D (Parent i)) = false := by
        intro h0
        rcases not_and_or.mp hB with h1 | h2
        · exact absurd h0 h1
        · simpa using h2
      have hid : (SiftUpGo cmp D i i).1 = D := by
        by_cases h0 : i = 0
        · rw [h0, SiftUpGo]
          simp
        · rw [SiftUpGo]
          simp only [dif_neg h0]
          rw [if_neg (by simpa [CompareElements] using hcfA h0)]
      rw [hid]
      have hdown : SiftDownState cmp D i := by
        constructor
        · intro c hcl hc0 hpc
          rw [hD_len] at hcl
          by_cases hci : c = i
          · subst hci
            exact hcfA (by omega)
          · rw [hD_other c hcl hci,
              hD_other (Parent c) (lt_of_le_of_lt (parent_le c) hcl) hpc]
            exact hheap c (by omega) hc0
        · intro c hcl hc0 hpci hi0
          rw [hD_len] at hcl
          have hcip : i < c := by
            have := parent_lt (Nat.pos_iff_ne_zero.mp hc0)
            omega
          have hpil : Parent i < l.length - 1 := by
            have := parent_lt (Nat.pos_iff_ne_zero.mp hi0)
            omega
          rw [hD_other c hcl (by omega),
            hD_other (Parent i) hpil
              (by have := parent_lt (Nat.pos_iff_ne_zero.mp hi0); omega)]
          have h1 : cmp (geti l c) (geti l i) = false := by
            have h5 := hheap c (by omega) hc0
            rwa [hpci] at h5
          have h2 : cmp (geti l i) (geti l (Parent i)) = false :=
            hheap i hi hi0
          exact hswo.negtrans _ _ _ h1 h2
      have hprop := siftDown_heapProp cmp hswo D i (by rw [hD_len]; omega) hdown
      refine ⟨?_, hprop, ?_⟩
      · exact ((siftDown_perm cmp D i).append_right _).trans hDperm
      · rw [siftDown_length, hD_len]
  · have hival : i = l.length - 1 := by omega
    have hcc : cmp (geti l (l.length - 1)) (geti l (Parent (l.length - 1))) = false ∨
        l.length - 1 = 0 := by
      by_cases h0 : l.length - 1 = 0
      · exact Or.inr h0
      · exact Or.inl (hheap (l.length - 1) (by omega) (by omega))
    rw [hival, erase_last cmp l hcc]
    refine ⟨?_, heapProp_dropLast cmp l hheap, by simp⟩
    rw [dropLast_append_geti l (by intro hcon; rw [hcon] at hi; simp at hi)]

/-- Correctness of erase at the root when only the root's child edges may be
unordered (the manager shrinks the root's segment before erasing it). -/
theorem erase_spec_root (cmp : T → T → Bool) (hswo : IsSWO cmp) (l : List T)
    (hne0 : l ≠ []) (hlen : l.length ≤ kNullIndex)
    (hroot : ∀ c, c < l.length → 0 < c → Parent c ≠ 0 →
      cmp (geti l c) (geti l (Parent c)) = false) :
    List.Perm ((erase cmp l 0).1 ++ [geti l 0]) l ∧
    HeapProp cmp (erase cmp l 0).1 ∧
    (erase cmp l 0).1.length = l.length - 1 := by
  by_cases hcase : 0 + 1 < l.length
  · have hne : SwapElements l 0 (l.length - 1) ≠ [] := by
      intro hcon
      have h3 := length_swap l 0 (l.length - 1)
      rw [hcon] at h3
      simp at h3
      omega
    have hD_len : (SwapElements l 0 (l.length - 1)).dropLast.length = l.length - 1 := by
      rw [List.length_dropLast, length_swap]
    have hD_other : ∀ k, k < l.length - 1 → k ≠ 0 →
        geti (SwapElements l 0 (l.length - 1)).dropLast k = geti l k := by
      intro k hk hki
      rw [geti_dropLast (by rw [length_swap]; omega)]
      exact swap_geti_other hki (by omega)
    have hDperm : List.Perm
        ((SwapElements l 0 (l.length - 1)).dropLast ++ [geti l 0]) l := by
      have hlast : geti (SwapElements l 0 (l.length - 1))
          ((SwapElements l 0 (l.length - 1)).length - 1) = geti l 0 := by
        rw [length_swap]
        exact swap_geti_snd (by omega) (by omega)
      rw [← hlast, dropLast_append_geti _ hne]
      exact swap_perm (by omega) (by omega)
    rw [erase_decompose cmp l 0 hcase]
    set D := (SwapElements l 0 (l.length - 1)).dropLast with hD_def
    have hid : (SiftUpGo cmp D 0 0).1 = D := by
      rw [SiftUpGo]
      simp
    rw [hid]
    have hdown : SiftDownState cmp D 0 := by
      constructor
      · intro c hcl hc0 hpc
        rw [hD_len] at hcl
        rw [hD_other c hcl (by omega),
          hD_other (Parent c) (lt_of_le_of_lt (parent_le c) hcl) hpc]
        exact hroot c (by omega) hc0 hpc
      · intro c hcl hc0 hpci hi0
        omega
    have hprop := siftDown_heapProp cmp hswo D 0 (by rw [hD_len]; omega) hdown
    refine ⟨?_, hprop, ?_⟩
    · exact ((siftDown_perm cmp D 0).append_right _).trans hDperm
    · rw [siftDown_length, hD_len]
  · have hl1 : l.length = 1 := by
      have := List.length_pos.mpr hne0
      omega
    have hival : (0 : Nat) = l.length - 1 := by omega
    rw [hival, erase_last cmp l (Or.inr (by omega))]
    refine ⟨?_, ?_, by simp⟩
    · rw [dropLast_append_geti l hne0]
    · intro c hcl hc0
      rw [List.length_dropLast] at hcl
      omega

/-- The indices touched by erase's initial swap lie inside the pre-erase
storage. -/
theorem erase_access_swap (cmp : T → T → Bool) (l : List T) (i : Nat)
    (hi : i < l.length) : ∀ x ∈ (erase cmp l i).2.1, x < l.length := by
  intro x hx
  simp only [erase, SiftUp] at hx
  simp only [List.mem_cons, List.not_mem_nil, or_false] at hx
  rcases hx with rfl | rfl
  · exact hi
  · omega

/-- The indices touched by erase's two sifts lie inside the post-erase
storage whenever the erased slot was not the (non-root) last slot. -/
theorem erase_access_sift (cmp : T → T → Bool) (l : List T) (i : Nat)
    (hi : i < l.length) (hok : i + 1 < l.length ∨ l.length = 1) :
    ∀ x ∈ (erase cmp l i).2.2, x < l.length - 1 := by
  intro x hx
  simp only [erase, SiftUp] at hx
  rw [List.mem_append] at hx
  rcases hx with hx | hx
  · have h4 := siftUpGo_accesses cmp _ i i x hx
    rcases hok with hk | hk
    · omega
    · have hz : i = 0 := by omega
      rw [hz, SiftUpGo] at hx
      simp at hx
  · have h4 := siftDown_accesses cmp _ i x hx
    rwa [List.length_dropLast, siftUpGo_length, length_swap] at h4

end Heap

/-! ## Claim C2: the index returned by push -/

/-- C2 counterexample: pushing 1 onto the min-heap [2, 3] (comparator <)
swaps the new element to the root, but push returns the insertion index 2,
which holds 2, not the pushed value; push does not always return the slot at
which the value rests. -/
theorem push_return_index_cex :
    ¬(geti (Heap.push (fun a b : Nat => decide (a < b)) [2, 3] 1).1
        (Heap.push (fun a b : Nat => decide (a < b)) [2, 3] 1).2 = 1) := by
  have h1 : (Heap.push (fun a b : Nat => decide (a < b)) [2, 3] 1).1 = [1, 3, 2] := by
    simp only [Heap.push, Heap.SiftUp]
    rw [Heap.SiftUpGo]
    norm_num [Heap.CompareElements, Heap.Parent, geti, Heap.SwapElements]
    rw [Heap.SiftUpGo]
    norm_num
  have h2 : (Heap.push (fun a b : Nat => decide (a < b)) [2, 3] 1).2 = 2 := by
    simp only [Heap.push, Heap.SiftUp]
    rw [Heap.SiftUpGo]
    norm_num [Heap.CompareElements, Heap.Parent, geti, Heap.SwapElements]
    rw [Heap.SiftUpGo]
    norm_num
  rw [h1, h2]
  decide

/-- C2 (amended): push(v) returns the index at which v rests, except when v
was swapped all the way to the root from a nonzero starting slot; in that
case push returns the insertion index (the pre-push size) while v rests at
slot 0. -/
theorem push_return_index_amended {T : Type} [Inhabited T] (cmp : T → T → Bool)
    (l : List T) (v : T) :
    geti (Heap.push cmp l v).1 (Heap.push cmp l v).2 = v ∨
    ((Heap.push cmp l v).2 = l.length ∧ geti (Heap.push cmp l v).1 0 = v) :=
  Heap.push_result cmp l v

/-! ## Claim C6: erase -/

/-- C6 counterexample: erasing index 1 of the two-element heap [0, 1]
(comparator <) makes the following sift-up read backing-storage slot 1,
which is outside the single-slot storage remaining after the removal. -/
theorem erase_bounds_cex :
    ¬(∀ x ∈ (Heap.erase (fun a b : Nat => decide (a < b)) [0, 1] 1).2.2,
        x < ([0, 1] : List Nat).length - 1) := by
  intro hall
  have h2 : (Heap.erase (fun a b : Nat => decide (a < b)) [0, 1] 1).2.2 = [1, 0] := by
    simp only [Heap.erase, Heap.SiftUp]
    rw [Heap.SiftUpGo, Heap.SiftDown]
    norm_num [Heap.CompareElements, Heap.Parent, Heap.LeftSon, geti,
      Heap.SwapElements, kNullIndex]
  rw [h2] at hall
  have h3 := hall 1 (by simp)
  simp at h3

/-- C6 (amended): for a strict-weak-order comparator and heap-ordered
storage of length below the index sentinel, erase(i) removes exactly the
element at slot i, leaves the multiset of the other elements unchanged and
heap-ordered; the initial swap's accesses lie within the pre-erase storage,
and the sift accesses lie within the remaining storage except in the case
refuted above: when the erased slot is the last one and not the root, the
sift-up reads the popped slot. -/
theorem erase_correct_amended {T : Type} [Inhabited T] (cmp : T → T → Bool)
    (hswo : IsSWO cmp) (l : List T) (i : Nat) (hi : i < l.length)
    (hlen : l.length ≤ kNullIndex) (hheap : HeapProp cmp l) :
    List.Perm ((Heap.erase cmp l i).1 ++ [geti l i]) l ∧
    HeapProp cmp (Heap.erase cmp l i).1 ∧
    (Heap.erase cmp l i).1.length = l.length - 1 ∧
    (∀ x ∈ (Heap.erase cmp l i).2.1, x < l.length) ∧
    (i + 1 < l.length ∨ l.length = 1 →
      ∀ x ∈ (Heap.erase cmp l i).2.2, x < l.length - 1) := by
  obtain ⟨h1, h2, h3⟩ := Heap.erase_spec cmp hswo l i hi hlen hheap
  exact ⟨h1, h2, h3, Heap.erase_access_swap cmp l i hi,
    fun hok => Heap.erase_access_sift cmp l i hi hok⟩

theorem erase_correct_amended_witness :
    IsSWO (fun a b : Nat => decide (a < b)) ∧
    (0 : Nat) < ([0, 1] : List Nat).length ∧
    ([0, 1] : List Nat).length ≤ kNullIndex ∧
    HeapProp (fun a b : Nat => decide (a < b)) [0, 1] ∧
    (List.Perm ((Heap.erase (fun a b : Nat => decide (a < b)) [0, 1] 0).1 ++
        [geti ([0, 1] : List Nat) 0]) [0, 1] ∧
      HeapProp (fun a b : Nat => decide (a < b))
        (Heap.erase (fun a b : Nat => decide (a < b)) [0, 1] 0).1 ∧
      (Heap.erase (fun a b : Nat => decide (a < b)) [0, 1] 0).1.length =
        ([0, 1] : List Nat).length - 1 ∧
      (∀ x ∈ (Heap.erase (fun a b : Nat => decide (a < b)) [0, 1] 0).2.1,
        x < ([0, 1] : List Nat).length) ∧
      ((0 : Nat) + 1 < ([0, 1] : List Nat).length ∨ ([0, 1] : List Nat).length = 1 →
        ∀ x ∈ (Heap.erase (fun a b : Nat => decide (a < b)) [0, 1] 0).2.2,
          x < ([0, 1] : List Nat).length - 1)) := by
  have hswo : IsSWO (fun a b : Nat => decide (a < b)) := by
    refine ⟨fun a => by simp, fun a b c h1 h2 => ?_, fun a b c h1 h2 => ?_⟩
    · simp only [decide_eq_true_eq] at h1 h2 ⊢
      omega
    · simp only [decide_eq_false_iff_not] at h1 h2 ⊢
      omega
  exact ⟨hswo, by decide, by decide, by decide,
    erase_correct_amended _ hswo _ 0 (by decide) (by decide) (by decide)⟩

/-! ## Arena and observer basics -/

theorem nodup_geti_inj {T : Type} [Inhabited T] {l : List T} (hnd : l.Nodup)
    {i j : Nat} (hi : i < l.length) (hj : j < l.length)
    (h : geti l i = geti l j) : i = j := by
  rw [geti_eq_getElem hi, geti_eq_getElem hj] at h
  exact (List.Nodup.getElem_inj_iff hnd).mp h

theorem geti_mem {T : Type} [Inhabited T] {l : List T} {i : Nat}
    (hi : i < l.length) : geti l i ∈ l := by
  rw [geti_eq_getElem hi]
  exact List.getElem_mem hi

theorem notifySeg_length (a : Arena) (i idx : Nat) :
    (notifySeg a i idx).length = a.length := by
  simp [notifySeg]

theorem getSeg_notify_self {a : Arena} {i : Nat} (hi : i < a.length) (idx : Nat) :
    getSeg (notifySeg a i idx) i = { getSeg a i with heap_index := idx } := by
  unfold notifySeg getSeg
  exact geti_set_self hi

theorem getSeg_notify_other {a : Arena} {i j : Nat} (h : i ≠ j) (idx : Nat) :
    getSeg (notifySeg a i idx) j = getSeg a j := by
  unfold notifySeg getSeg
  exact geti_set_ne h

theorem notifySeg_lr (a : Arena) (i idx : Nat) (j : Nat) :
    (getSeg (notifySeg a i idx) j).left = (getSeg a j).left ∧
    (getSeg (notifySeg a i idx) j).right = (getSeg a j).right := by
  by_cases hij : i = j
  · subst hij
    by_cases hi : i < a.length
    · rw [getSeg_notify_self hi]
      exact ⟨rfl, rfl⟩
    · unfold notifySeg getSeg
      rw [List.set_eq_of_length_le (by omega)]
      exact ⟨rfl, rfl⟩
  · rw [getSeg_notify_other hij]
    exact ⟨rfl, rfl⟩

theorem size_eq_of_lr {s t : MemorySegment} (hl : s.left = t.left)
    (hr : s.right = t.right) : s.Size = t.Size := by
  unfold MemorySegment.Size
  rw [hl, hr]

theorem cmp_eq_of_lr {a a' : Arena}
    (hlr : ∀ j, (getSeg a' j).left = (getSeg a j).left ∧
      (getSeg a' j).right = (getSeg a j).right) :
    MemorySegmentSizeCompare a' = MemorySegmentSizeCompare a := by
  funext i j
  unfold MemorySegmentSizeCompare
  rw [size_eq_of_lr (hlr i).1 (hlr i).2, size_eq_of_lr (hlr j).1 (hlr j).2,
    (hlr i).1, (hlr j).1]

/-! ## MSHeap bridges: the manager's heap instance behaves as the pure heap
under the comparator of the arena at call time, because the observer only
writes heap_index fields, which the comparator does not read. -/

theorem msSwap_list (a : Arena) (l : List Nat) (i j : Nat) :
    (MSHeap.SwapElements a l i j).2 = Heap.SwapElements l i j := rfl

theorem msSwap_lr (a : Arena) (l : List Nat) (i j : Nat) (k : Nat) :
    (getSeg (MSHeap.SwapElements a l i j).1 k).left = (getSeg a k).left ∧
    (getSeg (MSHeap.SwapElements a l i j).1 k).right = (getSeg a k).right := by
  unfold MSHeap.SwapElements
  obtain ⟨h1l, h1r⟩ := notifySeg_lr (notifySeg a (geti l i) j) (geti l j) i k
  obtain ⟨h2l, h2r⟩ := notifySeg_lr a (geti l i) j k
  exact ⟨h1l.trans h2l, h1r.trans h2r⟩

theorem msSiftUpGo_spec : ∀ (a : Arena) (l : List Nat) (i n : Nat),
    ((MSHeap.SiftUpGo a l i n).2.1 =
        (Heap.SiftUpGo (MemorySegmentSizeCompare a) l i n).1 ∧
      (MSHeap.SiftUpGo a l i n).2.2 =
        (Heap.SiftUpGo (MemorySegmentSizeCompare a) l i n).2.1) ∧
    ∀ k, (getSeg (MSHeap.SiftUpGo a l i n).1 k).left = (getSeg a k).left ∧
      (getSeg (MSHeap.SiftUpGo a l i n).1 k).right = (getSeg a k).right := by
  intro a l i n
  induction a, l, i, n using MSHeap.SiftUpGo.induct with
  | case1 a l n =>
    rw [MSHeap.SiftUpGo, Heap.SiftUpGo]
    simp
  | case2 a l i n h hc ih =>
    have hstab : MemorySegmentSizeCompare (MSHeap.SwapElements a l i (Heap.Parent i)).1 =
        MemorySegmentSizeCompare a :=
      cmp_eq_of_lr (fun k => msSwap_lr a l i (Heap.Parent i) k)
    rw [MSHeap.SiftUpGo, Heap.SiftUpGo]
    simp only [dif_neg h]
    rw [if_pos hc,
      if_pos (show Heap.CompareElements (MemorySegmentSizeCompare a) l i
        (Heap.Parent i) = true from hc)]
    obtain ⟨⟨ih1, ih2⟩, ih3⟩ := ih
    rw [hstab] at ih1 ih2
    refine ⟨⟨ih1, ih2⟩, ?_⟩
    intro k
    obtain ⟨h3l, h3r⟩ := ih3 k
    obtain ⟨h4l, h4r⟩ := msSwap_lr a l i (Heap.Parent i) k
    exact ⟨h3l.trans h4l, h3r.trans h4r⟩
  | case3 a l i n h hc =>
    rw [MSHeap.SiftUpGo, Heap.SiftUpGo]
    simp only [dif_neg h]
    rw [if_neg hc,
      if_neg (show ¬(Heap.CompareElements (MemorySegmentSizeCompare a) l i
        (Heap.Parent i) = true) from hc)]
    exact ⟨⟨rfl, rfl⟩, fun k => ⟨rfl, rfl⟩⟩

theorem msSiftDown_spec : ∀ (a : Arena) (l : List Nat) (i : Nat),
    (MSHeap.SiftDown a l i).2 = (Heap.SiftDown (MemorySegmentSizeCompare a) l i).1 ∧
    ∀ k, (getSeg (MSHeap.SiftDown a l i).1 k).left = (getSeg a k).left ∧
      (getSeg (MSHeap.SiftDown a l i).1 k).right = (getSeg a k).right := by
  intro a l i
  induction a, l, i using MSHeap.SiftDown.induct with
  | case1 a l i h =>
    rw [MSHeap.SiftDown, Heap.SiftDown]
    simp [h]
  | case2 a l i h hc ih =>
    have hstab : MemorySegmentSizeCompare
        (MSHeap.SwapElements a l (Heap.BestSon (MemorySegmentSizeCompare a) l i) i).1 =
        MemorySegmentSizeCompare a :=
      cmp_eq_of_lr (fun k => msSwap_lr a l _ i k)
    rw [MSHeap.SiftDown, Heap.SiftDown]
    simp only [dif_neg h]
    rw [if_pos hc,
      if_pos (show Heap.CompareElements (MemorySegmentSizeCompare a) l
        (Heap.BestSon (MemorySegmentSizeCompare a) l i) i = true from hc)]
    obtain ⟨ih1, ih3⟩ := ih
    rw [hstab] at ih1
    refine ⟨ih1, ?_⟩
    intro k
    obtain ⟨h3l, h3r⟩ := ih3 k
    obtain ⟨h4l, h4r⟩ := msSwap_lr a l (Heap.BestSon (MemorySegmentSizeCompare a) l i) i k
    exact ⟨h3l.trans h4l, h3r.trans h4r⟩
  | case3 a l i h hc =>
    rw [MSHeap.SiftDown, Heap.SiftDown]
    simp only [dif_neg h]
    rw [if_neg hc,
      if_neg (show ¬(Heap.CompareElements (MemorySegmentSizeCompare a) l
        (Heap.BestSon (MemorySegmentSizeCompare a) l i) i = true) from hc)]
    exact ⟨rfl, fun k => ⟨rfl, rfl⟩⟩

theorem msPush_spec (a : Arena) (l : List Nat) (v : Nat) :
    ((MSHeap.push a l v).2.1 = (Heap.push (MemorySegmentSizeCompare a) l v).1 ∧
      (MSHeap.push a l v).2.2 = (Heap.push (MemorySegmentSizeCompare a) l v).2) ∧
    ∀ k, (getSeg (MSHeap.push a l v).1 k).left = (getSeg a k).left ∧
      (getSeg (MSHeap.push a l v).1 k).right = (getSeg a k).right := by
  unfold MSHeap.push Heap.push Heap.SiftUp
  have hstab : MemorySegmentSizeCompare (notifySeg a v ((l ++ [v]).length - 1)) =
      MemorySegmentSizeCompare a :=
    cmp_eq_of_lr (fun k => notifySeg_lr a v ((l ++ [v]).length - 1) k)
  obtain ⟨⟨h1, h2⟩, h3⟩ := msSiftUpGo_spec (notifySeg a v ((l ++ [v]).length - 1))
    (l ++ [v]) ((l ++ [v]).length - 1) ((l ++ [v]).length - 1)
  rw [hstab] at h1 h2
  refine ⟨⟨h1, h2⟩, ?_⟩
  intro k
  obtain ⟨h3l, h3r⟩ := h3 k
  obtain ⟨h4l, h4r⟩ := notifySeg_lr a v ((l ++ [v]).length - 1) k
  exact ⟨h3l.trans h4l, h3r.trans h4r⟩

theorem msErase_spec (a : Arena) (l : List Nat) (i : Nat) :
    (MSHeap.erase a l i).2 = (Heap.erase (MemorySegmentSizeCompare a) l i).1 ∧
    ∀ k, (getSeg (MSHeap.erase a l i).1 k).left = (getSeg a k).left ∧
      (getSeg (MSHeap.erase a l i).1 k).right = (getSeg a k).right := by
  simp only [MSHeap.erase, Heap.erase, Heap.SiftUp]
  rw [msSwap_list]
  have hlr2 : ∀ k,
      (getSeg (notifySeg (MSHeap.SwapElements a l i (l.length - 1)).1
        (geti (Heap.SwapElements l i (l.length - 1)) (l.length - 1)) kNullIndex) k).left =
        (getSeg a k).left ∧
      (getSeg (notifySeg (MSHeap.SwapElements a l i (l.length - 1)).1
        (geti (Heap.SwapElements l i (l.length - 1)) (l.length - 1)) kNullIndex) k).right =
        (getSeg a k).right := by
    intro k
    obtain ⟨h1l, h1r⟩ := notifySeg_lr (MSHeap.SwapElements a l i (l.length - 1)).1
      (geti (Heap.SwapElements l i (l.length - 1)) (l.length - 1)) kNullIndex k
    obtain ⟨h2l, h2r⟩ := msSwap_lr a l i (l.length - 1) k
    exact ⟨h1l.trans h2l, h1r.trans h2r⟩
  have hstab2 : MemorySegmentSizeCompare
      (notifySeg (MSHeap.SwapElements a l i (l.length - 1)).1
        (geti (Heap.SwapElements l i (l.length - 1)) (l.length - 1)) kNullIndex) =
      MemorySegmentSizeCompare a := cmp_eq_of_lr hlr2
  obtain ⟨⟨h1, _⟩, h3⟩ := msSiftUpGo_spec
    (notifySeg (MSHeap.SwapElements a l i (l.length - 1)).1
      (geti (Heap.SwapElements l i (l.length - 1)) (l.length - 1)) kNullIndex)
    (Heap.SwapElements l i (l.length - 1)) i i
  rw [hstab2] at h1
  rw [h1]
  have hlr3 : ∀ k,
      (getSeg (MSHeap.SiftUpGo
        (notifySeg (MSHeap.SwapElements a l i (l.length - 1)).1
          (geti (Heap.SwapElements l i (l.length - 1)) (l.length - 1)) kNullIndex)
        (Heap.SwapElements l i (l.length - 1)) i i).1 k).left = (getSeg a k).left ∧
      (getSeg (MSHeap.SiftUpGo
        (notifySeg (MSHeap.SwapElements a l i (l.length - 1)).1
          (geti (Heap.SwapElements l i (l.length - 1)) (l.length - 1)) kNullIndex)
        (Heap.SwapElements l i (l.length - 1)) i i).1 k).right = (getSeg a k).right := by
    intro k
    obtain ⟨h4l, h4r⟩ := h3 k
    obtain ⟨h5l, h5r⟩ := hlr2 k
    exact ⟨h4l.trans h5l, h4r.trans h5r⟩
  have hstab3 := cmp_eq_of_lr hlr3
  obtain ⟨h6, h7⟩ := msSiftDown_spec
    (MSHeap.SiftUpGo
      (notifySeg (MSHeap.SwapElements a l i (l.length - 1)).1
        (geti (Heap.SwapElements l i (l.length - 1)) (l.length - 1)) kNullIndex)
      (Heap.SwapElements l i (l.length - 1)) i i).1
    ((Heap.SiftUpGo (MemorySegmentSizeCompare a)
      (Heap.SwapElements l i (l.length - 1)) i i).1).dropLast i
  rw [hstab3] at h6
  refine ⟨h6, ?_⟩
  intro k
  obtain ⟨h8l, h8r⟩ := h7 k
  obtain ⟨h9l, h9r⟩ := hlr3 k
  exact ⟨h8l.trans h9l, h8r.trans h9r⟩

/-! ## MSHeap tracking: the observer keeps every segment's heap_index equal
to its current slot. -/

theorem msSwap_len (a : Arena) (l : List Nat) (i j : Nat) :
    (MSHeap.SwapElements a l i j).1.length = a.length := by
  unfold MSHeap.SwapElements
  simp [notifySeg]

theorem msSiftUpGo_alen : ∀ (a : Arena) (l : List Nat) (i n : Nat),
    (MSHeap.SiftUpGo a l i n).1.length = a.length := by
  intro a l i n
  induction a, l, i, n using MSHeap.SiftUpGo.induct with
  | case1 a l n =>
    rw [MSHeap.SiftUpGo]
    simp
  | case2 a l i n h hc ih =>
    rw [MSHeap.SiftUpGo]
    simp only [dif_neg h]
    rw [if_pos hc, ih, msSwap_len]
  | case3 a l i n h hc =>
    rw [MSHeap.SiftUpGo]
    simp only [dif_neg h]
    rw [if_neg hc]

theorem msSiftDown_alen : ∀ (a : Arena) (l : List Nat) (i : Nat),
    (MSHeap.SiftDown a l i).1.length = a.length := by
  intro a l i
  induction a, l, i using MSHeap.SiftDown.induct with
  | case1 a l i h =>
    rw [MSHeap.SiftDown]
    simp [h]
  | case2 a l i h hc ih =>
    rw [MSHeap.SiftDown]
    simp only [dif_neg h]
    rw [if_pos hc, ih, msSwap_len]
  | case3 a l i h hc =>
    rw [MSHeap.SiftDown]
    simp only [dif_neg h]
    rw [if_neg hc]

theorem msSwap_track (a : Arena) (l : List Nat) (i j : Nat)
    (hnd : l.Nodup) (hi : i < l.length) (hj : j < l.length)
    (hb : ∀ id ∈ l, id < a.length)
    (htr : ∀ k, k < l.length → (getSeg a (geti l k)).heap_index = k) :
    (∀ k, k < l.length →
      (getSeg (MSHeap.SwapElements a l i j).1
        (geti (MSHeap.SwapElements a l i j).2 k)).heap_index = k) ∧
    (∀ id, id ∉ l → getSeg (MSHeap.SwapElements a l i j).1 id = getSeg a id) := by
  have hxb : geti l i < a.length := hb _ (geti_mem hi)
  have hyb : geti l j < a.length := hb _ (geti_mem hj)
  constructor
  · intro k hk
    rw [msSwap_list]
    show (getSeg (notifySeg (notifySeg a (geti l i) j) (geti l j) i)
      (geti (Heap.SwapElements l i j) k)).heap_index = k
    by_cases hij : i = j
    · subst hij
      rw [Heap.swap_self]
      by_cases hkx : geti l k = geti l i
      · have hki : k = i := nodup_geti_inj hnd hk hi hkx
        rw [hkx, getSeg_notify_self (by rwa [notifySeg_length]) i]
        exact hki.symm ▸ rfl
      · rw [getSeg_notify_other (fun hcon => hkx hcon.symm),
          getSeg_notify_other (fun hcon => hkx hcon.symm)]
        exact htr k hk
    · have hxy : geti l i ≠ geti l j := fun hcon => hij (nodup_geti_inj hnd hi hj hcon)
      by_cases hki : k = i
      · subst hki
        rw [Heap.swap_geti_fst hij hk, getSeg_notify_self (by rwa [notifySeg_length]) k]
      · by_cases hkj : k = j
        · subst hkj
          rw [Heap.swap_geti_snd hi hk,
            getSeg_notify_other (fun hcon => hxy hcon.symm),
            getSeg_notify_self hxb k]
        · have hkx : geti l k ≠ geti l i := fun hcon => hki (nodup_geti_inj hnd hk hi hcon)
          have hky : geti l k ≠ geti l j := fun hcon => hkj (nodup_geti_inj hnd hk hj hcon)
          rw [Heap.swap_geti_other hki hkj,
            getSeg_notify_other (fun hcon => hky hcon.symm),
            getSeg_notify_other (fun hcon => hkx hcon.symm)]
          exact htr k hk
  · intro id hid
    have h1 : id ≠ geti l i := fun hcon => hid (hcon ▸ geti_mem hi)
    have h2 : id ≠ geti l j := fun hcon => hid (hcon ▸ geti_mem hj)
    show getSeg (notifySeg (notifySeg a (geti l i) j) (geti l j) i) id = getSeg a id
    rw [getSeg_notify_other (Ne.symm h2), getSeg_notify_other (Ne.symm h1)]

theorem msSiftUpGo_track : ∀ (a : Arena) (l : List Nat) (i n : Nat),
    l.Nodup → i < l.length → (∀ id ∈ l, id < a.length) →
    (∀ k, k < l.length → (getSeg a (geti l k)).heap_index = k) →
    (∀ k, k < (MSHeap.SiftUpGo a l i n).2.1.length →
      (getSeg (MSHeap.SiftUpGo a l i n).1
        (geti (MSHeap.SiftUpGo a l i n).2.1 k)).heap_index = k) ∧
    (∀ id, id ∉ l → getSeg (MSHeap.SiftUpGo a l i n).1 id = getSeg a id) := by
  intro a l i n
  induction a, l, i, n using MSHeap.SiftUpGo.induct with
  | case1 a l n =>
    intro hnd hi hb htr
    rw [MSHeap.SiftUpGo]
    simp only [dif_pos rfl]
    exact ⟨htr, fun id _ => rfl⟩
  | case2 a l i n h hc ih =>
    intro hnd hi hb htr
    have hp : Heap.Parent i < l.length := lt_of_le_of_lt (Heap.parent_le i) hi
    obtain ⟨ht1, ht2⟩ := msSwap_track a l i (Heap.Parent i) hnd hi hp hb htr
    have hperm : List.Perm (MSHeap.SwapElements a l i (Heap.Parent i)).2 l := by
      rw [msSwap_list]
      exact Heap.swap_perm hi hp
    have hnd' : (MSHeap.SwapElements a l i (Heap.Parent i)).2.Nodup :=
      hperm.nodup_iff.mpr hnd
    have hlen' : (MSHeap.SwapElements a l i (Heap.Parent i)).2.length = l.length := by
      rw [msSwap_list, Heap.length_swap]
    have hb' : ∀ id ∈ (MSHeap.SwapElements a l i (Heap.Parent i)).2,
        id < (MSHeap.SwapElements a l i (Heap.Parent i)).1.length := by
      intro id hid
      rw [msSwap_len]
      exact hb id (hperm.mem_iff.mp hid)
    obtain ⟨hr1, hr2⟩ := ih hnd' (by rw [hlen']; exact hp) hb'
      (fun k hk => ht1 k (hlen' ▸ hk))
    rw [MSHeap.SiftUpGo]
    simp only [dif_neg h]
    rw [if_pos hc]
    constructor
    · exact hr1
    · intro id hid
      rw [hr2 id (fun hcon => hid (hperm.mem_iff.mp hcon))]
      exact ht2 id hid
  | case3 a l i n h hc =>
    intro hnd hi hb htr
    rw [MSHeap.SiftUpGo]
    simp only [dif_neg h]
    rw [if_neg hc]
    exact ⟨htr, fun id _ => rfl⟩

theorem msSiftDown_track : ∀ (a : Arena) (l : List Nat) (i : Nat),
    l.Nodup → (∀ id ∈ l, id < a.length) →
    (∀ k, k < l.length → (getSeg a (geti l k)).heap_index = k) →
    (∀ k, k < (MSHeap.SiftDown a l i).2.length →
      (getSeg (MSHeap.SiftDown a l i).1
        (geti (MSHeap.SiftDown a l i).2 k)).heap_index = k) ∧
    (∀ id, id ∉ l → getSeg (MSHeap.SiftDown a l i).1 id = getSeg a id) := by
  intro a l i
  induction a, l, i using MSHeap.SiftDown.induct with
  | case1 a l i h =>
    intro hnd hb htr
    rw [MSHeap.SiftDown, dif_pos h]
    exact ⟨htr, fun id _ => rfl⟩
  | case2 a l i h hc ih =>
    intro hnd hb htr
    obtain ⟨hpb, hbi, hbl, hb0⟩ :=
      Heap.bestSon_bounds (MemorySegmentSizeCompare a) l i h
    have hil : i < l.length := by omega
    obtain ⟨ht1, ht2⟩ := msSwap_track a l
      (Heap.BestSon (MemorySegmentSizeCompare a) l i) i hnd hbl hil hb htr
    have hperm : List.Perm
        (MSHeap.SwapElements a l (Heap.BestSon (MemorySegmentSizeCompare a) l i) i).2 l := by
      rw [msSwap_list]
      exact Heap.swap_perm hbl hil
    have hnd' := hperm.nodup_iff.mpr hnd
    have hlen' : (MSHeap.SwapElements a l
        (Heap.BestSon (MemorySegmentSizeCompare a) l i) i).2.length = l.length := by
      rw [msSwap_list, Heap.length_swap]
    have hb' : ∀ id ∈ (MSHeap.SwapElements a l
        (Heap.BestSon (MemorySegmentSizeCompare a) l i) i).2,
        id < (MSHeap.SwapElements a l
          (Heap.BestSon (MemorySegmentSizeCompare a) l i) i).1.length := by
      intro id hid
      rw [msSwap_len]
      exact hb id (hperm.mem_iff.mp hid)
    obtain ⟨hr1, hr2⟩ := ih hnd' hb' (fun k hk => ht1 k (hlen' ▸ hk))
    rw [MSHeap.SiftDown]
    simp only [dif_neg h]
    rw [if_pos hc]
    constructor
    · exact hr1
    · intro id hid
      rw [hr2 id (fun hcon => hid (hperm.mem_iff.mp hcon))]
      exact ht2 id hid
  | case3 a l i h hc =>
    intro hnd hb htr
    rw [MSHeap.SiftDown]
    simp only [dif_neg h]
    rw [if_neg hc]
    exact ⟨htr, fun id _ => rfl⟩

theorem msSiftUpGo_confine : ∀ (a : Arena) (l : List Nat) (i n : Nat) (z : Nat),
    i < l.length →
    MSHeap.SiftUpGo a (l ++ [z]) i n =
      ((MSHeap.SiftUpGo a l i n).1, (MSHeap.SiftUpGo a l i n).2.1 ++ [z],
        (MSHeap.SiftUpGo a l i n).2.2) := by
  intro a l i n
  induction a, l, i, n using MSHeap.SiftUpGo.induct with
  | case1 a l n =>
    intro z _
    rw [MSHeap.SiftUpGo]
    conv_rhs => rw [MSHeap.SiftUpGo]
    simp
  | case2 a l i n h hc ih =>
    intro z hi
    have hp : Heap.Parent i < l.length := lt_of_le_of_lt (Heap.parent_le i) hi
    have hcz : MemorySegmentSizeCompare a (geti (l ++ [z]) i)
        (geti (l ++ [z]) (Heap.Parent i)) = true := by
      rw [geti_append_lt hi, geti_append_lt hp]
      exact hc
    have hswa : (MSHeap.SwapElements a (l ++ [z]) i (Heap.Parent i)).1 =
        (MSHeap.SwapElements a l i (Heap.Parent i)).1 := by
      unfold MSHeap.SwapElements
      rw [geti_append_lt hi, geti_append_lt hp]
    have hswl : (MSHeap.SwapElements a (l ++ [z]) i (Heap.Parent i)).2 =
        (MSHeap.SwapElements a l i (Heap.Parent i)).2 ++ [z] := by
      rw [msSwap_list, msSwap_list]
      exact Heap.swap_append hi hp
    conv_lhs => rw [MSHeap.SiftUpGo]
    conv_rhs => rw [MSHeap.SiftUpGo]
    simp only [dif_neg h]
    rw [if_pos hcz, if_pos hc, hswa, hswl,
      ih z (by rw [msSwap_list, Heap.length_swap]; exact hp)]
  | case3 a l i n h hc =>
    intro z hi
    have hp : Heap.Parent i < l.length := lt_of_le_of_lt (Heap.parent_le i) hi
    have hcz : ¬(MemorySegmentSizeCompare a (geti (l ++ [z]) i)
        (geti (l ++ [z]) (Heap.Parent i)) = true) := by
      rw [geti_append_lt hi, geti_append_lt hp]
      exact hc
    conv_lhs => rw [MSHeap.SiftUpGo]
    conv_rhs => rw [MSHeap.SiftUpGo]
    simp only [dif_neg h]
    rw [if_neg hcz, if_neg hc]

theorem not_mem_dropLast_of_nodup {T : Type} [Inhabited T] {l : List T}
    (hnd : l.Nodup) (hne : l ≠ []) : geti l (l.length - 1) ∉ l.dropLast := by
  intro hmem
  obtain ⟨n, hn, hval⟩ := List.getElem_of_mem hmem
  rw [List.length_dropLast] at hn
  have h1 : geti l.dropLast n = geti l (l.length - 1) := by
    rw [geti_eq_getElem (by rw [List.length_dropLast]; exact hn)]
    exact hval
  rw [geti_dropLast hn] at h1
  have h2 := nodup_geti_inj hnd (by omega) (by omega) h1
  omega

theorem msPush_track (a : Arena) (l : List Nat) (v : Nat)
    (hnd : l.Nodup) (hv : v ∉ l) (hvb : v < a.length)
    (hb : ∀ id ∈ l, id < a.length)
    (htr : ∀ k, k < l.length → (getSeg a (geti l k)).heap_index = k) :
    (∀ k, k < (MSHeap.push a l v).2.1.length →
      (getSeg (MSHeap.push a l v).1 (geti (MSHeap.push a l v).2.1 k)).heap_index = k) ∧
    (∀ id, id ∉ l → id ≠ v → getSeg (MSHeap.push a l v).1 id = getSeg a id) := by
  unfold MSHeap.push
  have hnd1 : (l ++ [v]).Nodup := by
    rw [List.nodup_append]
    refine ⟨hnd, List.nodup_singleton v, fun x hx hxv => ?_⟩
    simp only [List.mem_singleton] at hxv
    exact hv (hxv ▸ hx)
  have htr1 : ∀ k, k < (l ++ [v]).length →
      (getSeg (notifySeg a v ((l ++ [v]).length - 1)) (geti (l ++ [v]) k)).heap_index =
        k := by
    intro k hk
    simp only [List.length_append, List.length_cons, List.length_nil] at hk
    by_cases hkl : k < l.length
    · rw [geti_append_lt hkl,
        getSeg_notify_other (fun hcon => hv (by rw [hcon]; exact geti_mem hkl))]
      exact htr k hkl
    · have hkv : k = l.length := by omega
      subst hkv
      rw [geti_concat_len, getSeg_notify_self hvb]
      simp
  have hb1 : ∀ id ∈ l ++ [v], id < (notifySeg a v ((l ++ [v]).length - 1)).length := by
    intro id hid
    rw [notifySeg_length]
    rcases List.mem_append.mp hid with h1 | h1
    · exact hb id h1
    · simp only [List.mem_singleton] at h1
      exact h1 ▸ hvb
  obtain ⟨hr1, hr2⟩ := msSiftUpGo_track (notifySeg a v ((l ++ [v]).length - 1))
    (l ++ [v]) ((l ++ [v]).length - 1) ((l ++ [v]).length - 1)
    hnd1 (by simp) hb1 htr1
  refine ⟨hr1, ?_⟩
  intro id hid hidv
  rw [hr2 id (by
    rw [List.mem_append]
    rintro (h1 | h1)
    · exact hid h1
    · simp only [List.mem_singleton] at h1
      exact hidv h1)]
  exact getSeg_notify_other (Ne.symm hidv) _

theorem msErase_track (a : Arena) (l : List Nat) (i : Nat)
    (hnd : l.Nodup) (hi : i < l.length) (hb : ∀ id ∈ l, id < a.length)
    (htr : ∀ k, k < l.length → (getSeg a (geti l k)).heap_index = k)
    (hguard : i + 1 < l.length ∨ i = 0 ∨
      MemorySegmentSizeCompare a (geti l i) (geti l (Heap.Parent i)) = false) :
    (∀ k, k < (MSHeap.erase a l i).2.length →
      (getSeg (MSHeap.erase a l i).1 (geti (MSHeap.erase a l i).2 k)).heap_index = k) ∧
    (getSeg (MSHeap.erase a l i).1 (geti l i)).heap_index = kNullIndex ∧
    (∀ id, id ∉ l → getSeg (MSHeap.erase a l i).1 id = getSeg a id) := by
  have hlpos : 0 < l.length := by omega
  have hl1len : (Heap.SwapElements l i (l.length - 1)).length = l.length :=
    Heap.length_swap l i (l.length - 1)
  have hl1perm : List.Perm (Heap.SwapElements l i (l.length - 1)) l :=
    Heap.swap_perm hi (by omega)
  have hl1nd : (Heap.SwapElements l i (l.length - 1)).Nodup :=
    hl1perm.nodup_iff.mpr hnd
  have hs1alen : (MSHeap.SwapElements a l i (l.length - 1)).1.length = a.length :=
    msSwap_len a l i (l.length - 1)
  have hxmem : geti l i ∈ l := geti_mem hi
  have hxb : geti l i < a.length := hb _ hxmem
  have hgl1 : geti (Heap.SwapElements l i (l.length - 1)) (l.length - 1) = geti l i :=
    Heap.swap_geti_snd hi (by omega)
  obtain ⟨hsw1, hsw2⟩ := msSwap_track a l i (l.length - 1) hnd hi (by omega) hb htr
  simp only [msSwap_list] at hsw1
  simp only [MSHeap.erase, msSwap_list, hgl1]
  by_cases hcase : i + 1 < l.length
  · have hne : Heap.SwapElements l i (l.length - 1) ≠ [] := by
      intro hcon
      rw [hcon] at hl1len
      simp at hl1len
      omega
    have hdecomp : (Heap.SwapElements l i (l.length - 1)).dropLast ++ [geti l i] =
        Heap.SwapElements l i (l.length - 1) := by
      conv_rhs => rw [← dropLast_append_geti (Heap.SwapElements l i (l.length - 1)) hne]
      rw [hl1len, hgl1]
    have hDlen : (Heap.SwapElements l i (l.length - 1)).dropLast.length =
        l.length - 1 := by
      rw [List.length_dropLast, hl1len]
    rw [← hdecomp, msSiftUpGo_confine _ _ i i _ (by rw [hDlen]; omega)]
    simp only [List.dropLast_concat]
    have ha2len : (notifySeg (MSHeap.SwapElements a l i (l.length - 1)).1
        (geti l i) kNullIndex).length = a.length := by
      rw [notifySeg_length, hs1alen]
    have htrD : ∀ k, k < (Heap.SwapElements l i (l.length - 1)).dropLast.length →
        (getSeg (notifySeg (MSHeap.SwapElements a l i (l.length - 1)).1
          (geti l i) kNullIndex)
          (geti (Heap.SwapElements l i (l.length - 1)).dropLast k)).heap_index = k := by
      intro k hk
      rw [hDlen] at hk
      rw [geti_dropLast (by rw [hl1len]; omega)]
      have hne2 : geti (Heap.SwapElements l i (l.length - 1)) k ≠ geti l i := by
        rw [← hgl1]
        exact fun hcon =>
          absurd (nodup_geti_inj hl1nd (by omega) (by omega) hcon) (by omega)
      rw [getSeg_notify_other (Ne.symm hne2)]
      exact hsw1 k (by omega)
    have hDnd : (Heap.SwapElements l i (l.length - 1)).dropLast.Nodup :=
      (List.dropLast_sublist _).nodup hl1nd
    have hDb : ∀ id ∈ (Heap.SwapElements l i (l.length - 1)).dropLast,
        id < (notifySeg (MSHeap.SwapElements a l i (l.length - 1)).1
          (geti l i) kNullIndex).length := by
      intro id hid
      rw [ha2len]
      exact hb id (hl1perm.mem_iff.mp (List.Sublist.mem hid (List.dropLast_sublist _)))
    obtain ⟨hu1, hu2⟩ := msSiftUpGo_track
      (notifySeg (MSHeap.SwapElements a l i (l.length - 1)).1 (geti l i) kNullIndex)
      (Heap.SwapElements l i (l.length - 1)).dropLast i i
      hDnd (by rw [hDlen]; omega) hDb htrD
    have hS2 := (msSiftUpGo_spec
      (notifySeg (MSHeap.SwapElements a l i (l.length - 1)).1 (geti l i) kNullIndex)
      (Heap.SwapElements l i (l.length - 1)).dropLast i i).1.1
    have hSperm : List.Perm (MSHeap.SiftUpGo
        (notifySeg (MSHeap.SwapElements a l i (l.length - 1)).1 (geti l i) kNullIndex)
        (Heap.SwapElements l i (l.length - 1)).dropLast i i).2.1
        (Heap.SwapElements l i (l.length - 1)).dropLast := by
      rw [hS2]
      exact Heap.siftUpGo_perm _ _ i i (by rw [hDlen]; omega)
    have hSnd := hSperm.nodup_iff.mpr hDnd
    have hSb : ∀ id ∈ (MSHeap.SiftUpGo
        (notifySeg (MSHeap.SwapElements a l i (l.length - 1)).1 (geti l i) kNullIndex)
        (Heap.SwapElements l i (l.length - 1)).dropLast i i).2.1,
        id < (MSHeap.SiftUpGo
          (notifySeg (MSHeap.SwapElements a l i (l.length - 1)).1 (geti l i) kNullIndex)
          (Heap.SwapElements l i (l.length - 1)).dropLast i i).1.length := by
      intro id hid
      rw [msSiftUpGo_alen, ha2len]
      exact hb id (hl1perm.mem_iff.mp
        (List.Sublist.mem (hSperm.mem_iff.mp hid) (List.dropLast_sublist _)))
    obtain ⟨hd1, hd2⟩ := msSiftDown_track _ _ i hSnd hSb hu1
    have hxnD : geti l i ∉ (Heap.SwapElements l i (l.length - 1)).dropLast := by
      rw [← hgl1]
      have h9 := not_mem_dropLast_of_nodup hl1nd hne
      rwa [hl1len] at h9
    have hxnS : geti l i ∉ (MSHeap.SiftUpGo
        (notifySeg (MSHeap.SwapElements a l i (l.length - 1)).1 (geti l i) kNullIndex)
        (Heap.SwapElements l i (l.length - 1)).dropLast i i).2.1 :=
      fun hc => hxnD (hSperm.mem_iff.mp hc)
    refine ⟨hd1, ?_, ?_⟩
    · rw [hd2 _ hxnS, hu2 _ hxnD, getSeg_notify_self (by rw [hs1alen]; exact hxb)]
    · intro id hid
      have hid1 : id ∉ Heap.SwapElements l i (l.length - 1) :=
        fun hc => hid (hl1perm.mem_iff.mp hc)
      have hidD : id ∉ (Heap.SwapElements l i (l.length - 1)).dropLast :=
        fun hc => hid1 (List.Sublist.mem hc (List.dropLast_sublist _))
      have hidS : id ∉ (MSHeap.SiftUpGo
          (notifySeg (MSHeap.SwapElements a l i (l.length - 1)).1 (geti l i) kNullIndex)
          (Heap.SwapElements l i (l.length - 1)).dropLast i i).2.1 :=
        fun hc => hidD (hSperm.mem_iff.mp hc)
      have hidx : id ≠ geti l i := fun hc => hid (hc ▸ hxmem)
      rw [hd2 id hidS, hu2 id hidD, getSeg_notify_other (Ne.symm hidx), hsw2 id hid]
  · have hieq : i = l.length - 1 := by omega
    have hswself : Heap.SwapElements l i (l.length - 1) = l := by
      rw [hieq]
      exact Heap.swap_self l (l.length - 1)
    rw [hswself]
    rw [hswself] at hsw1
    have hstab : MemorySegmentSizeCompare
        (notifySeg (MSHeap.SwapElements a l i (l.length - 1)).1 (geti l i) kNullIndex) =
        MemorySegmentSizeCompare a := by
      apply cmp_eq_of_lr
      intro k
      obtain ⟨h1l, h1r⟩ := notifySeg_lr (MSHeap.SwapElements a l i (l.length - 1)).1
        (geti l i) kNullIndex k
      obtain ⟨h2l, h2r⟩ := msSwap_lr a l i (l.length - 1) k
      exact ⟨h1l.trans h2l, h1r.trans h2r⟩
    have hupeq : (MSHeap.SiftUpGo
        (notifySeg (MSHeap.SwapElements a l i (l.length - 1)).1 (geti l i) kNullIndex)
        l i i).1 =
        notifySeg (MSHeap.SwapElements a l i (l.length - 1)).1 (geti l i) kNullIndex ∧
        (MSHeap.SiftUpGo
          (notifySeg (MSHeap.SwapElements a l i (l.length - 1)).1 (geti l i) kNullIndex)
          l i i).2.1 = l := by
      by_cases h0 : i = 0
      · rw [h0, MSHeap.SiftUpGo]
        simp
      · have hcf : MemorySegmentSizeCompare
            (notifySeg (MSHeap.SwapElements a l i (l.length - 1)).1 (geti l i) kNullIndex)
            (geti l i) (geti l (Heap.Parent i)) = false := by
          rw [hstab]
          rcases hguard with h1 | h1 | h1
          · omega
          · omega
          · exact h1
        rw [MSHeap.SiftUpGo]
        simp only [dif_neg h0]
        rw [if_neg (by rw [hcf]; simp)]
        exact ⟨rfl, rfl⟩
    rw [hupeq.1, hupeq.2]
    have hdown0 : MSHeap.SiftDown
        (notifySeg (MSHeap.SwapElements a l i (l.length - 1)).1 (geti l i) kNullIndex)
        l.dropLast i =
        (notifySeg (MSHeap.SwapElements a l i (l.length - 1)).1 (geti l i) kNullIndex,
          l.dropLast) := by
      rw [MSHeap.SiftDown]
      have hnull : Heap.LeftSon l.dropLast.length i = kNullIndex := by
        simp only [Heap.LeftSon, List.length_dropLast]
        rw [if_neg (by omega)]
      rw [dif_pos hnull]
    rw [hdown0]
    refine ⟨?_, ?_, ?_⟩
    · intro k hk
      rw [List.length_dropLast] at hk
      rw [geti_dropLast hk]
      have hkx : geti l k ≠ geti l i :=
        fun hc => absurd (nodup_geti_inj hnd (by omega) hi hc) (by omega)
      rw [getSeg_notify_other (Ne.symm hkx)]
      exact hsw1 k (by omega)
    · rw [getSeg_notify_self (by rw [hs1alen]; exact hxb)]
    · intro id hid
      have hidx : id ≠ geti l i := fun hc => hid (hc ▸ hxmem)
      rw [getSeg_notify_other (Ne.symm hidx), hsw2 id hid]

/-! ## Manager-layer utilities -/

/-- MemorySegmentSizeCompare over any fixed arena is a strict weak order
(size descending, then left ascending). -/
theorem msCompare_swo (a : Arena) : IsSWO (MemorySegmentSizeCompare a) := by
  constructor
  · intro x
    unfold MemorySegmentSizeCompare
    split_ifs with h <;> simp
  · intro x y z hxy hyz
    unfold MemorySegmentSizeCompare at hxy hyz ⊢
    split_ifs at hxy hyz ⊢ <;> simp_all <;> omega
  · intro x y z hxy hyz
    unfold MemorySegmentSizeCompare at hxy hyz ⊢
    split_ifs at hxy hyz ⊢ <;> simp_all <;> omega

theorem msErase_alen (a : Arena) (l : List Nat) (i : Nat) :
    (MSHeap.erase a l i).1.length = a.length := by
  simp only [MSHeap.erase]
  rw [msSiftDown_alen, msSiftUpGo_alen, notifySeg_length, msSwap_len]

theorem msPush_alen (a : Arena) (l : List Nat) (v : Nat) :
    (MSHeap.push a l v).1.length = a.length := by
  simp only [MSHeap.push]
  rw [msSiftUpGo_alen, notifySeg_length]

/-- The comparator reads only the endpoints of its two arguments. -/
theorem cmp_congr_pair {a a' : Arena} {i j : Nat}
    (hil : (getSeg a' i).left = (getSeg a i).left)
    (hir : (getSeg a' i).right = (getSeg a i).right)
    (hjl : (getSeg a' j).left = (getSeg a j).left)
    (hjr : (getSeg a' j).right = (getSeg a j).right) :
    MemorySegmentSizeCompare a' i j = MemorySegmentSizeCompare a i j := by
  unfold MemorySegmentSizeCompare MemorySegment.Size
  rw [hil, hir, hjl, hjr]

theorem nodup_lt_length_le {l : List Nat} {n : Nat} (hnd : l.Nodup)
    (hb : ∀ x ∈ l, x < n) : l.length ≤ n := by
  have h1 : l.toFinset.card = l.length := List.toFinset_card_of_nodup hnd
  have h2 : l.toFinset ⊆ Finset.range n := by
    intro x hx
    rw [List.mem_toFinset] at hx
    rw [Finset.mem_range]
    exact hb x hx
  have h3 := Finset.card_le_card h2
  rwa [h1, Finset.card_range] at h3

theorem geti_append_add {T : Type} [Inhabited T] (l m : List T) (n : Nat) :
    geti (l ++ m) (l.length + n) = geti m n := by
  by_cases h : n < m.length
  · rw [geti_eq_getElem (by simp; omega), geti_eq_getElem h,
      List.getElem_append_right (by omega)]
    congr 1
    omega
  · rw [geti_of_le (by simp; omega), geti_of_le (by omega)]

theorem geti_cons_succ {T : Type} [Inhabited T] (m : T) (d : List T) (n : Nat) :
    geti (m :: d) (n + 1) = geti d n := by
  by_cases h : n < d.length
  · rw [geti_eq_getElem (by simp; omega), geti_eq_getElem h]
    simp
  · rw [geti_of_le (by simp; omega), geti_of_le (by omega)]

theorem geti_take {T : Type} [Inhabited T] (l : List T) {j k : Nat} (h : k < j)
    (h2 : k < l.length) : geti (l.take j) k = geti l k := by
  rw [geti_eq_getElem (by simp; omega), geti_eq_getElem h2]
  exact List.getElem_take l

theorem geti_drop {T : Type} [Inhabited T] (l : List T) {j k : Nat}
    (h : j + k < l.length) : geti (l.drop j) k = geti l (j + k) := by
  rw [geti_eq_getElem (by simp; omega), geti_eq_getElem h]
  exact List.getElem_drop l

theorem decomp_at {T : Type} [Inhabited T] (l : List T) (j : Nat)
    (h : j < l.length) : l = l.take j ++ geti l j :: l.drop (j + 1) := by
  conv_lhs => rw [← List.take_append_drop j l]
  congr 1
  rw [geti_eq_getElem h]
  exact List.drop_eq_getElem_cons h

theorem length_take_of_le {T : Type} (l : List T) {j : Nat} (h : j ≤ l.length) :
    (l.take j).length = j := by
  simp [List.length_take]
  omega

theorem indexOf_lt {l : List Nat} {x : Nat} (h : x ∈ l) :
    l.indexOf x < l.length := List.indexOf_lt_length.mpr h

theorem geti_indexOf {l : List Nat} {x : Nat} (h : x ∈ l) :
    geti l (l.indexOf x) = x := by
  rw [geti_eq_getElem (indexOf_lt h)]
  exact List.getElem_indexOf _

theorem indexOf_geti {l : List Nat} (hnd : l.Nodup) {k : Nat}
    (hk : k < l.length) : l.indexOf (geti l k) = k := by
  have h1 : geti l k ∈ l := geti_mem hk
  exact nodup_geti_inj hnd (indexOf_lt h1) hk (geti_indexOf h1)

theorem erase_take_drop {l : List Nat} {x : Nat} :
    l.erase x = l.take (l.indexOf x) ++ l.drop (l.indexOf x + 1) := by
  rw [← List.eraseIdx_indexOf_eq_erase, List.eraseIdx_eq_take_drop_succ]

theorem getSeg_set_self {a : Arena} {i : Nat} (h : i < a.length)
    (s : MemorySegment) : getSeg (a.set i s) i = s := geti_set_self h

theorem getSeg_set_other {a : Arena} {i j : Nat} (h : i ≠ j)
    (s : MemorySegment) : getSeg (a.set i s) j = getSeg a j := geti_set_ne h

theorem getSeg_append_lt {a : Arena} {i : Nat} (h : i < a.length)
    (s : MemorySegment) : getSeg (a ++ [s]) i = getSeg a i := geti_append_lt h

theorem getSeg_append_len (a : Arena) (s : MemorySegment) :
    getSeg (a ++ [s]) a.length = s := geti_concat_len

theorem getSeg_of_le {a : Arena} {i : Nat} (h : a.length ≤ i) :
    getSeg a i = default := geti_of_le h

theorem msPush_list (a : Arena) (l : List Nat) (v : Nat) :
    List.Perm (MSHeap.push a l v).2.1 (l ++ [v]) := by
  rw [(msPush_spec a l v).1.1]
  exact Heap.push_perm _ l v

theorem msPush_mem (a : Arena) (l : List Nat) (v : Nat) (x : Nat) :
    x ∈ (MSHeap.push a l v).2.1 ↔ x ∈ l ∨ x = v := by
  rw [(msPush_list a l v).mem_iff]
  simp

theorem msPush_llen (a : Arena) (l : List Nat) (v : Nat) :
    (MSHeap.push a l v).2.1.length = l.length + 1 := by
  rw [(msPush_spec a l v).1.1]
  exact Heap.push_length _ l v

/-- Packaged erase of the manager's heap: permutation, restored heap order
and length, with the comparator stability folded in. -/
theorem msErase_pack (a : Arena) (l : List Nat) (i : Nat) (hi : i < l.length)
    (hlen : l.length ≤ kNullIndex)
    (hheap : HeapProp (MemorySegmentSizeCompare a) l) :
    List.Perm ((MSHeap.erase a l i).2 ++ [geti l i]) l ∧
    HeapProp (MemorySegmentSizeCompare (MSHeap.erase a l i).1)
      (MSHeap.erase a l i).2 ∧
    (MSHeap.erase a l i).2.length = l.length - 1 := by
  obtain ⟨hlist, hlr⟩ := msErase_spec a l i
  obtain ⟨h1, h2, h3⟩ := Heap.erase_spec (MemorySegmentSizeCompare a)
    (msCompare_swo a) l i hi hlen hheap
  rw [hlist, cmp_eq_of_lr hlr]
  exact ⟨h1, h2, h3⟩

/-- Packaged erase at the root when only the root's child edges may be
unordered (Allocate shrinks max_free before erasing it at heap_index 0). -/
theorem msErase_pack_root (a : Arena) (l : List Nat) (hne0 : l ≠ [])
    (hlen : l.length ≤ kNullIndex)
    (hroot : ∀ c, c < l.length → 0 < c → Heap.Parent c ≠ 0 →
      MemorySegmentSizeCompare a (geti l c) (geti l (Heap.Parent c)) = false) :
    List.Perm ((MSHeap.erase a l 0).2 ++ [geti l 0]) l ∧
    HeapProp (MemorySegmentSizeCompare (MSHeap.erase a l 0).1)
      (MSHeap.erase a l 0).2 ∧
    (MSHeap.erase a l 0).2.length = l.length - 1 := by
  obtain ⟨hlist, hlr⟩ := msErase_spec a l 0
  obtain ⟨h1, h2, h3⟩ := Heap.erase_spec_root (MemorySegmentSizeCompare a)
    (msCompare_swo a) l hne0 hlen hroot
  rw [hlist, cmp_eq_of_lr hlr]
  exact ⟨h1, h2, h3⟩

theorem msPush_pack (a : Arena) (l : List Nat) (v : Nat)
    (hheap : HeapProp (MemorySegmentSizeCompare a) l) :
    HeapProp (MemorySegmentSizeCompare (MSHeap.push a l v).1)
      (MSHeap.push a l v).2.1 := by
  obtain ⟨⟨h1, _⟩, hlr⟩ := msPush_spec a l v
  rw [cmp_eq_of_lr hlr, h1]
  exact Heap.push_heapProp _ (msCompare_swo a) l v hheap

/-- Heap order only depends on the endpoints of the heap's members. -/
theorem heapProp_of_lr {a a' : Arena} {l : List Nat}
    (hlr : ∀ x ∈ l, (getSeg a' x).left = (getSeg a x).left ∧
      (getSeg a' x).right = (getSeg a x).right)
    (hheap : HeapProp (MemorySegmentSizeCompare a) l) :
    HeapProp (MemorySegmentSizeCompare a') l := by
  intro c hc hc0
  have h1 := hlr (geti l c) (geti_mem hc)
  have h2 := hlr (geti l (Heap.Parent c))
    (geti_mem (lt_of_le_of_lt (Heap.parent_le c) hc))
  rw [cmp_congr_pair h1.1 h1.2 h2.1 h2.2]
  exact hheap c hc hc0

/-- Partition only depends on the segment sequence and the endpoints. -/
theorem partition_congr {st st' : MMState} {ms : Nat}
    (hsegs : st'.segs = st.segs)
    (hlr : ∀ id, (getSeg st'.arena id).left = (getSeg st.arena id).left ∧
      (getSeg st'.arena id).right = (getSeg st.arena id).right)
    (hp : Partition st ms) : Partition st' ms := by
  obtain ⟨h1, h2, h3, h4, h5⟩ := hp
  have hseg : ∀ k, (SegAt st' k).left = (SegAt st k).left ∧
      (SegAt st' k).right = (SegAt st k).right := by
    intro k
    unfold SegAt
    rw [hsegs]
    exact hlr _
  refine ⟨hsegs ▸ h1, ?_, ?_, ?_, ?_⟩
  · rw [(hseg 0).1]
    exact h2
  · rw [hsegs, (hseg _).2]
    exact h3
  · intro k hk
    rw [hsegs] at hk
    rw [(hseg k).1, (hseg k).2]
    exact h4 k hk
  · intro k hk
    rw [hsegs] at hk
    rw [(hseg k).2, (hseg (k + 1)).1]
    exact h5 k hk

namespace MemoryManager

theorem insertBefore_perm (l : List Nat) (pos v : Nat) :
    List.Perm (insertBefore l pos v) (v :: l) := by
  induction l with
  | nil => simp [insertBefore]
  | cons x xs ih =>
    rw [insertBefore]
    split_ifs with h
    · exact List.Perm.refl _
    · exact (ih.cons x).trans (List.Perm.swap v x xs)

theorem insertBefore_take_drop (l : List Nat) (pos v : Nat) (h : pos ∈ l) :
    insertBefore l pos v =
      l.take (l.indexOf pos) ++ v :: l.drop (l.indexOf pos) := by
  induction l with
  | nil => cases h
  | cons x xs ih =>
    rw [insertBefore]
    by_cases hx : x = pos
    · rw [if_pos hx, hx, List.indexOf_cons_self]
      simp
    · have hmem : pos ∈ xs := by
        rcases List.mem_cons.mp h with h1 | h1
        · exact absurd h1.symm hx
        · exact h1
      rw [if_neg hx, ih hmem, List.indexOf_cons_ne _ hx]
      simp

end MemoryManager

/-! ## The constructed manager state -/

theorem init_eq (ms : Nat) :
    MemoryManager.init ms = ⟨[⟨0, (ms : Int), 0⟩], [0], [0]⟩ := by
  have h1 : MSHeap.push [⟨0, (ms : Int), kNullIndex⟩] [] 0 =
      ([⟨0, (ms : Int), 0⟩], [0], 0) := by
    simp only [MSHeap.push, List.nil_append, List.length_cons, List.length_nil,
      Nat.zero_add, Nat.sub_self]
    rw [MSHeap.SiftUpGo]
    simp [notifySeg, getSeg, geti]
  simp only [MemoryManager.init, h1]

theorem init_inv (ms : Nat) : MMInv (MemoryManager.init ms) ms := by
  rw [init_eq]
  refine ⟨by simp, by simp, fun i h => h, by simp, ?_, ?_,
    by show 1 < kNullIndex; norm_num [kNullIndex], ?_, ?_, ?_⟩
  · intro k hk
    simp only [List.length_cons, List.length_nil] at hk
    have hk0 : k = 0 := by omega
    subst hk0
    rfl
  · intro i hi hni
    exact absurd hi hni
  · intro c h1 h2
    simp only [List.length_cons, List.length_nil] at h1
    omega
  · refine ⟨by simp, rfl, rfl, ?_, ?_⟩
    · intro k hk
      simp only [List.length_cons, List.length_nil] at hk
      have hk0 : k = 0 := by omega
      subst hk0
      show (0 : Int) ≤ (ms : Int)
      exact Int.natCast_nonneg ms
    · intro k hk
      simp only [List.length_cons, List.length_nil] at hk
      omega
  · intro k hk
    simp only [List.length_cons, List.length_nil] at hk
    omega

theorem init_nonneg (ms : Nat) : NonnegLR (MemoryManager.init ms) := by
  rw [init_eq]
  intro id
  match id with
  | 0 => exact ⟨le_refl 0, Int.natCast_nonneg ms⟩
  | n + 1 =>
    rw [getSeg_of_le (by simp)]
    exact ⟨le_refl 0, le_refl 0⟩

/-! ## Allocate: branch characterizations -/

theorem geti_cons_zero {T : Type} [Inhabited T] (m : T) (d : List T) :
    geti (m :: d) 0 = m := by
  rw [geti_eq_getElem (by simp)]
  simp

theorem alloc_fail_frame (st : MMState) (size : Nat)
    (h : (MemoryManager.Allocate st size).2 = none) :
    (MemoryManager.Allocate st size).1 = st := by
  simp only [MemoryManager.Allocate] at h ⊢
  split_ifs at h ⊢ <;> simp_all

theorem alloc_fail_iff (st : MMState) (size : Nat) :
    (MemoryManager.Allocate st size).2 = none ↔
      st.heap.length = 0 ∨ size > (getSeg st.arena (geti st.heap 0)).Size := by
  simp only [MemoryManager.Allocate]
  split_ifs with h0 h1 h2 <;> simp_all

theorem alloc_equal_eq (st : MMState) (size : Nat)
    (h0 : ¬st.heap.length = 0)
    (h2 : size = (getSeg st.arena (geti st.heap 0)).Size) :
    MemoryManager.Allocate st size =
      (⟨(MSHeap.erase st.arena st.heap
          ((getSeg st.arena (geti st.heap 0)).heap_index)).1, st.segs,
        (MSHeap.erase st.arena st.heap
          ((getSeg st.arena (geti st.heap 0)).heap_index)).2⟩,
       some (geti st.heap 0)) := by
  simp only [MemoryManager.Allocate]
  rw [if_neg h0, if_neg (by omega), if_pos h2]

theorem alloc_split_eq (st : MMState) (size : Nat)
    (h0 : ¬st.heap.length = 0)
    (h1 : ¬size > (getSeg st.arena (geti st.heap 0)).Size)
    (h2 : ¬size = (getSeg st.arena (geti st.heap 0)).Size) :
    MemoryManager.Allocate st size =
      (let T := geti st.heap 0
       let alloc : MemorySegment := ⟨(getSeg st.arena T).left,
         (getSeg st.arena T).left + (size : Int), kNullIndex⟩
       let A2 := MemoryManager.setLeft (st.arena ++ [alloc]) T
         ((getSeg st.arena T).left + (size : Int))
       let r := MSHeap.erase A2 st.heap ((getSeg A2 T).heap_index)
       let r2 := MSHeap.push r.1 r.2 T
       (⟨r2.1, MemoryManager.insertBefore st.segs T st.arena.length, r2.2.1⟩,
        some st.arena.length)) := by
  simp only [MemoryManager.Allocate]
  rw [if_neg h0, if_neg h1, if_neg h2]

/-! ## Allocate preserves the manager invariant -/

theorem alloc_equal_inv {st : MMState} {ms : Nat} (hinv : MMInv st ms)
    (size : Nat) (h0 : ¬st.heap.length = 0)
    (h2 : size = (getSeg st.arena (geti st.heap 0)).Size) :
    MMInv (MemoryManager.Allocate st size).1 ms := by
  obtain ⟨hnd, hlt, hsub, hhnd, htin, htout, hab, hord, hpart, hnadj⟩ := hinv
  have hpos : 0 < st.heap.length := Nat.pos_of_ne_zero h0
  have hidx0 : (getSeg st.arena (geti st.heap 0)).heap_index = 0 := htin 0 hpos
  rw [alloc_equal_eq st size h0 h2, hidx0]
  have hb : ∀ id ∈ st.heap, id < st.arena.length := fun id h => hlt id (hsub id h)
  have hlenk : st.heap.length ≤ kNullIndex :=
    le_of_lt (lt_of_le_of_lt (nodup_lt_length_le hhnd hb) hab)
  obtain ⟨hEperm, hEord, hElen⟩ := msErase_pack st.arena st.heap 0 hpos hlenk hord
  obtain ⟨hT1, hT2, hT3⟩ := msErase_track st.arena st.heap 0 hhnd hpos hb htin
    (Or.inr (Or.inl rfl))
  have hlr := (msErase_spec st.arena st.heap 0).2
  have hndE : ((MSHeap.erase st.arena st.heap 0).2 ++ [geti st.heap 0]).Nodup :=
    hhnd.perm hEperm.symm
  have hTnotE : geti st.heap 0 ∉ (MSHeap.erase st.arena st.heap 0).2 := by
    have h3 := List.nodup_append.mp hndE
    intro hc
    exact (h3.2.2 hc) (by simp)
  have hmemE : ∀ x, x ∈ (MSHeap.erase st.arena st.heap 0).2 ↔
      x ∈ st.heap ∧ x ≠ geti st.heap 0 := by
    intro x
    constructor
    · intro hx
      refine ⟨hEperm.mem_iff.mp (List.mem_append.mpr (Or.inl hx)), ?_⟩
      intro hcon
      exact hTnotE (hcon ▸ hx)
    · rintro ⟨hx, hne⟩
      rcases List.mem_append.mp (hEperm.symm.mem_iff.mp hx) with h | h
      · exact h
      · simp only [List.mem_singleton] at h
        exact absurd h hne
  refine ⟨hnd, ?_, ?_, ?_, hT1, ?_, ?_, hEord, ?_, ?_⟩
  · intro i hi
    rw [msErase_alen]
    exact hlt i hi
  · intro i hi
    exact hsub i ((hmemE i).mp hi).1
  · exact (List.nodup_append.mp hndE).1
  · intro i hi hni
    by_cases hiT : i = geti st.heap 0
    · rw [hiT]
      exact hT2
    · have hinh : i ∉ st.heap := fun hc => hni ((hmemE i).mpr ⟨hc, hiT⟩)
      rw [hT3 i hinh]
      exact htout i hi hinh
  · rw [msErase_alen]
    exact hab
  · exact @partition_congr st _ _ rfl hlr hpart
  · intro k hk
    rintro ⟨ha, hb2⟩
    exact hnadj k hk ⟨((hmemE _).mp ha).1, ((hmemE _).mp hb2).1⟩

theorem alloc_split_inv {st : MMState} {ms : Nat} (hinv : MMInv st ms)
    (hbound : st.arena.length + 1 < kNullIndex) (size : Nat)
    (h0 : ¬st.heap.length = 0)
    (h1 : ¬size > (getSeg st.arena (geti st.heap 0)).Size)
    (h2 : ¬size = (getSeg st.arena (geti st.heap 0)).Size) :
    MMInv (MemoryManager.Allocate st size).1 ms := by
  obtain ⟨hnd, hlt, hsub, hhnd, htin, htout, hab, hord, hpart, hnadj⟩ := hinv
  have hpos : 0 < st.heap.length := Nat.pos_of_ne_zero h0
  have hidx0 : (getSeg st.arena (geti st.heap 0)).heap_index = 0 := htin 0 hpos
  have hTmem : geti st.heap 0 ∈ st.heap := geti_mem hpos
  have hTsegs : geti st.heap 0 ∈ st.segs := hsub _ hTmem
  have hTlt : geti st.heap 0 < st.arena.length := hlt _ hTsegs
  have hbid : ∀ id ∈ st.heap, id < st.arena.length :=
    fun id h => hlt id (hsub id h)
  have hlenk : st.heap.length ≤ kNullIndex :=
    le_of_lt (lt_of_le_of_lt (nodup_lt_length_le hhnd hbid) hab)
  have hne0 : st.heap ≠ [] := fun hc => by rw [hc] at hpos; simp at hpos
  rw [alloc_split_eq st size h0 h1 h2]
  simp only []
  set T := geti st.heap 0 with hTdef
  set L := (getSeg st.arena T).left with hLdef
  set R := (getSeg st.arena T).right with hRdef
  set AL := (⟨L, L + (size : Int), kNullIndex⟩ : MemorySegment) with hALdef
  set A2 := MemoryManager.setLeft (st.arena ++ [AL]) T (L + (size : Int)) with hA2def
  have hA2T : getSeg A2 T = ⟨L + (size : Int), R, (getSeg st.arena T).heap_index⟩ := by
    have hTlen : T < (st.arena ++ [AL]).length := by
      simp only [List.length_append, List.length_cons, List.length_nil]
      omega
    rw [hA2def, MemoryManager.setLeft, getSeg_set_self hTlen,
      getSeg_append_lt hTlt]
  have hidxA2 : (getSeg A2 T).heap_index = 0 := by
    rw [hA2T]
    exact hidx0
  rw [hidxA2]
  set E := MSHeap.erase A2 st.heap 0 with hEdef
  set P := MSHeap.push E.1 E.2 T with hPdef
  set N := st.arena.length with hNdef
  -- arena facts below the setLeft / append
  have hA2len : A2.length = N + 1 := by
    rw [hA2def, MemoryManager.setLeft]
    simp only [List.length_set, List.length_append, List.length_cons,
      List.length_nil]
  have hA2N : getSeg A2 N = AL := by
    rw [hA2def, MemoryManager.setLeft, getSeg_set_other (by omega : T ≠ N)]
    exact getSeg_append_len st.arena AL
  have hA2other : ∀ x, x ≠ T → x ≠ N → getSeg A2 x = getSeg st.arena x := by
    intro x hxT hxN
    rw [hA2def, MemoryManager.setLeft, getSeg_set_other (fun hc => hxT hc.symm)]
    by_cases hx : x < st.arena.length
    · exact getSeg_append_lt hx AL
    · have hxlen : (st.arena ++ [AL]).length ≤ x := by
        simp only [List.length_append, List.length_cons, List.length_nil]
        omega
      rw [getSeg_of_le hxlen, getSeg_of_le (by omega)]
  have hbA2 : ∀ id ∈ st.heap, id < A2.length := by
    intro id h
    rw [hA2len]
    exact lt_of_lt_of_le (hbid id h) (by omega)
  have hTne : ∀ k, k < st.heap.length → k ≠ 0 → geti st.heap k ≠ T := by
    intro k hk hk0 hcon
    exact hk0 (nodup_geti_inj hhnd hk hpos hcon)
  have hheapN : ∀ id ∈ st.heap, id ≠ N :=
    fun id h hc => absurd (hbid id h) (by omega)
  have htrA2 : ∀ k, k < st.heap.length →
      (getSeg A2 (geti st.heap k)).heap_index = k := by
    intro k hk
    by_cases hk0 : k = 0
    · subst hk0
      rw [hA2T]
      exact hidx0
    · rw [hA2other _ (hTne k hk hk0) (hheapN _ (geti_mem hk))]
      exact htin k hk
  have hrootA2 : ∀ c, c < st.heap.length → 0 < c → Heap.Parent c ≠ 0 →
      MemorySegmentSizeCompare A2 (geti st.heap c)
        (geti st.heap (Heap.Parent c)) = false := by
    intro c hc hc0 hpc
    have hplt : Heap.Parent c < st.heap.length :=
      lt_of_le_of_lt (Heap.parent_le c) hc
    have e1 := hA2other _ (hTne c hc (by omega)) (hheapN _ (geti_mem hc))
    have e2 := hA2other _ (hTne _ hplt hpc) (hheapN _ (geti_mem hplt))
    have hc12 : MemorySegmentSizeCompare A2 (geti st.heap c)
        (geti st.heap (Heap.Parent c)) =
        MemorySegmentSizeCompare st.arena (geti st.heap c)
        (geti st.heap (Heap.Parent c)) :=
      cmp_congr_pair (by rw [e1]) (by rw [e1]) (by rw [e2]) (by rw [e2])
    rw [hc12]
    exact hord c hc hc0
  -- erase of the (shrunk) top at heap slot 0
  have hEperm : List.Perm (E.2 ++ [T]) st.heap :=
    (msErase_pack_root A2 st.heap hne0 hlenk hrootA2).1
  have hEord : HeapProp (MemorySegmentSizeCompare E.1) E.2 :=
    (msErase_pack_root A2 st.heap hne0 hlenk hrootA2).2.1
  have hE1 : ∀ k, k < E.2.length → (getSeg E.1 (geti E.2 k)).heap_index = k :=
    (msErase_track A2 st.heap 0 hhnd hpos hbA2 htrA2 (Or.inr (Or.inl rfl))).1
  have hE2 : (getSeg E.1 T).heap_index = kNullIndex :=
    (msErase_track A2 st.heap 0 hhnd hpos hbA2 htrA2 (Or.inr (Or.inl rfl))).2.1
  have hE3 : ∀ id, id ∉ st.heap → getSeg E.1 id = getSeg A2 id :=
    (msErase_track A2 st.heap 0 hhnd hpos hbA2 htrA2 (Or.inr (Or.inl rfl))).2.2
  have hElr : ∀ k, (getSeg E.1 k).left = (getSeg A2 k).left ∧
      (getSeg E.1 k).right = (getSeg A2 k).right := (msErase_spec A2 st.heap 0).2
  have hndE : (E.2 ++ [T]).Nodup := hhnd.perm hEperm.symm
  have hTnotE : T ∉ E.2 := fun hc =>
    ((List.nodup_append.mp hndE).2.2 hc) (by simp)
  have hEnd : E.2.Nodup := (List.nodup_append.mp hndE).1
  have hmemE : ∀ x, x ∈ E.2 ↔ x ∈ st.heap ∧ x ≠ T := by
    intro x
    constructor
    · intro hx
      refine ⟨hEperm.mem_iff.mp (List.mem_append.mpr (Or.inl hx)), ?_⟩
      intro hcon
      exact hTnotE (hcon ▸ hx)
    · rintro ⟨hx, hne⟩
      rcases List.mem_append.mp (hEperm.symm.mem_iff.mp hx) with h | h
      · exact h
      · simp only [List.mem_singleton] at h
        exact absurd h hne
  have hEalen : E.1.length = N + 1 := by
    rw [hEdef, msErase_alen]
    exact hA2len
  -- push the shrunk top back
  have hbE : ∀ id ∈ E.2, id < E.1.length := by
    intro id h
    rw [hEalen]
    exact lt_of_lt_of_le (hbid id ((hmemE id).mp h).1) (by omega)
  have hP1 : ∀ k, k < P.2.1.length →
      (getSeg P.1 (geti P.2.1 k)).heap_index = k :=
    (msPush_track E.1 E.2 T hEnd hTnotE (by rw [hEalen]; omega) hbE hE1).1
  have hP2 : ∀ id, id ∉ E.2 → id ≠ T → getSeg P.1 id = getSeg E.1 id :=
    (msPush_track E.1 E.2 T hEnd hTnotE (by rw [hEalen]; omega) hbE hE1).2
  have hPord : HeapProp (MemorySegmentSizeCompare P.1) P.2.1 :=
    msPush_pack E.1 E.2 T hEord
  have hPlist : List.Perm P.2.1 (E.2 ++ [T]) := msPush_list E.1 E.2 T
  have hPperm : List.Perm P.2.1 st.heap := hPlist.trans hEperm
  have hPmem : ∀ x, x ∈ P.2.1 ↔ x ∈ st.heap := fun x => hPperm.mem_iff
  have hPalen : P.1.length = N + 1 := by
    rw [hPdef, msPush_alen]
    exact hEalen
  have hlrPA2 : ∀ x, (getSeg P.1 x).left = (getSeg A2 x).left ∧
      (getSeg P.1 x).right = (getSeg A2 x).right := by
    intro x
    obtain ⟨a1, a2⟩ := (msPush_spec E.1 E.2 T).2 x
    obtain ⟨b1, b2⟩ := hElr x
    exact ⟨a1.trans b1, a2.trans b2⟩
  -- endpoint values in the final arena
  have hvT : (getSeg P.1 T).left = L + (size : Int) ∧ (getSeg P.1 T).right = R := by
    obtain ⟨c1, c2⟩ := hlrPA2 T
    rw [c1, c2, hA2T]
    exact ⟨rfl, rfl⟩
  have hvN : (getSeg P.1 N).left = L ∧ (getSeg P.1 N).right = L + (size : Int) := by
    obtain ⟨c1, c2⟩ := hlrPA2 N
    rw [c1, c2, hA2N, hALdef]
    exact ⟨rfl, rfl⟩
  have hvO : ∀ x, x ≠ T → x ≠ N →
      (getSeg P.1 x).left = (getSeg st.arena x).left ∧
      (getSeg P.1 x).right = (getSeg st.arena x).right := by
    intro x hxT hxN
    obtain ⟨c1, c2⟩ := hlrPA2 x
    rw [c1, c2, hA2other x hxT hxN]
    exact ⟨rfl, rfl⟩
  -- size bound on the split
  have hsz : size < (getSeg st.arena T).Size := by omega
  have hLR : L + (size : Int) < R := by
    unfold MemorySegment.Size at hsz
    rw [← hLdef, ← hRdef] at hsz
    split_ifs at hsz with hge
    · omega
    · omega
  -- the new segment sequence
  set j := st.segs.indexOf T with hjdef
  have hjlt : j < st.segs.length := indexOf_lt hTsegs
  have hsegsT : geti st.segs j = T := geti_indexOf hTsegs
  have hNsegs : N ∉ st.segs := fun hc => absurd (hlt N hc) (by omega)
  have hs1 : MemoryManager.insertBefore st.segs T N =
      st.segs.take j ++ N :: T :: st.segs.drop (j + 1) := by
    rw [MemoryManager.insertBefore_take_drop st.segs T N hTsegs, ← hjdef]
    congr 1
    congr 1
    rw [List.drop_eq_getElem_cons hjlt]
    congr 1
    rw [← geti_eq_getElem hjlt]
    exact hsegsT
  rw [hs1]
  set S1 := st.segs.take j ++ N :: T :: st.segs.drop (j + 1) with hS1def
  have htklen : (st.segs.take j).length = j := length_take_of_le st.segs (le_of_lt hjlt)
  have hS1len : S1.length = st.segs.length + 1 := by
    rw [hS1def]
    simp only [List.length_append, List.length_cons, List.length_drop, htklen]
    omega
  have hS1perm : List.Perm S1 (N :: st.segs) := by
    have h3 := MemoryManager.insertBefore_perm st.segs T N
    rw [hs1] at h3
    exact h3
  have hS1nd : S1.Nodup :=
    (List.nodup_cons.mpr ⟨hNsegs, hnd⟩).perm hS1perm.symm
  have hS1mem : ∀ x, x ∈ S1 ↔ x = N ∨ x ∈ st.segs := by
    intro x
    rw [hS1perm.mem_iff]
    simp
  have hg_lt : ∀ k, k < j → geti S1 k = geti st.segs k := by
    intro k hk
    rw [hS1def, geti_append_lt (by rw [htklen]; exact hk),
      geti_take st.segs hk (by omega)]
  have hg_j : geti S1 j = N := by
    have h5 := geti_append_add (st.segs.take j) (N :: T :: st.segs.drop (j + 1)) 0
    rw [htklen, geti_cons_zero] at h5
    rw [hS1def]
    exact h5
  have hg_j1 : geti S1 (j + 1) = T := by
    have h5 := geti_append_add (st.segs.take j) (N :: T :: st.segs.drop (j + 1)) 1
    rw [htklen] at h5
    have h6 := geti_cons_succ N (T :: st.segs.drop (j + 1)) 0
    rw [geti_cons_zero] at h6
    rw [hS1def, h5]
    exact h6
  have hg_gt : ∀ k, j + 2 ≤ k → k ≤ st.segs.length →
      geti S1 k = geti st.segs (k - 1) := by
    intro k hk2 hkle
    have h5 := geti_append_add (st.segs.take j)
      (N :: T :: st.segs.drop (j + 1)) (k - j)
    rw [htklen, show j + (k - j) = k from by omega] at h5
    have h6 := geti_cons_succ N (T :: st.segs.drop (j + 1)) (k - j - 1)
    rw [show k - j - 1 + 1 = k - j from by omega] at h6
    have h7 := geti_cons_succ T (st.segs.drop (j + 1)) (k - j - 2)
    rw [show k - j - 2 + 1 = k - j - 1 from by omega] at h7
    have h8 := geti_drop st.segs
      (show j + 1 + (k - j - 2) < st.segs.length from by omega)
    rw [hS1def, h5, h6, h7, h8, show j + 1 + (k - j - 2) = k - 1 from by omega]
  have hgeti_ne : ∀ k, k < st.segs.length → k ≠ j → geti st.segs k ≠ T := by
    intro k hk hkj hcon
    exact hkj (nodup_geti_inj hnd hk hjlt (by rw [hcon, hsegsT]))
  have hgeti_neN : ∀ k, k < st.segs.length → geti st.segs k ≠ N := by
    intro k hk hcon
    exact hNsegs (hcon ▸ geti_mem hk)
  obtain ⟨hp1, hp2, hp3, hp4, hp5⟩ := hpart
  refine ⟨hS1nd, ?_, ?_, ?_, hP1, ?_, ?_, hPord, ?_, ?_⟩
  · -- segs_lt
    intro x hx
    rw [hPalen]
    rcases (hS1mem x).mp hx with h | h
    · omega
    · exact lt_of_lt_of_le (hlt x h) (by omega)
  · -- heap_sub
    intro x hx
    exact (hS1mem x).mpr (Or.inr (hsub x ((hPmem x).mp hx)))
  · -- heap_nodup
    exact hhnd.perm hPperm.symm
  · -- track_out
    intro i hi hni
    by_cases hiT : i = T
    · exact absurd ((hPmem i).mpr (hiT ▸ hTmem)) hni
    · by_cases hiN : i = N
      · have hih : i ∉ st.heap := fun hc => absurd (hbid i hc) (by omega)
        have hiE : i ∉ E.2 := fun hc => hih ((hmemE i).mp hc).1
        rw [hP2 i hiE hiT, hE3 i hih, hiN, hA2N, hALdef]
      · have hisegs : i ∈ st.segs := by
          rcases (hS1mem i).mp hi with h | h
          · exact absurd h hiN
          · exact h
        have hih : i ∉ st.heap := fun hc => hni ((hPmem i).mpr hc)
        have hiE : i ∉ E.2 := fun hc => hih ((hmemE i).mp hc).1
        rw [hP2 i hiE hiT, hE3 i hih, hA2other i hiT hiN]
        exact htout i hisegs hih
  · -- arena_bound
    rw [hPalen]
    exact hbound
  · -- partition
    refine ⟨?_, ?_, ?_, ?_, ?_⟩
    · show S1 ≠ []
      intro hc
      rw [hc] at hS1len
      simp at hS1len
    · show (getSeg P.1 (geti S1 0)).left = 0
      by_cases hj0 : j = 0
      · rw [show (0 : Nat) = j from hj0.symm, hg_j, hvN.1]
        have h4 : (SegAt st 0).left = 0 := hp2
        unfold SegAt at h4
        rw [← hj0, hsegsT] at h4
        rw [hLdef]
        exact h4
      · rw [hg_lt 0 (by omega),
          (hvO _ (hgeti_ne 0 (by omega) (fun hc => hj0 hc.symm))
            (hgeti_neN 0 (by omega))).1]
        exact hp2
    · show (getSeg P.1 (geti S1 (S1.length - 1))).right = (ms : Int)
      rw [hS1len, show st.segs.length + 1 - 1 = st.segs.length from rfl]
      by_cases hjlast : j + 1 = st.segs.length
      · rw [show st.segs.length = j + 1 from hjlast.symm, hg_j1, hvT.2]
        have h4 : (SegAt st (st.segs.length - 1)).right = (ms : Int) := hp3
        unfold SegAt at h4
        rw [show st.segs.length - 1 = j from by omega, hsegsT] at h4
        rw [hRdef]
        exact h4
      · rw [hg_gt st.segs.length (by omega) (le_refl _),
          (hvO _ (hgeti_ne _ (by omega) (by omega))
            (hgeti_neN _ (by omega))).2]
        exact hp3
    · intro k hk
      rw [hS1len] at hk
      show (getSeg P.1 (geti S1 k)).left ≤ (getSeg P.1 (geti S1 k)).right
      rcases lt_trichotomy k j with hkj | hkj | hkj
      · rw [hg_lt k hkj]
        obtain ⟨o1, o2⟩ := hvO _ (hgeti_ne k (by omega) (by omega))
          (hgeti_neN k (by omega))
        rw [o1, o2]
        exact hp4 k (by omega)
      · rw [hkj, hg_j, hvN.1, hvN.2]
        omega
      · by_cases hkj1 : k = j + 1
        · rw [hkj1, hg_j1, hvT.1, hvT.2]
          omega
        · rw [hg_gt k (by omega) (by omega)]
          obtain ⟨o1, o2⟩ := hvO _ (hgeti_ne (k - 1) (by omega) (by omega))
            (hgeti_neN (k - 1) (by omega))
          rw [o1, o2]
          exact hp4 (k - 1) (by omega)
    · intro k hk
      rw [hS1len] at hk
      show (getSeg P.1 (geti S1 k)).right = (getSeg P.1 (geti S1 (k + 1))).left
      rcases lt_trichotomy (k + 1) j with hkj | hkj | hkj
      · rw [hg_lt k (by omega), hg_lt (k + 1) hkj]
        obtain ⟨o1, o2⟩ := hvO _ (hgeti_ne k (by omega) (by omega))
          (hgeti_neN k (by omega))
        obtain ⟨p1', p2'⟩ := hvO _ (hgeti_ne (k + 1) (by omega) (by omega))
          (hgeti_neN (k + 1) (by omega))
        rw [o2, p1']
        exact hp5 k (by omega)
      · rw [hg_lt k (by omega), hkj, hg_j, hvN.1]
        obtain ⟨o1, o2⟩ := hvO _ (hgeti_ne k (by omega) (by omega))
          (hgeti_neN k (by omega))
        rw [o2]
        have h4 := hp5 k (by omega)
        unfold SegAt at h4
        rw [show k + 1 = j from hkj, hsegsT] at h4
        rw [hLdef]
        exact h4
      · by_cases hkj0 : k = j
        · rw [hkj0, hg_j, hg_j1, hvN.2, hvT.1]
        · by_cases hkj1 : k = j + 1
          · rw [hkj1, hg_j1, hvT.2,
              hg_gt (j + 1 + 1) (by omega) (by omega)]
            obtain ⟨p1', p2'⟩ := hvO _ (hgeti_ne (j + 1 + 1 - 1) (by omega) (by omega))
              (hgeti_neN (j + 1 + 1 - 1) (by omega))
            rw [p1']
            have h4 := hp5 j (by omega)
            unfold SegAt at h4
            rw [hsegsT] at h4
            rw [hRdef, show j + 1 + 1 - 1 = j + 1 from by omega]
            exact h4
          · rw [hg_gt k (by omega) (by omega), hg_gt (k + 1) (by omega) (by omega)]
            obtain ⟨o1, o2⟩ := hvO _ (hgeti_ne (k - 1) (by omega) (by omega))
              (hgeti_neN (k - 1) (by omega))
            obtain ⟨p1', p2'⟩ := hvO _ (hgeti_ne (k + 1 - 1) (by omega) (by omega))
              (hgeti_neN (k + 1 - 1) (by omega))
            rw [o2, p1']
            have h4 := hp5 (k - 1) (by omega)
            rw [show k - 1 + 1 = k from by omega] at h4
            rw [show k + 1 - 1 = k from by omega]
            exact h4
  · -- no_adj
    intro k hk
    rw [hS1len] at hk
    rintro ⟨hmA, hmB⟩
    rcases lt_trichotomy (k + 1) j with hkj | hkj | hkj
    · rw [hg_lt k (by omega)] at hmA
      rw [hg_lt (k + 1) hkj] at hmB
      exact hnadj k (by omega) ⟨(hPmem _).mp hmA, (hPmem _).mp hmB⟩
    · rw [hkj, hg_j] at hmB
      exact absurd (hbid N ((hPmem N).mp hmB)) (by omega)
    · by_cases hkj0 : k = j
      · rw [hkj0, hg_j] at hmA
        exact absurd (hbid N ((hPmem N).mp hmA)) (by omega)
      · by_cases hkj1 : k = j + 1
        · rw [hkj1, hg_j1] at hmA
          rw [hkj1, hg_gt (j + 1 + 1) (by omega) (by omega),
            show j + 1 + 1 - 1 = j + 1 from by omega] at hmB
          refine hnadj j (by omega) ⟨?_, (hPmem _).mp hmB⟩
          rw [hsegsT]
          exact (hPmem _).mp hmA
        · rw [hg_gt k (by omega) (by omega)] at hmA
          rw [hg_gt (k + 1) (by omega) (by omega),
            show k + 1 - 1 = k from by omega] at hmB
          have h4 := hnadj (k - 1) (by omega)
          rw [show k - 1 + 1 = k from by omega] at h4
          exact h4 ⟨(hPmem _).mp hmA, (hPmem _).mp hmB⟩

theorem alloc_inv {st : MMState} {ms : Nat} (hinv : MMInv st ms)
    (hbound : st.arena.length + 1 < kNullIndex) (size : Nat) :
    MMInv (MemoryManager.Allocate st size).1 ms := by
  by_cases h0 : st.heap.length = 0
  · rw [alloc_fail_frame st size ((alloc_fail_iff st size).mpr (Or.inl h0))]
    exact hinv
  · by_cases h1 : size > (getSeg st.arena (geti st.heap 0)).Size
    · rw [alloc_fail_frame st size ((alloc_fail_iff st size).mpr (Or.inr h1))]
      exact hinv
    · by_cases h2 : size = (getSeg st.arena (geti st.heap 0)).Size
      · exact alloc_equal_inv hinv size h0 h2
      · exact alloc_split_inv hinv hbound size h0 h1 h2

/-! ## Non-negative endpoints, for the driver's printed positions -/

theorem getSeg_set_cases (a : Arena) (i : Nat) (s : MemorySegment) (x : Nat) :
    getSeg (a.set i s) x = s ∨ getSeg (a.set i s) x = getSeg a x := by
  by_cases h : i = x
  · subst h
    by_cases h2 : i < a.length
    · exact Or.inl (getSeg_set_self h2 s)
    · right
      show geti (a.set i s) i = geti a i
      unfold geti
      rw [List.getElem?_set, if_pos rfl, if_neg h2,
        List.getElem?_eq_none (by omega)]
  · exact Or.inr (getSeg_set_other h s)

theorem getSeg_append_cases (a : Arena) (s : MemorySegment) (x : Nat) :
    getSeg (a ++ [s]) x = s ∨ getSeg (a ++ [s]) x = getSeg a x := by
  rcases lt_trichotomy x a.length with h | h | h
  · exact Or.inr (getSeg_append_lt h s)
  · subst h
    exact Or.inl (getSeg_append_len a s)
  · right
    have hxlen : (a ++ [s]).length ≤ x := by
      simp only [List.length_append, List.length_cons, List.length_nil]
      omega
    rw [getSeg_of_le hxlen, getSeg_of_le (by omega)]

theorem unite_nonneg {s o m : MemorySegment} (hs2 : 0 ≤ s.right)
    (hs1 : 0 ≤ s.left) (ho1 : 0 ≤ o.left) (ho2 : 0 ≤ o.right)
    (h : s.Unite o = some m) : 0 ≤ m.left ∧ 0 ≤ m.right := by
  unfold MemorySegment.Unite at h
  split_ifs at h with ha hb
  · injection h with h'
    rw [← h']
    exact ⟨ho1, hs2⟩
  · injection h with h'
    rw [← h']
    exact ⟨hs1, ho2⟩

theorem alloc_nonneg (st : MMState) (size : Nat) (hn : NonnegLR st) :
    NonnegLR (MemoryManager.Allocate st size).1 := by
  by_cases h0 : st.heap.length = 0
  · rw [alloc_fail_frame st size ((alloc_fail_iff st size).mpr (Or.inl h0))]
    exact hn
  · by_cases h1 : size > (getSeg st.arena (geti st.heap 0)).Size
    · rw [alloc_fail_frame st size ((alloc_fail_iff st size).mpr (Or.inr h1))]
      exact hn
    · by_cases h2 : size = (getSeg st.arena (geti st.heap 0)).Size
      · rw [alloc_equal_eq st size h0 h2]
        intro id
        obtain ⟨c1, c2⟩ := (msErase_spec st.arena st.heap
          ((getSeg st.arena (geti st.heap 0)).heap_index)).2 id
        show 0 ≤ (getSeg (MSHeap.erase st.arena st.heap
            ((getSeg st.arena (geti st.heap 0)).heap_index)).1 id).left ∧
          0 ≤ (getSeg (MSHeap.erase st.arena st.heap
            ((getSeg st.arena (geti st.heap 0)).heap_index)).1 id).right
        rw [c1, c2]
        exact hn id
      · rw [alloc_split_eq st size h0 h1 h2]
        simp only []
        set T := geti st.heap 0 with hTdef
        set L := (getSeg st.arena T).left with hLdef
        set AL := (⟨L, L + (size : Int), kNullIndex⟩ : MemorySegment) with hALdef
        have hL0 : 0 ≤ L := (hn T).1
        have hnA1 : ∀ id, 0 ≤ (getSeg (st.arena ++ [AL]) id).left ∧
            0 ≤ (getSeg (st.arena ++ [AL]) id).right := by
          intro id
          rcases getSeg_append_cases st.arena AL id with h | h
          · rw [h, hALdef]
            exact ⟨hL0, by positivity⟩
          · rw [h]
            exact hn id
        have hnA2 : ∀ id,
            0 ≤ (getSeg (MemoryManager.setLeft (st.arena ++ [AL]) T
              (L + (size : Int))) id).left ∧
            0 ≤ (getSeg (MemoryManager.setLeft (st.arena ++ [AL]) T
              (L + (size : Int))) id).right := by
          intro id
          unfold MemoryManager.setLeft
          rcases getSeg_set_cases (st.arena ++ [AL]) T
            { getSeg (st.arena ++ [AL]) T with left := L + (size : Int) } id with
            h | h
          · rw [h]
            exact ⟨by positivity, (hnA1 T).2⟩
          · rw [h]
            exact hnA1 id
        intro id
        constructor
        · have c1 := ((msPush_spec (MSHeap.erase (MemoryManager.setLeft
              (st.arena ++ [AL]) T (L + (size : Int))) st.heap
              ((getSeg (MemoryManager.setLeft (st.arena ++ [AL]) T
                (L + (size : Int))) T).heap_index)).1
              (MSHeap.erase (MemoryManager.setLeft (st.arena ++ [AL]) T
                (L + (size : Int))) st.heap
              ((getSeg (MemoryManager.setLeft (st.arena ++ [AL]) T
                (L + (size : Int))) T).heap_index)).2 T).2 id).1
          have c2 := ((msErase_spec (MemoryManager.setLeft (st.arena ++ [AL]) T
              (L + (size : Int))) st.heap
              ((getSeg (MemoryManager.setLeft (st.arena ++ [AL]) T
                (L + (size : Int))) T).heap_index)).2 id).1
          rw [c1, c2]
          exact (hnA2 id).1
        · have c1 := ((msPush_spec (MSHeap.erase (MemoryManager.setLeft
              (st.arena ++ [AL]) T (L + (size : Int))) st.heap
              ((getSeg (MemoryManager.setLeft (st.arena ++ [AL]) T
                (L + (size : Int))) T).heap_index)).1
              (MSHeap.erase (MemoryManager.setLeft (st.arena ++ [AL]) T
                (L + (size : Int))) st.heap
              ((getSeg (MemoryManager.setLeft (st.arena ++ [AL]) T
                (L + (size : Int))) T).heap_index)).2 T).2 id).2
          have c2 := ((msErase_spec (MemoryManager.setLeft (st.arena ++ [AL]) T
              (L + (size : Int))) st.heap
              ((getSeg (MemoryManager.setLeft (st.arena ++ [AL]) T
                (L + (size : Int))) T).heap_index)).2 id).2
          rw [c1, c2]
          exact (hnA2 id).2

/-! ## Free: merging a neighbour erases it from the heap and the list -/

theorem geti_erase_lt {l : List Nat} (hnd : l.Nodup) {m k : Nat}
    (hm : m < l.length) (hk : k < m) :
    geti (l.erase (geti l m)) k = geti l k := by
  rw [erase_take_drop, indexOf_geti hnd hm,
    geti_append_lt (by rw [length_take_of_le l (le_of_lt hm)]; exact hk),
    geti_take l hk (by omega)]

theorem geti_erase_ge {l : List Nat} (hnd : l.Nodup) {m k : Nat}
    (hm : m < l.length) (hk : m ≤ k) (hk2 : k + 1 < l.length) :
    geti (l.erase (geti l m)) k = geti l (k + 1) := by
  rw [erase_take_drop, indexOf_geti hnd hm]
  have h5 := geti_append_add (l.take m) (l.drop (m + 1)) (k - m)
  rw [length_take_of_le l (le_of_lt hm),
    show m + (k - m) = k from by omega] at h5
  rw [h5, geti_drop l (show m + 1 + (k - m) < l.length from by omega)]
  congr 1
  omega

theorem appendIfFree_noop (st : MMState) (position appending : Nat)
    (h : (getSeg st.arena appending).heap_index = kNullIndex) :
    MemoryManager.AppendIfFree st position appending = some st := by
  unfold MemoryManager.AppendIfFree
  rw [if_neg (by simp [h])]

theorem appendIfFree_merge_eq (st : MMState) (position appending : Nat)
    (hne : (getSeg st.arena appending).heap_index ≠ kNullIndex)
    {merged : MemorySegment}
    (hu : (getSeg st.arena position).Unite (getSeg st.arena appending) =
      some merged) :
    MemoryManager.AppendIfFree st position appending =
      some ⟨(MSHeap.erase (st.arena.set position merged) st.heap
          ((getSeg (st.arena.set position merged) appending).heap_index)).1,
        st.segs.erase appending,
        (MSHeap.erase (st.arena.set position merged) st.heap
          ((getSeg (st.arena.set position merged) appending).heap_index)).2⟩ := by
  unfold MemoryManager.AppendIfFree
  rw [if_pos hne, hu]

/-- Heap-side bookkeeping of one AppendIfFree merge: erasing the absorbed
neighbour nb from the heap after the absorbing (non-free) segment's record
was overwritten with the united segment. -/
theorem merge_core {st : MMState} (hnd : st.segs.Nodup)
    (hlt : ∀ i ∈ st.segs, i < st.arena.length)
    (hsub : ∀ i ∈ st.heap, i ∈ st.segs)
    (hhnd : st.heap.Nodup)
    (htin : ∀ k, k < st.heap.length →
      (getSeg st.arena (geti st.heap k)).heap_index = k)
    (hab : st.arena.length < kNullIndex)
    (hord : HeapProp (MemorySegmentSizeCompare st.arena) st.heap)
    {position nb : Nat} (hpos_seg : position ∈ st.segs)
    (hpos_nh : position ∉ st.heap) (hnb : nb ∈ st.heap)
    (merged : MemorySegment) :
    List.Perm ((MSHeap.erase (st.arena.set position merged) st.heap
        ((getSeg (st.arena.set position merged) nb).heap_index)).2 ++ [nb])
      st.heap ∧
    (∀ x, x ∈ (MSHeap.erase (st.arena.set position merged) st.heap
        ((getSeg (st.arena.set position merged) nb).heap_index)).2 ↔
      x ∈ st.heap ∧ x ≠ nb) ∧
    (MSHeap.erase (st.arena.set position merged) st.heap
        ((getSeg (st.arena.set position merged) nb).heap_index)).2.Nodup ∧
    (∀ k, k < (MSHeap.erase (st.arena.set position merged) st.heap
        ((getSeg (st.arena.set position merged) nb).heap_index)).2.length →
      (getSeg (MSHeap.erase (st.arena.set position merged) st.heap
          ((getSeg (st.arena.set position merged) nb).heap_index)).1
        (geti (MSHeap.erase (st.arena.set position merged) st.heap
          ((getSeg (st.arena.set position merged) nb).heap_index)).2 k)).heap_index
        = k) ∧
    (getSeg (MSHeap.erase (st.arena.set position merged) st.heap
        ((getSeg (st.arena.set position merged) nb).heap_index)).1 nb).heap_index
      = kNullIndex ∧
    (∀ id, id ∉ st.heap → id ≠ position →
      getSeg (MSHeap.erase (st.arena.set position merged) st.heap
        ((getSeg (st.arena.set position merged) nb).heap_index)).1 id =
      getSeg st.arena id) ∧
    getSeg (MSHeap.erase (st.arena.set position merged) st.heap
        ((getSeg (st.arena.set position merged) nb).heap_index)).1 position =
      merged ∧
    HeapProp (MemorySegmentSizeCompare (MSHeap.erase (st.arena.set position merged)
        st.heap ((getSeg (st.arena.set position merged) nb).heap_index)).1)
      (MSHeap.erase (st.arena.set position merged) st.heap
        ((getSeg (st.arena.set position merged) nb).heap_index)).2 ∧
    (MSHeap.erase (st.arena.set position merged) st.heap
        ((getSeg (st.arena.set position merged) nb).heap_index)).1.length =
      st.arena.length ∧
    (∀ k, k ≠ position →
      (getSeg (MSHeap.erase (st.arena.set position merged) st.heap
        ((getSeg (st.arena.set position merged) nb).heap_index)).1 k).left =
        (getSeg st.arena k).left ∧
      (getSeg (MSHeap.erase (st.arena.set position merged) st.heap
        ((getSeg (st.arena.set position merged) nb).heap_index)).1 k).right =
        (getSeg st.arena k).right) := by
  have hposlt : position < st.arena.length := hlt _ hpos_seg
  have hA'heap : ∀ id, id ≠ position →
      getSeg (st.arena.set position merged) id = getSeg st.arena id := by
    intro id h
    exact getSeg_set_other (fun hc => h hc.symm) merged
  have hA'pos : getSeg (st.arena.set position merged) position = merged :=
    getSeg_set_self hposlt merged
  obtain ⟨k0, hk0lt, hk0e⟩ := List.getElem_of_mem hnb
  have hk0 : geti st.heap k0 = nb := by
    rw [geti_eq_getElem hk0lt]
    exact hk0e
  have hheap_ne : ∀ id ∈ st.heap, id ≠ position :=
    fun id h hc => hpos_nh (hc ▸ h)
  have hslot : (getSeg (st.arena.set position merged) nb).heap_index = k0 := by
    rw [hA'heap nb (hheap_ne nb hnb), ← hk0]
    exact htin k0 hk0lt
  rw [hslot]
  have hA'len : (st.arena.set position merged).length = st.arena.length := by
    simp [List.length_set]
  have htrA' : ∀ k, k < st.heap.length →
      (getSeg (st.arena.set position merged) (geti st.heap k)).heap_index = k := by
    intro k hk
    rw [hA'heap _ (hheap_ne _ (geti_mem hk))]
    exact htin k hk
  have hbA' : ∀ id ∈ st.heap, id < (st.arena.set position merged).length := by
    intro id h
    rw [hA'len]
    exact hlt id (hsub id h)
  have hordA' : HeapProp (MemorySegmentSizeCompare (st.arena.set position merged))
      st.heap := by
    apply heapProp_of_lr (a := st.arena)
    · intro x hx
      rw [hA'heap x (hheap_ne x hx)]
      exact ⟨rfl, rfl⟩
    · exact hord
  have hlenk : st.heap.length ≤ kNullIndex :=
    le_of_lt (lt_of_le_of_lt (nodup_lt_length_le hhnd
      (fun x hx => hlt x (hsub x hx))) hab)
  have hguard : k0 + 1 < st.heap.length ∨ k0 = 0 ∨
      MemorySegmentSizeCompare (st.arena.set position merged) (geti st.heap k0)
        (geti st.heap (Heap.Parent k0)) = false := by
    by_cases h : k0 = 0
    · exact Or.inr (Or.inl h)
    · exact Or.inr (Or.inr (hordA' k0 hk0lt (Nat.pos_of_ne_zero h)))
  obtain ⟨hEperm, hEord, hElen⟩ :=
    msErase_pack (st.arena.set position merged) st.heap k0 hk0lt hlenk hordA'
  rw [hk0] at hEperm
  obtain ⟨hT1, hT2, hT3⟩ := msErase_track (st.arena.set position merged)
    st.heap k0 hhnd hk0lt hbA' htrA' hguard
  rw [hk0] at hT2
  have hElr := (msErase_spec (st.arena.set position merged) st.heap k0).2
  have hndE : ((MSHeap.erase (st.arena.set position merged) st.heap k0).2 ++
      [nb]).Nodup := hhnd.perm hEperm.symm
  have hnbE : nb ∉ (MSHeap.erase (st.arena.set position merged) st.heap k0).2 :=
    fun hc => ((List.nodup_append.mp hndE).2.2 hc) (by simp)
  have hmemE : ∀ x, x ∈ (MSHeap.erase (st.arena.set position merged) st.heap k0).2 ↔
      x ∈ st.heap ∧ x ≠ nb := by
    intro x
    constructor
    · intro hx
      refine ⟨hEperm.mem_iff.mp (List.mem_append.mpr (Or.inl hx)), ?_⟩
      intro hcon
      exact hnbE (hcon ▸ hx)
    · rintro ⟨hx, hne⟩
      rcases List.mem_append.mp (hEperm.symm.mem_iff.mp hx) with h | h
      · exact h
      · simp only [List.mem_singleton] at h
        exact absurd h hne
  refine ⟨hEperm, hmemE, (List.nodup_append.mp hndE).1, hT1, hT2, ?_, ?_, hEord, ?_, ?_⟩
  · intro id hih hip
    rw [hT3 id hih]
    exact hA'heap id hip
  · rw [hT3 position hpos_nh]
    exact hA'pos
  · rw [msErase_alen]
    exact hA'len
  · intro k hk
    obtain ⟨c1, c2⟩ := hElr k
    rw [c1, c2, hA'heap k hk]
    exact ⟨rfl, rfl⟩

theorem free_left_step {st : MMState} {ms : Nat} (hinv : MMInv st ms)
    {position : Nat} (hpos_seg : position ∈ st.segs)
    (hpos_nh : position ∉ st.heap) :
    ∃ st1, (if st.segs.indexOf position ≠ 0 then
        MemoryManager.AppendIfFree st position
          (geti st.segs (st.segs.indexOf position - 1))
      else some st) = some st1 ∧
      MMInv st1 ms ∧ position ∈ st1.segs ∧ position ∉ st1.heap ∧
      (∀ x ∈ st1.heap, x ∈ st.heap) ∧
      (getSeg st1.arena position).right = (getSeg st.arena position).right ∧
      (st1.segs.indexOf position ≠ 0 →
        geti st1.segs (st1.segs.indexOf position - 1) ∉ st1.heap) ∧
      st1.segs[st1.segs.indexOf position + 1]? =
        st.segs[st.segs.indexOf position + 1]? := by
  set idx := st.segs.indexOf position with hidxdef
  have hidxlt : idx < st.segs.length := indexOf_lt hpos_seg
  have hgidx : geti st.segs idx = position := geti_indexOf hpos_seg
  by_cases hidx0 : idx = 0
  · exact ⟨st, by rw [if_neg (by simp [hidx0])], hinv, hpos_seg, hpos_nh,
      fun x h => h, rfl, fun h => absurd hidx0 h, rfl⟩
  · have hnblt : idx - 1 < st.segs.length := by omega
    set nb := geti st.segs (idx - 1) with hnbdef
    have hnbsegs : nb ∈ st.segs := geti_mem hnblt
    have hnbpos : nb ≠ position := by
      intro hc
      have h5 := nodup_geti_inj hinv.segs_nodup hnblt hidxlt
        (by rw [hgidx, ← hc, hnbdef])
      omega
    by_cases hnbheap : nb ∈ st.heap
    case neg =>
      have hnull : (getSeg st.arena nb).heap_index = kNullIndex :=
        hinv.track_out nb hnbsegs hnbheap
      exact ⟨st, by rw [if_pos hidx0, appendIfFree_noop st position nb hnull],
        hinv, hpos_seg, hpos_nh, fun x h => h, rfl,
        fun _ => hnbheap, rfl⟩
    case pos =>
      obtain ⟨hp1, hp2, hp3, hp4, hp5⟩ := hinv.part
      have hcontig : (getSeg st.arena position).left = (getSeg st.arena nb).right := by
        have h5 := hp5 (idx - 1) (by omega)
        rw [show idx - 1 + 1 = idx from by omega] at h5
        unfold SegAt at h5
        rw [hgidx] at h5
        exact h5.symm
      have hu : (getSeg st.arena position).Unite (getSeg st.arena nb) =
          some ⟨(getSeg st.arena nb).left, (getSeg st.arena position).right,
            kNullIndex⟩ := by
        unfold MemorySegment.Unite
        rw [if_pos hcontig]
      have hlenk : st.heap.length ≤ kNullIndex :=
        le_of_lt (lt_of_le_of_lt (nodup_lt_length_le hinv.heap_nodup
          (fun x hx => hinv.segs_lt x (hinv.heap_sub x hx))) hinv.arena_bound)
      have hne : (getSeg st.arena nb).heap_index ≠ kNullIndex := by
        obtain ⟨k0, hk0lt, hk0e⟩ := List.getElem_of_mem hnbheap
        have hk0 : geti st.heap k0 = nb := by
          rw [geti_eq_getElem hk0lt]
          exact hk0e
        rw [← hk0, hinv.track_in k0 hk0lt]
        omega
      set M := (⟨(getSeg st.arena nb).left, (getSeg st.arena position).right,
        kNullIndex⟩ : MemorySegment) with hMdef
      obtain ⟨hEperm, hmemE, hEnd, hT1, hT2, hT3, hMpos, hEord, hEalen, hElr⟩ :=
        merge_core hinv.segs_nodup hinv.segs_lt hinv.heap_sub hinv.heap_nodup
          hinv.track_in hinv.arena_bound hinv.heap_ordered hpos_seg hpos_nh
          hnbheap M
      have hnd := hinv.segs_nodup
      have hs1len : (st.segs.erase nb).length = st.segs.length - 1 :=
        List.length_erase_of_mem hnbsegs
      have hS1mem : ∀ x, x ∈ st.segs.erase nb ↔ x ≠ nb ∧ x ∈ st.segs :=
        fun x => hnd.mem_erase_iff
      have hS1nd : (st.segs.erase nb).Nodup := hnd.erase nb
      have hg_lt : ∀ k, k < idx - 1 → geti (st.segs.erase nb) k = geti st.segs k :=
        fun k hk => geti_erase_lt hnd hnblt hk
      have hg_ge : ∀ k, idx - 1 ≤ k → k + 1 < st.segs.length →
          geti (st.segs.erase nb) k = geti st.segs (k + 1) :=
        fun k hk hk2 => geti_erase_ge hnd hnblt hk hk2
      have hgpos : geti (st.segs.erase nb) (idx - 1) = position := by
        rw [hg_ge (idx - 1) (le_refl _) (by omega),
          show idx - 1 + 1 = idx from by omega, hgidx]
      have hidx1 : (st.segs.erase nb).indexOf position = idx - 1 := by
        have h5 := indexOf_geti hS1nd (show idx - 1 < (st.segs.erase nb).length by
          rw [hs1len]; omega)
        rw [hgpos] at h5
        exact h5
      have hvP : (getSeg (MSHeap.erase (st.arena.set position M) st.heap
          ((getSeg (st.arena.set position M) nb).heap_index)).1 position) = M :=
        hMpos
      have hvO : ∀ x, x ≠ position →
          (getSeg (MSHeap.erase (st.arena.set position M) st.heap
            ((getSeg (st.arena.set position M) nb).heap_index)).1 x).left =
            (getSeg st.arena x).left ∧
          (getSeg (MSHeap.erase (st.arena.set position M) st.heap
            ((getSeg (st.arena.set position M) nb).heap_index)).1 x).right =
            (getSeg st.arena x).right := fun x hx => hElr x hx
      have hgeti_nep : ∀ k, k < st.segs.length → k ≠ idx →
          geti st.segs k ≠ position := by
        intro k hk hkj hcon
        exact hkj (nodup_geti_inj hnd hk hidxlt (by rw [hcon, hgidx]))
      refine ⟨⟨(MSHeap.erase (st.arena.set position M) st.heap
          ((getSeg (st.arena.set position M) nb).heap_index)).1,
        st.segs.erase nb,
        (MSHeap.erase (st.arena.set position M) st.heap
          ((getSeg (st.arena.set position M) nb).heap_index)).2⟩,
        by rw [if_pos hidx0]; exact appendIfFree_merge_eq st position nb hne hu,
        ?_, ?_, ?_, ?_, ?_, ?_, ?_⟩
      · -- MMInv st1
        refine ⟨hS1nd, ?_, ?_, hEnd, hT1, ?_, ?_, hEord, ?_, ?_⟩
        · intro i hi
          rw [hEalen]
          exact hinv.segs_lt i ((hS1mem i).mp hi).2
        · intro i hi
          exact (hS1mem i).mpr ⟨((hmemE i).mp hi).2, hinv.heap_sub i ((hmemE i).mp hi).1⟩
        · intro i hi hni
          obtain ⟨hinb, hisegs⟩ := (hS1mem i).mp hi
          by_cases hip : i = position
          · rw [hip, hvP, hMdef]
          · have hih : i ∉ st.heap := fun hc => hni ((hmemE i).mpr ⟨hc, hinb⟩)
            rw [hT3 i hih hip]
            exact hinv.track_out i hisegs hih
        · rw [hEalen]
          exact hinv.arena_bound
        · -- Partition
          refine ⟨?_, ?_, ?_, ?_, ?_⟩
          · show st.segs.erase nb ≠ []
            intro hc
            rw [hc] at hs1len
            simp at hs1len
            omega
          · show (getSeg (MSHeap.erase (st.arena.set position M) st.heap
              ((getSeg (st.arena.set position M) nb).heap_index)).1
              (geti (st.segs.erase nb) 0)).left = 0
            by_cases hj1 : idx = 1
            · rw [show (0 : Nat) = idx - 1 from by omega, hgpos, hvP, hMdef]
              show (getSeg st.arena nb).left = 0
              have h4 : (SegAt st 0).left = 0 := hp2
              unfold SegAt at h4
              rw [show (0 : Nat) = idx - 1 from by omega] at h4
              exact h4
            · rw [hg_lt 0 (by omega),
                (hvO _ (hgeti_nep 0 (by omega) (by omega))).1]
              exact hp2
          · show (getSeg (MSHeap.erase (st.arena.set position M) st.heap
              ((getSeg (st.arena.set position M) nb).heap_index)).1
              (geti (st.segs.erase nb) ((st.segs.erase nb).length - 1))).right =
              (ms : Int)
            rw [hs1len]
            by_cases hjlast : idx = st.segs.length - 1
            · rw [show st.segs.length - 1 - 1 = idx - 1 from by omega, hgpos,
                hvP, hMdef]
              show (getSeg st.arena position).right = (ms : Int)
              have h4 : (SegAt st (st.segs.length - 1)).right = (ms : Int) := hp3
              unfold SegAt at h4
              rw [← hjlast, hgidx] at h4
              exact h4
            · rw [hg_ge (st.segs.length - 1 - 1) (by omega) (by omega),
                show st.segs.length - 1 - 1 + 1 = st.segs.length - 1 from by omega,
                (hvO _ (hgeti_nep (st.segs.length - 1) (by omega) (by omega))).2]
              exact hp3
          · intro k hk
            rw [hs1len] at hk
            show (getSeg (MSHeap.erase (st.arena.set position M) st.heap
              ((getSeg (st.arena.set position M) nb).heap_index)).1
              (geti (st.segs.erase nb) k)).left ≤
              (getSeg (MSHeap.erase (st.arena.set position M) st.heap
              ((getSeg (st.arena.set position M) nb).heap_index)).1
              (geti (st.segs.erase nb) k)).right
            rcases lt_trichotomy k (idx - 1) with hkj | hkj | hkj
            · obtain ⟨o1, o2⟩ := hvO _ (hgeti_nep k (by omega) (by omega))
              rw [hg_lt k hkj, o1, o2]
              exact hp4 k (by omega)
            · rw [hkj, hgpos, hvP, hMdef]
              show (getSeg st.arena nb).left ≤ (getSeg st.arena position).right
              have h4 := hp4 (idx - 1) (by omega)
              have h6 := hp4 idx (by omega)
              unfold SegAt at h4 h6
              rw [hgidx] at h6
              rw [← hnbdef] at h4
              have h7 : (getSeg st.arena nb).right = (getSeg st.arena position).left :=
                hcontig.symm
              omega
            · obtain ⟨o1, o2⟩ := hvO _ (hgeti_nep (k + 1) (by omega) (by omega))
              rw [hg_ge k (by omega) (by omega), o1, o2]
              exact hp4 (k + 1) (by omega)
          · intro k hk
            rw [hs1len] at hk
            show (getSeg (MSHeap.erase (st.arena.set position M) st.heap
              ((getSeg (st.arena.set position M) nb).heap_index)).1
              (geti (st.segs.erase nb) k)).right =
              (getSeg (MSHeap.erase (st.arena.set position M) st.heap
              ((getSeg (st.arena.set position M) nb).heap_index)).1
              (geti (st.segs.erase nb) (k + 1))).left
            rcases lt_trichotomy (k + 1) (idx - 1) with hkj | hkj | hkj
            · obtain ⟨o1, o2⟩ := hvO _ (hgeti_nep k (by omega) (by omega))
              obtain ⟨q1, q2⟩ := hvO _ (hgeti_nep (k + 1) (by omega) (by omega))
              rw [hg_lt k (by omega), hg_lt (k + 1) hkj, o2, q1]
              exact hp5 k (by omega)
            · obtain ⟨o1, o2⟩ := hvO _ (hgeti_nep k (by omega) (by omega))
              rw [hg_lt k (by omega), hkj, hgpos, hvP, hMdef, o2]
              show (getSeg st.arena (geti st.segs k)).right = (getSeg st.arena nb).left
              have h4 := hp5 k (by omega)
              unfold SegAt at h4
              rw [show k + 1 = idx - 1 from hkj] at h4
              exact h4
            · by_cases hkj0 : k = idx - 1
              · rw [hkj0, hgpos, hvP, hMdef,
                  hg_ge (idx - 1 + 1) (by omega) (by omega)]
                obtain ⟨q1, q2⟩ := hvO _
                  (hgeti_nep (idx - 1 + 1 + 1) (by omega) (by omega))
                rw [q1]
                show (getSeg st.arena position).right =
                  (getSeg st.arena (geti st.segs (idx - 1 + 1 + 1))).left
                have h4 := hp5 idx (by omega)
                unfold SegAt at h4
                rw [hgidx] at h4
                rw [show idx - 1 + 1 + 1 = idx + 1 from by omega]
                exact h4
              · obtain ⟨o1, o2⟩ := hvO _ (hgeti_nep (k + 1) (by omega) (by omega))
                obtain ⟨q1, q2⟩ := hvO _ (hgeti_nep (k + 1 + 1) (by omega) (by omega))
                rw [hg_ge k (by omega) (by omega), hg_ge (k + 1) (by omega) (by omega),
                  o2, q1]
                exact hp5 (k + 1) (by omega)
        · -- no_adj
          intro k hk
          rw [hs1len] at hk
          rintro ⟨hmA, hmB⟩
          rcases lt_trichotomy (k + 1) (idx - 1) with hkj | hkj | hkj
          · rw [hg_lt k (by omega)] at hmA
            rw [hg_lt (k + 1) hkj] at hmB
            exact hinv.no_adj k (by omega) ⟨((hmemE _).mp hmA).1, ((hmemE _).mp hmB).1⟩
          · rw [hkj, hgpos] at hmB
            exact hpos_nh ((hmemE _).mp hmB).1
          · by_cases hkj0 : k = idx - 1
            · rw [hkj0, hgpos] at hmA
              exact hpos_nh ((hmemE _).mp hmA).1
            · rw [hg_ge k (by omega) (by omega)] at hmA
              rw [hg_ge (k + 1) (by omega) (by omega)] at hmB
              exact hinv.no_adj (k + 1) (by omega)
                ⟨((hmemE _).mp hmA).1, ((hmemE _).mp hmB).1⟩
      · exact (hS1mem position).mpr ⟨fun hc => hnbpos hc.symm, hpos_seg⟩
      · intro hc
        exact hpos_nh ((hmemE position).mp hc).1
      · intro x hx
        exact ((hmemE x).mp hx).1
      · rw [hvP]
      · rw [hidx1]
        intro h5
        have hgl : geti (st.segs.erase nb) (idx - 1 - 1) = geti st.segs (idx - 2) := by
          rw [hg_lt (idx - 1 - 1) (by omega)]
          congr 1
        rw [hgl]
        intro hc
        have h6 := hinv.no_adj (idx - 2) (by omega)
        rw [show idx - 2 + 1 = idx - 1 from by omega] at h6
        exact h6 ⟨((hmemE _).mp hc).1, hnbheap⟩
      · rw [hidx1, show idx - 1 + 1 = idx from by omega]
        by_cases hcase : idx + 1 < st.segs.length
        · rw [List.getElem?_eq_getElem (show idx < (st.segs.erase nb).length by
            rw [hs1len]; omega), List.getElem?_eq_getElem (show idx + 1 <
            st.segs.length from hcase)]
          congr 1
          rw [← geti_eq_getElem, ← geti_eq_getElem]
          exact hg_ge idx (by omega) (by omega)
        · rw [List.getElem?_eq_none (show (st.segs.erase nb).length ≤ idx by
            rw [hs1len]; omega), List.getElem?_eq_none (show st.segs.length ≤
            idx + 1 from by omega)]

theorem free_right_step {st1 : MMState} {ms : Nat} (hinv : MMInv st1 ms)
    {position : Nat} (hpos_seg : position ∈ st1.segs)
    (hpos_nh : position ∉ st1.heap) {rno : Option Nat}
    (hrno : rno = st1.segs[st1.segs.indexOf position + 1]?) :
    ∃ st2, (match rno with
        | some r => MemoryManager.AppendIfFree st1 position r
        | none => some st1) = some st2 ∧
      MMInv st2 ms ∧ position ∈ st2.segs ∧ position ∉ st2.heap ∧
      (∀ x ∈ st2.heap, x ∈ st1.heap) ∧
      st2.segs.indexOf position = st1.segs.indexOf position ∧
      (∀ k, k < st1.segs.indexOf position → geti st2.segs k = geti st1.segs k) ∧
      (st2.segs.indexOf position + 1 < st2.segs.length →
        geti st2.segs (st2.segs.indexOf position + 1) ∉ st2.heap) := by
  set idx := st1.segs.indexOf position with hidxdef
  have hidxlt : idx < st1.segs.length := indexOf_lt hpos_seg
  have hgidx : geti st1.segs idx = position := geti_indexOf hpos_seg
  rcases rno with _ | r
  · refine ⟨st1, rfl, hinv, hpos_seg, hpos_nh, fun x h => h, rfl,
      fun k _ => rfl, ?_⟩
    intro h5
    have h6 : st1.segs[idx + 1]? = none :=  hrno.symm
    rw [List.getElem?_eq_none_iff] at h6
    omega
  · obtain ⟨h9, h10⟩ := List.getElem?_eq_some.mp hrno.symm
    have hrlt : idx + 1 < st1.segs.length := h9
    have hgr : geti st1.segs (idx + 1) = r := by
      rw [geti_eq_getElem h9]
      exact h10
    have hnbsegs : r ∈ st1.segs := by
      rw [← hgr]
      exact geti_mem hrlt
    have hnd := hinv.segs_nodup
    have hnbpos : r ≠ position := by
      intro hc
      have h5 := nodup_geti_inj hnd hrlt hidxlt (by rw [hgr, hgidx, hc])
      omega
    by_cases hnbheap : r ∈ st1.heap
    case neg =>
      have hnull : (getSeg st1.arena r).heap_index = kNullIndex :=
        hinv.track_out r hnbsegs hnbheap
      refine ⟨st1, appendIfFree_noop st1 position r hnull, hinv,
        hpos_seg, hpos_nh, fun x h => h, rfl, fun k _ => rfl, ?_⟩
      intro h5
      rw [hgr]
      exact hnbheap
    case pos =>
      obtain ⟨hp1, hp2, hp3, hp4, hp5⟩ := hinv.part
      have hcontig : (getSeg st1.arena position).right = (getSeg st1.arena r).left := by
        have h5 := hp5 idx (by omega)
        unfold SegAt at h5
        rw [hgidx, hgr] at h5
        exact h5
      have hle_p : (getSeg st1.arena position).left ≤ (getSeg st1.arena position).right := by
        have h4 := hp4 idx (by omega)
        unfold SegAt at h4
        rwa [hgidx] at h4
      have hle_r : (getSeg st1.arena r).left ≤ (getSeg st1.arena r).right := by
        have h4 := hp4 (idx + 1) (by omega)
        unfold SegAt at h4
        rwa [hgr] at h4
      have hu : (getSeg st1.arena position).Unite (getSeg st1.arena r) =
          some ⟨(getSeg st1.arena position).left, (getSeg st1.arena r).right,
            kNullIndex⟩ := by
        unfold MemorySegment.Unite
        by_cases hdeg : (getSeg st1.arena position).left = (getSeg st1.arena r).right
        · rw [if_pos hdeg]
          simp only [Option.some.injEq, MemorySegment.mk.injEq]
          exact ⟨by omega, by omega, trivial⟩
        · rw [if_neg hdeg, if_pos hcontig]
      have hlenk : st1.heap.length ≤ kNullIndex :=
        le_of_lt (lt_of_le_of_lt (nodup_lt_length_le hinv.heap_nodup
          (fun x hx => hinv.segs_lt x (hinv.heap_sub x hx))) hinv.arena_bound)
      have hne : (getSeg st1.arena r).heap_index ≠ kNullIndex := by
        obtain ⟨k0, hk0lt, hk0e⟩ := List.getElem_of_mem hnbheap
        have hk0 : geti st1.heap k0 = r := by
          rw [geti_eq_getElem hk0lt]
          exact hk0e
        rw [← hk0, hinv.track_in k0 hk0lt]
        omega
      set M := (⟨(getSeg st1.arena position).left, (getSeg st1.arena r).right,
        kNullIndex⟩ : MemorySegment) with hMdef
      obtain ⟨hEperm, hmemE, hEnd, hT1, hT2, hT3, hMpos, hEord, hEalen, hElr⟩ :=
        merge_core hinv.segs_nodup hinv.segs_lt hinv.heap_sub hinv.heap_nodup
          hinv.track_in hinv.arena_bound hinv.heap_ordered hpos_seg hpos_nh
          hnbheap M
      have hs1len : (st1.segs.erase r).length = st1.segs.length - 1 :=
        List.length_erase_of_mem hnbsegs
      have hS1mem : ∀ x, x ∈ st1.segs.erase r ↔ x ≠ r ∧ x ∈ st1.segs :=
        fun x => hnd.mem_erase_iff
      have hS1nd : (st1.segs.erase r).Nodup := hnd.erase r
      have hg_lt : ∀ k, k < idx + 1 →
          geti (st1.segs.erase r) k = geti st1.segs k := by
        intro k hk
        have h5 := geti_erase_lt hnd (m := idx + 1) hrlt hk
        rwa [hgr] at h5
      have hg_ge : ∀ k, idx + 1 ≤ k → k + 1 < st1.segs.length →
          geti (st1.segs.erase r) k = geti st1.segs (k + 1) := by
        intro k hk hk2
        have h5 := geti_erase_ge hnd (m := idx + 1) hrlt hk hk2
        rwa [hgr] at h5
      have hgpos : geti (st1.segs.erase r) idx = position := by
        rw [hg_lt idx (by omega), hgidx]
      have hidx2 : (st1.segs.erase r).indexOf position = idx := by
        have h5 := indexOf_geti hS1nd (show idx < (st1.segs.erase r).length by
          rw [hs1len]; omega)
        rw [hgpos] at h5
        exact h5
      have hvP : (getSeg (MSHeap.erase (st1.arena.set position M) st1.heap
          ((getSeg (st1.arena.set position M) r).heap_index)).1 position) = M :=
        hMpos
      have hvO : ∀ x, x ≠ position →
          (getSeg (MSHeap.erase (st1.arena.set position M) st1.heap
            ((getSeg (st1.arena.set position M) r).heap_index)).1 x).left =
            (getSeg st1.arena x).left ∧
          (getSeg (MSHeap.erase (st1.arena.set position M) st1.heap
            ((getSeg (st1.arena.set position M) r).heap_index)).1 x).right =
            (getSeg st1.arena x).right := fun x hx => hElr x hx
      have hgeti_nep : ∀ k, k < st1.segs.length → k ≠ idx →
          geti st1.segs k ≠ position := by
        intro k hk hkj hcon
        exact hkj (nodup_geti_inj hnd hk hidxlt (by rw [hcon, hgidx]))
      refine ⟨⟨(MSHeap.erase (st1.arena.set position M) st1.heap
          ((getSeg (st1.arena.set position M) r).heap_index)).1,
        st1.segs.erase r,
        (MSHeap.erase (st1.arena.set position M) st1.heap
          ((getSeg (st1.arena.set position M) r).heap_index)).2⟩,
        appendIfFree_merge_eq st1 position r hne hu,
        ?_, ?_, ?_, ?_, ?_, ?_, ?_⟩
      · refine ⟨hS1nd, ?_, ?_, hEnd, hT1, ?_, ?_, hEord, ?_, ?_⟩
        · intro i hi
          rw [hEalen]
          exact hinv.segs_lt i ((hS1mem i).mp hi).2
        · intro i hi
          exact (hS1mem i).mpr ⟨((hmemE i).mp hi).2, hinv.heap_sub i ((hmemE i).mp hi).1⟩
        · intro i hi hni
          obtain ⟨hinb, hisegs⟩ := (hS1mem i).mp hi
          by_cases hip : i = position
          · rw [hip, hvP, hMdef]
          · have hih : i ∉ st1.heap := fun hc => hni ((hmemE i).mpr ⟨hc, hinb⟩)
            rw [hT3 i hih hip]
            exact hinv.track_out i hisegs hih
        · rw [hEalen]
          exact hinv.arena_bound
        · refine ⟨?_, ?_, ?_, ?_, ?_⟩
          · show st1.segs.erase r ≠ []
            intro hc
            rw [hc] at hs1len
            simp at hs1len
            omega
          · show (getSeg (MSHeap.erase (st1.arena.set position M) st1.heap
              ((getSeg (st1.arena.set position M) r).heap_index)).1
              (geti (st1.segs.erase r) 0)).left = 0
            by_cases hj0 : idx = 0
            · rw [show (0 : Nat) = idx from hj0.symm, hgpos, hvP, hMdef]
              show (getSeg st1.arena position).left = 0
              have h4 : (SegAt st1 0).left = 0 := hp2
              unfold SegAt at h4
              rw [show (0 : Nat) = idx from hj0.symm, hgidx] at h4
              exact h4
            · rw [hg_lt 0 (by omega),
                (hvO _ (hgeti_nep 0 (by omega) (by omega))).1]
              exact hp2
          · show (getSeg (MSHeap.erase (st1.arena.set position M) st1.heap
              ((getSeg (st1.arena.set position M) r).heap_index)).1
              (geti (st1.segs.erase r) ((st1.segs.erase r).length - 1))).right =
              (ms : Int)
            rw [hs1len]
            by_cases hjlast : idx = st1.segs.length - 2
            · rw [show st1.segs.length - 1 - 1 = idx from by omega, hgpos,
                hvP, hMdef]
              show (getSeg st1.arena r).right = (ms : Int)
              have h4 : (SegAt st1 (st1.segs.length - 1)).right = (ms : Int) := hp3
              unfold SegAt at h4
              rw [show st1.segs.length - 1 = idx + 1 from by omega, hgr] at h4
              exact h4
            · rw [hg_ge (st1.segs.length - 1 - 1) (by omega) (by omega),
                show st1.segs.length - 1 - 1 + 1 = st1.segs.length - 1 from by omega,
                (hvO _ (hgeti_nep (st1.segs.length - 1) (by omega) (by omega))).2]
              exact hp3
          · intro k hk
            rw [hs1len] at hk
            show (getSeg (MSHeap.erase (st1.arena.set position M) st1.heap
              ((getSeg (st1.arena.set position M) r).heap_index)).1
              (geti (st1.segs.erase r) k)).left ≤
              (getSeg (MSHeap.erase (st1.arena.set position M) st1.heap
              ((getSeg (st1.arena.set position M) r).heap_index)).1
              (geti (st1.segs.erase r) k)).right
            rcases lt_trichotomy k idx with hkj | hkj | hkj
            · obtain ⟨o1, o2⟩ := hvO _ (hgeti_nep k (by omega) (by omega))
              rw [hg_lt k (by omega), o1, o2]
              exact hp4 k (by omega)
            · rw [hkj, hgpos, hvP, hMdef]
              show (getSeg st1.arena position).left ≤ (getSeg st1.arena r).right
              omega
            · obtain ⟨o1, o2⟩ := hvO _ (hgeti_nep (k + 1) (by omega) (by omega))
              rw [hg_ge k (by omega) (by omega), o1, o2]
              exact hp4 (k + 1) (by omega)
          · intro k hk
            rw [hs1len] at hk
            show (getSeg (MSHeap.erase (st1.arena.set position M) st1.heap
              ((getSeg (st1.arena.set position M) r).heap_index)).1
              (geti (st1.segs.erase r) k)).right =
              (getSeg (MSHeap.erase (st1.arena.set position M) st1.heap
              ((getSeg (st1.arena.set position M) r).heap_index)).1
              (geti (st1.segs.erase r) (k + 1))).left
            rcases lt_trichotomy (k + 1) idx with hkj | hkj | hkj
            · obtain ⟨o1, o2⟩ := hvO _ (hgeti_nep k (by omega) (by omega))
              obtain ⟨q1, q2⟩ := hvO _ (hgeti_nep (k + 1) (by omega) (by omega))
              rw [hg_lt k (by omega), hg_lt (k + 1) (by omega), o2, q1]
              exact hp5 k (by omega)
            · obtain ⟨o1, o2⟩ := hvO _ (hgeti_nep k (by omega) (by omega))
              rw [hg_lt k (by omega), hkj, hgpos, hvP, hMdef, o2]
              show (getSeg st1.arena (geti st1.segs k)).right =
                (getSeg st1.arena position).left
              have h4 := hp5 k (by omega)
              unfold SegAt at h4
              rw [show k + 1 = idx from hkj, hgidx] at h4
              exact h4
            · by_cases hkj0 : k = idx
              · rw [hkj0, hgpos, hvP, hMdef,
                  hg_ge (idx + 1) (by omega) (by omega)]
                obtain ⟨q1, q2⟩ := hvO _
                  (hgeti_nep (idx + 1 + 1) (by omega) (by omega))
                rw [q1]
                show (getSeg st1.arena r).right =
                  (getSeg st1.arena (geti st1.segs (idx + 1 + 1))).left
                have h4 := hp5 (idx + 1) (by omega)
                unfold SegAt at h4
                rw [hgr] at h4
                exact h4
              · obtain ⟨o1, o2⟩ := hvO _ (hgeti_nep (k + 1) (by omega) (by omega))
                obtain ⟨q1, q2⟩ := hvO _ (hgeti_nep (k + 1 + 1) (by omega) (by omega))
                rw [hg_ge k (by omega) (by omega), hg_ge (k + 1) (by omega) (by omega),
                  o2, q1]
                exact hp5 (k + 1) (by omega)
        · intro k hk
          rw [hs1len] at hk
          rintro ⟨hmA, hmB⟩
          rcases lt_trichotomy (k + 1) idx with hkj | hkj | hkj
          · rw [hg_lt k (by omega)] at hmA
            rw [hg_lt (k + 1) (by omega)] at hmB
            exact hinv.no_adj k (by omega) ⟨((hmemE _).mp hmA).1, ((hmemE _).mp hmB).1⟩
          · rw [hkj, hgpos] at hmB
            exact hpos_nh ((hmemE _).mp hmB).1
          · by_cases hkj0 : k = idx
            · rw [hkj0, hgpos] at hmA
              exact hpos_nh ((hmemE _).mp hmA).1
            · rw [hg_ge k (by omega) (by omega)] at hmA
              rw [hg_ge (k + 1) (by omega) (by omega)] at hmB
              exact hinv.no_adj (k + 1) (by omega)
                ⟨((hmemE _).mp hmA).1, ((hmemE _).mp hmB).1⟩
      · exact (hS1mem position).mpr ⟨fun hc => hnbpos hc.symm, hpos_seg⟩
      · intro hc
        exact hpos_nh ((hmemE position).mp hc).1
      · intro x hx
        exact ((hmemE x).mp hx).1
      · exact hidx2.trans hidxdef.symm
      · intro k hk
        rw [hidx2] at *
        exact hg_lt k (by omega)
      · rw [hidx2]
        intro h5
        rw [hs1len] at h5
        rw [hg_ge (idx + 1) (by omega) (by omega)]
        intro hc
        have h6 := hinv.no_adj (idx + 1) (by omega)
        rw [hgr] at h6
        exact h6 ⟨hnbheap, ((hmemE _).mp hc).1⟩

theorem free_push_inv {st2 : MMState} {ms : Nat} (hinv : MMInv st2 ms)
    {position : Nat} (hpos : position ∈ st2.segs) (hnh : position ∉ st2.heap)
    (hleft : st2.segs.indexOf position ≠ 0 →
      geti st2.segs (st2.segs.indexOf position - 1) ∉ st2.heap)
    (hright : st2.segs.indexOf position + 1 < st2.segs.length →
      geti st2.segs (st2.segs.indexOf position + 1) ∉ st2.heap) :
    MMInv ⟨(MSHeap.push st2.arena st2.heap position).1, st2.segs,
      (MSHeap.push st2.arena st2.heap position).2.1⟩ ms := by
  have hposlt : position < st2.arena.length := hinv.segs_lt _ hpos
  have hbE : ∀ id ∈ st2.heap, id < st2.arena.length :=
    fun id h => hinv.segs_lt id (hinv.heap_sub id h)
  obtain ⟨hP1, hP2⟩ := msPush_track st2.arena st2.heap position hinv.heap_nodup
    hnh hposlt hbE hinv.track_in
  have hPlist := msPush_list st2.arena st2.heap position
  have hPmem : ∀ x, x ∈ (MSHeap.push st2.arena st2.heap position).2.1 ↔
      x ∈ st2.heap ∨ x = position := msPush_mem st2.arena st2.heap position
  have hPlr := (msPush_spec st2.arena st2.heap position).2
  have hidxlt := indexOf_lt hpos
  have hgidx : geti st2.segs (st2.segs.indexOf position) = position :=
    geti_indexOf hpos
  refine ⟨hinv.segs_nodup, ?_, ?_, ?_, hP1, ?_, ?_,
    msPush_pack _ _ _ hinv.heap_ordered, ?_, ?_⟩
  · intro i hi
    rw [msPush_alen]
    exact hinv.segs_lt i hi
  · intro i hi
    rcases (hPmem i).mp hi with h | h
    · exact hinv.heap_sub i h
    · exact h ▸ hpos
  · have h5 : (st2.heap ++ [position]).Nodup := by
      rw [List.nodup_append]
      refine ⟨hinv.heap_nodup, List.nodup_singleton _, ?_⟩
      intro x hx hxs
      simp only [List.mem_singleton] at hxs
      exact hnh (hxs ▸ hx)
    exact h5.perm hPlist.symm
  · intro i hi hni
    have hih : i ∉ st2.heap := fun hc => hni ((hPmem i).mpr (Or.inl hc))
    have hip : i ≠ position := fun hc => hni ((hPmem i).mpr (Or.inr hc))
    rw [hP2 i hih hip]
    exact hinv.track_out i hi hih
  · rw [msPush_alen]
    exact hinv.arena_bound
  · exact @partition_congr st2 _ _ rfl hPlr hinv.part
  · intro k hk
    rintro ⟨hmA, hmB⟩
    have hk' : k + 1 < st2.segs.length := hk
    have hmA' : geti st2.segs k ∈ (MSHeap.push st2.arena st2.heap position).2.1 :=
      hmA
    have hmB' : geti st2.segs (k + 1) ∈
        (MSHeap.push st2.arena st2.heap position).2.1 := hmB
    by_cases hA : geti st2.segs k = position
    · have hkidx : k = st2.segs.indexOf position := by
        rw [← indexOf_geti hinv.segs_nodup (show k < st2.segs.length from by omega),
          hA]
      rcases (hPmem _).mp hmB' with h6 | h6
      · have h7 := hright (by omega)
        apply h7
        rw [← hkidx]
        exact h6
      · have h8 := nodup_geti_inj hinv.segs_nodup
          (show k + 1 < st2.segs.length from by omega) hidxlt (by rw [h6, hgidx])
        omega
    · by_cases hB : geti st2.segs (k + 1) = position
      · have hkidx : k + 1 = st2.segs.indexOf position := by
          rw [← indexOf_geti hinv.segs_nodup
            (show k + 1 < st2.segs.length from by omega), hB]
        rcases (hPmem _).mp hmA' with h6 | h6
        · have h7 := hleft (by omega)
          apply h7
          rw [show st2.segs.indexOf position - 1 = k from by omega]
          exact h6
        · exact hA h6
      · rcases (hPmem _).mp hmA' with h6 | h6
        · rcases (hPmem _).mp hmB' with h7 | h7
          · exact hinv.no_adj k hk' ⟨h6, h7⟩
          · exact hB h7
        · exact hA h6

theorem free_eq (st : MMState) (position : Nat) {st1 st2 : MMState}
    (h1 : (if st.segs.indexOf position ≠ 0 then
        MemoryManager.AppendIfFree st position
          (geti st.segs (st.segs.indexOf position - 1))
      else some st) = some st1)
    (h2 : (match st.segs[st.segs.indexOf position + 1]? with
        | some r => MemoryManager.AppendIfFree st1 position r
        | none => some st1) = some st2) :
    MemoryManager.Free st position =
      some ⟨(MSHeap.push st2.arena st2.heap position).1, st2.segs,
        (MSHeap.push st2.arena st2.heap position).2.1⟩ := by
  simp only [MemoryManager.Free]
  rw [h1, Option.some_bind, h2, Option.map_some']

theorem free_some_inv {st : MMState} {ms : Nat} (hinv : MMInv st ms)
    {position : Nat} (hpos_seg : position ∈ st.segs)
    (hpos_nh : position ∉ st.heap) :
    ∃ st', MemoryManager.Free st position = some st' ∧ MMInv st' ms := by
  obtain ⟨st1, ha1, hinv1, hp1, hn1, hsub1, hrpres1, hl1, hr1⟩ :=
    free_left_step hinv hpos_seg hpos_nh
  obtain ⟨st2, ha2, hinv2, hp2, hn2, hsub2, hixeq, hbefore, hr2⟩ :=
    free_right_step hinv1 hp1 hn1 hr1.symm
  have hleft2 : st2.segs.indexOf position ≠ 0 →
      geti st2.segs (st2.segs.indexOf position - 1) ∉ st2.heap := by
    intro h5
    rw [hixeq] at h5 ⊢
    rw [hbefore (st1.segs.indexOf position - 1) (by omega)]
    intro hc
    exact hl1 h5 (hsub2 _ hc)
  refine ⟨_, free_eq st position ha1 ha2, free_push_inv hinv2 hp2 hn2 hleft2 hr2⟩

theorem free_inv {st st' : MMState} {ms : Nat} (hinv : MMInv st ms)
    {position : Nat} (hpos_seg : position ∈ st.segs)
    (hpos_nh : position ∉ st.heap)
    (hfree : MemoryManager.Free st position = some st') : MMInv st' ms := by
  obtain ⟨st'', heq, hinv''⟩ := free_some_inv hinv hpos_seg hpos_nh
  have he : st'' = st' := Option.some.inj (heq.symm.trans hfree)
  rw [← he]
  exact hinv''

/-- Any state the driver can reach satisfies the full manager invariant. -/
theorem reach_inv {ms : Nat} {st : MMState} (h : Reach ms st) : MMInv st ms := by
  induction h with
  | init => exact init_inv ms
  | alloc size hr hb ih => exact alloc_inv ih hb size
  | @free st0 st1 position hr hmem hnull hfree ih =>
    have hnh : position ∉ st0.heap := by
      intro hc
      obtain ⟨k0, hk0lt, hk0e⟩ := List.getElem_of_mem hc
      have hk0 : geti st0.heap k0 = position := by
        rw [geti_eq_getElem hk0lt]
        exact hk0e
      have hlenk : st0.heap.length ≤ kNullIndex :=
        le_of_lt (lt_of_le_of_lt (nodup_lt_length_le ih.heap_nodup
          (fun x hx => ih.segs_lt x (ih.heap_sub x hx))) ih.arena_bound)
      have h5 := ih.track_in k0 hk0lt
      rw [hk0, hnull] at h5
      omega
    exact free_inv ih hmem hnh hfree

theorem appendIfFree_nonneg {st st1 : MMState} (hn : NonnegLR st)
    {position appending : Nat}
    (h : MemoryManager.AppendIfFree st position appending = some st1) :
    NonnegLR st1 := by
  unfold MemoryManager.AppendIfFree at h
  split_ifs at h with hg
  · rcases hu : (getSeg st.arena position).Unite (getSeg st.arena appending)
      with _ | merged
    · rw [hu] at h
      simp at h
    · rw [hu] at h
      obtain ⟨m1, m2⟩ := unite_nonneg (hn position).2 (hn position).1
        (hn appending).1 (hn appending).2 hu
      intro id
      rw [← Option.some.inj h]
      show 0 ≤ (getSeg (MSHeap.erase (st.arena.set position merged) st.heap
          ((getSeg (st.arena.set position merged) appending).heap_index)).1
          id).left ∧
        0 ≤ (getSeg (MSHeap.erase (st.arena.set position merged) st.heap
          ((getSeg (st.arena.set position merged) appending).heap_index)).1
          id).right
      obtain ⟨c1, c2⟩ := (msErase_spec (st.arena.set position merged) st.heap
        ((getSeg (st.arena.set position merged) appending).heap_index)).2 id
      rw [c1, c2]
      rcases getSeg_set_cases st.arena position merged id with h5 | h5
      · rw [h5]
        exact ⟨m1, m2⟩
      · rw [h5]
        exact hn id
  · intro id
    rw [← Option.some.inj h]
    exact hn id

theorem free_nonneg {st st' : MMState} (hn : NonnegLR st) {position : Nat}
    (h : MemoryManager.Free st position = some st') : NonnegLR st' := by
  simp only [MemoryManager.Free] at h
  obtain ⟨st1, h1, h2⟩ := Option.bind_eq_some.mp h
  have hn1 : NonnegLR st1 := by
    split_ifs at h1 with hg
    · exact appendIfFree_nonneg hn h1
    · rw [← Option.some.inj h1]
      exact hn
  obtain ⟨st2, h3, h4⟩ := Option.map_eq_some'.mp h2
  have hn2 : NonnegLR st2 := by
    rcases hrn : st.segs[st.segs.indexOf position + 1]? with _ | r
    · rw [hrn] at h3
      have h5 : st1 = st2 := Option.some.inj h3
      rw [← h5]
      exact hn1
    · rw [hrn] at h3
      have h5 : MemoryManager.AppendIfFree st1 position r = some st2 := h3
      exact appendIfFree_nonneg hn1 h5
  intro id
  rw [← h4]
  show 0 ≤ (getSeg (MSHeap.push st2.arena st2.heap position).1 id).left ∧
    0 ≤ (getSeg (MSHeap.push st2.arena st2.heap position).1 id).right
  obtain ⟨c1, c2⟩ := (msPush_spec st2.arena st2.heap position).2 id
  rw [c1, c2]
  exact hn2 id

/-- The loop of RunMemoryManager, printed through
OutputMemoryManagerResponses, produces exactly the spec-side driver's
output, as long as every segment endpoint is non-negative (which init
establishes and every operation preserves). -/
theorem go_agree (qs : List MemoryManagerQuery) :
    ∀ (st : MMState) (results : List (Option Nat)) (n : Nat), NonnegLR st →
    (RunMemoryManagerGo st results n qs).map OutputMemoryManagerResponses =
      DriverSpecGo st results n qs := by
  induction qs with
  | nil =>
    intro st results n hn
    rfl
  | cons q rest ih =>
    intro st results n hn
    match q with
    | .allocationQ s =>
      simp only [RunMemoryManagerGo, DriverSpecGo]
      have hn1 : NonnegLR (MemoryManager.Allocate st s).1 := alloc_nonneg st s hn
      rcases halloc : (MemoryManager.Allocate st s).2 with _ | id
      · simp only []
        cases hrun : RunMemoryManagerGo (MemoryManager.Allocate st s).1
            (results.set n none) (n + 1) rest with
        | none =>
          have ih1 := ih (MemoryManager.Allocate st s).1 (results.set n none)
            (n + 1) hn1
          rw [hrun] at ih1
          simp only [Option.map_none'] at ih1
          rw [← ih1]
          simp only [Option.map_none']
        | some rs =>
          have ih1 := ih (MemoryManager.Allocate st s).1 (results.set n none)
            (n + 1) hn1
          rw [hrun] at ih1
          simp only [Option.map_some'] at ih1
          rw [← ih1]
          simp only [Option.map_some', Option.some.injEq,
            OutputMemoryManagerResponses, List.map_cons, MakeFailedAllocation]
          simp
      · simp only []
        cases hrun : RunMemoryManagerGo (MemoryManager.Allocate st s).1
            (results.set n (some id)) (n + 1) rest with
        | none =>
          have ih1 := ih (MemoryManager.Allocate st s).1 (results.set n (some id))
            (n + 1) hn1
          rw [hrun] at ih1
          simp only [Option.map_none'] at ih1
          rw [← ih1]
          simp only [Option.map_none']
        | some rs =>
          have ih1 := ih (MemoryManager.Allocate st s).1 (results.set n (some id))
            (n + 1) hn1
          rw [hrun] at ih1
          simp only [Option.map_some'] at ih1
          rw [← ih1]
          simp only [Option.map_some', Option.some.injEq,
            OutputMemoryManagerResponses, List.map_cons,
            MakeSuccessfulAllocation, List.cons.injEq]
          refine ⟨?_, trivial⟩
          rw [if_pos trivial, Int.toNat_of_nonneg (hn1 id).1]
    | .freeQ j =>
      simp only [RunMemoryManagerGo, DriverSpecGo]
      rcases hres : ((results.set n none)[j]?).getD none with _ | id
      · simp only []
        exact ih st (results.set n none) (n + 1) hn
      · simp only []
        rcases hfr : MemoryManager.Free st id with _ | st1
        · rfl
        · exact ih st1 (results.set n none) (n + 1) (free_nonneg hn hfr)

/-! ## Handle values returned by Allocate -/

theorem alloc_equal_handle (st : MMState) (size : Nat)
    (h0 : ¬st.heap.length = 0)
    (h2 : size = (getSeg st.arena (geti st.heap 0)).Size) :
    (MemoryManager.Allocate st size).2 = some (geti st.heap 0) ∧
    ∀ k, (getSeg (MemoryManager.Allocate st size).1.arena k).left =
        (getSeg st.arena k).left ∧
      (getSeg (MemoryManager.Allocate st size).1.arena k).right =
        (getSeg st.arena k).right := by
  rw [alloc_equal_eq st size h0 h2]
  exact ⟨rfl, (msErase_spec st.arena st.heap _).2⟩

theorem alloc_split_handle (st : MMState) (size : Nat)
    (h0 : ¬st.heap.length = 0)
    (h1 : ¬size > (getSeg st.arena (geti st.heap 0)).Size)
    (h2 : ¬size = (getSeg st.arena (geti st.heap 0)).Size)
    (hT : geti st.heap 0 < st.arena.length) :
    (MemoryManager.Allocate st size).2 = some st.arena.length ∧
    (getSeg (MemoryManager.Allocate st size).1.arena st.arena.length).left =
      (getSeg st.arena (geti st.heap 0)).left ∧
    (getSeg (MemoryManager.Allocate st size).1.arena st.arena.length).right =
      (getSeg st.arena (geti st.heap 0)).left + (size : Int) := by
  rw [alloc_split_eq st size h0 h1 h2]
  simp only []
  set T := geti st.heap 0 with hTdef
  set L := (getSeg st.arena T).left with hLdef
  set AL := (⟨L, L + (size : Int), kNullIndex⟩ : MemorySegment) with hALdef
  set A2 := MemoryManager.setLeft (st.arena ++ [AL]) T (L + (size : Int))
    with hA2def
  have hA2N : getSeg A2 st.arena.length = AL := by
    rw [hA2def, MemoryManager.setLeft,
      getSeg_set_other (by omega : T ≠ st.arena.length)]
    exact getSeg_append_len st.arena AL
  refine ⟨trivial, ?_, ?_⟩
  · have c1 := ((msPush_spec (MSHeap.erase A2 st.heap
      ((getSeg A2 T).heap_index)).1 (MSHeap.erase A2 st.heap
      ((getSeg A2 T).heap_index)).2 T).2 st.arena.length).1
    have c2 := ((msErase_spec A2 st.heap
      ((getSeg A2 T).heap_index)).2 st.arena.length).1
    rw [c1, c2, hA2N, hALdef]
  · have c1 := ((msPush_spec (MSHeap.erase A2 st.heap
      ((getSeg A2 T).heap_index)).1 (MSHeap.erase A2 st.heap
      ((getSeg A2 T).heap_index)).2 T).2 st.arena.length).2
    have c2 := ((msErase_spec A2 st.heap
      ((getSeg A2 T).heap_index)).2 st.arena.length).2
    rw [c1, c2, hA2N, hALdef]

/-! ## Claim C8: the driver -/

/-- C8: a non-negative input value v is an allocation request of size v and
a negative v a free request for the (-v-1)-th (0-indexed) prior request; a
free request whose referent failed to allocate or was itself a free request
performs no operation on the manager; and the output lists, for each
allocation request in stream order, its 1-indexed starting address on
success or -1 on failure, and nothing for free requests.  Formally: the
program pipeline ReadMemoryManagerQueries / RunMemoryManager /
OutputMemoryManagerResponses equals the spec-side driver DriverSpec, which
is written directly from the claim's words. -/
theorem driver_output_spec (memory_size : Nat) (input : List Int) :
    (RunMemoryManager memory_size (ReadMemoryManagerQueries input)).map
      OutputMemoryManagerResponses = DriverSpec memory_size input := by
  unfold RunMemoryManager DriverSpec
  exact go_agree (ReadMemoryManagerQueries input)
    (MemoryManager.init memory_size)
    (List.replicate (ReadMemoryManagerQueries input).length none) 0
    (init_nonneg memory_size)

/-! ## Claim C9: failed allocation -/

/-- C9: when Allocate(size) returns the null handle it leaves the manager
state — segment sequence, free heap, and the arena holding every segment's
heap_index — exactly unchanged; in the embedding Allocate is a total
function, so the failure is an ordinary return rather than an exception. -/
theorem alloc_fail_no_change (st : MMState) (size : Nat)
    (h : (MemoryManager.Allocate st size).2 = none) :
    (MemoryManager.Allocate st size).1 = st :=
  alloc_fail_frame st size h

theorem alloc_fail_no_change_witness :
    (MemoryManager.Allocate ⟨[], [], []⟩ 3).2 = none ∧
    (MemoryManager.Allocate ⟨[], [], []⟩ 3).1 = ⟨[], [], []⟩ :=
  ⟨rfl, alloc_fail_no_change ⟨[], [], []⟩ 3 rfl⟩

/-! ## Claim C3: coverage invariant -/

/-- C3: after construction and after every Allocate and every
contract-respecting Free, the segment sequence partitions
[0, memory_size): it is non-empty, starts at 0, ends at memory_size, each
segment has left ≤ right, and each right equals the next segment's left. -/
theorem reachable_partition {memory_size : Nat} {st : MMState}
    (h : Reach memory_size st) : Partition st memory_size :=
  (reach_inv h).part

theorem reachable_partition_witness : Partition (MemoryManager.init 7) 7 :=
  reachable_partition Reach.init

/-! ## Claim C4: no adjacent free segments -/

/-- C4: in every reachable manager state no two address-adjacent segments
of the sequence are both free, where free is the code's own discriminator:
a heap_index different from the kNullIndex sentinel. -/
theorem reachable_no_adjacent_free {memory_size : Nat} {st : MMState}
    (h : Reach memory_size st) : NoAdjacentFree st := by
  have hinv := reach_inv h
  intro k hk
  rintro ⟨hA, hB⟩
  have hmemof : ∀ i ∈ st.segs, (getSeg st.arena i).heap_index ≠ kNullIndex →
      i ∈ st.heap := by
    intro i hi hne
    by_contra hni
    exact hne (hinv.track_out i hi hni)
  apply hinv.no_adj k hk
  exact ⟨hmemof _ (geti_mem (by omega)) hA, hmemof _ (geti_mem hk) hB⟩

theorem reachable_no_adjacent_free_witness :
    NoAdjacentFree (MemoryManager.init 5) :=
  reachable_no_adjacent_free Reach.init

/-! ## Claim C5: heap membership invariant -/

/-- C5: in every reachable state a segment of the sequence is in the free
heap iff its heap_index is not the kNullIndex sentinel, and when present
its heap_index is exactly its current slot in the heap's backing
storage. -/
theorem reachable_heap_membership {memory_size : Nat} {st : MMState}
    (h : Reach memory_size st) : HeapMembership st := by
  have hinv := reach_inv h
  have hlenk : st.heap.length ≤ kNullIndex :=
    le_of_lt (lt_of_le_of_lt (nodup_lt_length_le hinv.heap_nodup
      (fun x hx => hinv.segs_lt x (hinv.heap_sub x hx))) hinv.arena_bound)
  intro i hi
  constructor
  · constructor
    · intro hne
      by_contra hni
      exact hne (hinv.track_out i hi hni)
    · intro hmem
      obtain ⟨k0, hk0lt, hk0e⟩ := List.getElem_of_mem hmem
      have hk0 : geti st.heap k0 = i := by
        rw [geti_eq_getElem hk0lt]
        exact hk0e
      rw [← hk0, hinv.track_in k0 hk0lt]
      omega
  · intro hmem
    obtain ⟨k0, hk0lt, hk0e⟩ := List.getElem_of_mem hmem
    have hk0 : geti st.heap k0 = i := by
      rw [geti_eq_getElem hk0lt]
      exact hk0e
    rw [← hk0, hinv.track_in k0 hk0lt]
    exact ⟨hk0lt, rfl⟩

theorem reachable_heap_membership_witness :
    HeapMembership (MemoryManager.init 9) :=
  reachable_heap_membership Reach.init

/-! ## Membership and endpoint summaries of the two successful
Allocate branches, and the shape of the inserted sequence -/

theorem insertBefore_facts {l : List Nat} (hnd : l.Nodup) {pos v : Nat}
    (hpos : pos ∈ l) (hv : v ∉ l) :
    (MemoryManager.insertBefore l pos v).indexOf v = l.indexOf pos ∧
    (∀ k, k < l.indexOf pos →
      geti (MemoryManager.insertBefore l pos v) k = geti l k) ∧
    (MemoryManager.insertBefore l pos v)[l.indexOf pos + 1]? = some pos := by
  have hjlt : l.indexOf pos < l.length := indexOf_lt hpos
  have hgj : geti l (l.indexOf pos) = pos := geti_indexOf hpos
  have htklen : (l.take (l.indexOf pos)).length = l.indexOf pos :=
    length_take_of_le l (le_of_lt hjlt)
  have hdec : l.drop (l.indexOf pos) = pos :: l.drop (l.indexOf pos + 1) := by
    rw [List.drop_eq_getElem_cons hjlt]
    congr 1
    rw [← geti_eq_getElem hjlt]
    exact hgj
  have hs1 : MemoryManager.insertBefore l pos v =
      l.take (l.indexOf pos) ++ v :: pos :: l.drop (l.indexOf pos + 1) := by
    rw [MemoryManager.insertBefore_take_drop l pos v hpos, hdec]
  have hlen1 : (MemoryManager.insertBefore l pos v).length = l.length + 1 := by
    rw [hs1]
    simp only [List.length_append, List.length_cons, List.length_drop, htklen]
    omega
  have hnd1 : (MemoryManager.insertBefore l pos v).Nodup :=
    (List.nodup_cons.mpr ⟨hv, hnd⟩).perm
      (MemoryManager.insertBefore_perm l pos v).symm
  have hgv : geti (MemoryManager.insertBefore l pos v) (l.indexOf pos) = v := by
    have h5 := geti_append_add (l.take (l.indexOf pos))
      (v :: pos :: l.drop (l.indexOf pos + 1)) 0
    rw [htklen, geti_cons_zero] at h5
    rw [hs1]
    exact h5
  refine ⟨?_, ?_, ?_⟩
  · have h5 := indexOf_geti hnd1 (show l.indexOf pos <
      (MemoryManager.insertBefore l pos v).length by rw [hlen1]; omega)
    rw [hgv] at h5
    exact h5
  · intro k hk
    rw [hs1, geti_append_lt (by rw [htklen]; exact hk),
      geti_take l hk (by omega)]
  · have h5 := geti_append_add (l.take (l.indexOf pos))
      (v :: pos :: l.drop (l.indexOf pos + 1)) 1
    rw [htklen] at h5
    have h6 := geti_cons_succ v (pos :: l.drop (l.indexOf pos + 1)) 0
    rw [geti_cons_zero] at h6
    rw [hs1, List.getElem?_eq_getElem (show l.indexOf pos + 1 <
      (l.take (l.indexOf pos) ++ v :: pos :: l.drop (l.indexOf pos + 1)).length by
        simp only [List.length_append, List.length_cons, List.length_drop, htklen]
        omega)]
    rw [← geti_eq_getElem]
    rw [h5, h6]

theorem alloc_equal_mem {st : MMState} {ms : Nat} (hinv : MMInv st ms)
    (size : Nat) (h0 : ¬st.heap.length = 0)
    (h2 : size = (getSeg st.arena (geti st.heap 0)).Size) :
    (∀ x, x ∈ (MemoryManager.Allocate st size).1.heap ↔
      x ∈ st.heap ∧ x ≠ geti st.heap 0) ∧
    (MemoryManager.Allocate st size).1.segs = st.segs := by
  have hpos : 0 < st.heap.length := Nat.pos_of_ne_zero h0
  have hidx0 : (getSeg st.arena (geti st.heap 0)).heap_index = 0 :=
    hinv.track_in 0 hpos
  rw [alloc_equal_eq st size h0 h2, hidx0]
  have hb : ∀ id ∈ st.heap, id < st.arena.length :=
    fun id h => hinv.segs_lt id (hinv.heap_sub id h)
  have hlenk : st.heap.length ≤ kNullIndex :=
    le_of_lt (lt_of_le_of_lt (nodup_lt_length_le hinv.heap_nodup hb)
      hinv.arena_bound)
  obtain ⟨hEperm, hEord, hElen⟩ := msErase_pack st.arena st.heap 0 hpos hlenk
    hinv.heap_ordered
  have hndE : ((MSHeap.erase st.arena st.heap 0).2 ++ [geti st.heap 0]).Nodup :=
    hinv.heap_nodup.perm hEperm.symm
  have hTnotE : geti st.heap 0 ∉ (MSHeap.erase st.arena st.heap 0).2 := by
    have h3 := List.nodup_append.mp hndE
    intro hc
    exact (h3.2.2 hc) (by simp)
  refine ⟨?_, rfl⟩
  intro x
  constructor
  · intro hx
    refine ⟨hEperm.mem_iff.mp (List.mem_append.mpr (Or.inl hx)), ?_⟩
    intro hcon
    exact hTnotE (hcon ▸ hx)
  · rintro ⟨hx, hne⟩
    rcases List.mem_append.mp (hEperm.symm.mem_iff.mp hx) with h | h
    · exact h
    · simp only [List.mem_singleton] at h
      exact absurd h hne

theorem alloc_split_mem {st : MMState} {ms : Nat} (hinv : MMInv st ms)
    (size : Nat) (h0 : ¬st.heap.length = 0)
    (h1 : ¬size > (getSeg st.arena (geti st.heap 0)).Size)
    (h2 : ¬size = (getSeg st.arena (geti st.heap 0)).Size) :
    (∀ x, x ∈ (MemoryManager.Allocate st size).1.heap ↔ x ∈ st.heap) ∧
    (∀ k, k ≠ geti st.heap 0 → k ≠ st.arena.length →
      (getSeg (MemoryManager.Allocate st size).1.arena k).left =
        (getSeg st.arena k).left ∧
      (getSeg (MemoryManager.Allocate st size).1.arena k).right =
        (getSeg st.arena k).right) ∧
    ((getSeg (MemoryManager.Allocate st size).1.arena (geti st.heap 0)).left =
      (getSeg st.arena (geti st.heap 0)).left + (size : Int) ∧
     (getSeg (MemoryManager.Allocate st size).1.arena (geti st.heap 0)).right =
      (getSeg st.arena (geti st.heap 0)).right) ∧
    (MemoryManager.Allocate st size).1.segs =
      MemoryManager.insertBefore st.segs (geti st.heap 0) st.arena.length := by
  have hpos : 0 < st.heap.length := Nat.pos_of_ne_zero h0
  have hidx0 : (getSeg st.arena (geti st.heap 0)).heap_index = 0 :=
    hinv.track_in 0 hpos
  have hTmem : geti st.heap 0 ∈ st.heap := geti_mem hpos
  have hTsegs : geti st.heap 0 ∈ st.segs := hinv.heap_sub _ hTmem
  have hTlt : geti st.heap 0 < st.arena.length := hinv.segs_lt _ hTsegs
  have hbid : ∀ id ∈ st.heap, id < st.arena.length :=
    fun id h => hinv.segs_lt id (hinv.heap_sub id h)
  have hlenk : st.heap.length ≤ kNullIndex :=
    le_of_lt (lt_of_le_of_lt (nodup_lt_length_le hinv.heap_nodup hbid)
      hinv.arena_bound)
  have hne0 : st.heap ≠ [] := fun hc => by rw [hc] at hpos; simp at hpos
  rw [alloc_split_eq st size h0 h1 h2]
  simp only []
  set T := geti st.heap 0 with hTdef
  set L := (getSeg st.arena T).left with hLdef
  set R := (getSeg st.arena T).right with hRdef
  set AL := (⟨L, L + (size : Int), kNullIndex⟩ : MemorySegment) with hALdef
  set A2 := MemoryManager.setLeft (st.arena ++ [AL]) T (L + (size : Int)) with hA2def
  have hA2T : getSeg A2 T = ⟨L + (size : Int), R, (getSeg st.arena T).heap_index⟩ := by
    have hTlen : T < (st.arena ++ [AL]).length := by
      simp only [List.length_append, List.length_cons, List.length_nil]
      omega
    rw [hA2def, MemoryManager.setLeft, getSeg_set_self hTlen,
      getSeg_append_lt hTlt]
  have hidxA2 : (getSeg A2 T).heap_index = 0 := by
    rw [hA2T]
    exact hidx0
  rw [hidxA2]
  set N := st.arena.length with hNdef
  have hA2N : getSeg A2 N = AL := by
    rw [hA2def, MemoryManager.setLeft, getSeg_set_other (by omega : T ≠ N)]
    exact getSeg_append_len st.arena AL
  have hA2other : ∀ x, x ≠ T → x ≠ N → getSeg A2 x = getSeg st.arena x := by
    intro x hxT hxN
    rw [hA2def, MemoryManager.setLeft, getSeg_set_other (fun hc => hxT hc.symm)]
    by_cases hx : x < st.arena.length
    · exact getSeg_append_lt hx AL
    · have hxlen : (st.arena ++ [AL]).length ≤ x := by
        simp only [List.length_append, List.length_cons, List.length_nil]
        omega
      rw [getSeg_of_le hxlen, getSeg_of_le (by omega)]
  have hbA2 : ∀ id ∈ st.heap, id < A2.length := by
    intro id h
    rw [hA2def, MemoryManager.setLeft]
    simp only [List.length_set, List.length_append, List.length_cons,
      List.length_nil]
    exact lt_of_lt_of_le (hbid id h) (by omega)
  have hTne : ∀ k, k < st.heap.length → k ≠ 0 → geti st.heap k ≠ T := by
    intro k hk hk0 hcon
    exact hk0 (nodup_geti_inj hinv.heap_nodup hk hpos hcon)
  have hheapN : ∀ id ∈ st.heap, id ≠ N :=
    fun id h hc => absurd (hbid id h) (by omega)
  have htrA2 : ∀ k, k < st.heap.length →
      (getSeg A2 (geti st.heap k)).heap_index = k := by
    intro k hk
    by_cases hk0 : k = 0
    · subst hk0
      rw [hA2T]
      exact hidx0
    · rw [hA2other _ (hTne k hk hk0) (hheapN _ (geti_mem hk))]
      exact hinv.track_in k hk
  have hrootA2 : ∀ c, c < st.heap.length → 0 < c → Heap.Parent c ≠ 0 →
      MemorySegmentSizeCompare A2 (geti st.heap c)
        (geti st.heap (Heap.Parent c)) = false := by
    intro c hc hc0 hpc
    have hplt : Heap.Parent c < st.heap.length :=
      lt_of_le_of_lt (Heap.parent_le c) hc
    have e1 := hA2other _ (hTne c hc (by omega)) (hheapN _ (geti_mem hc))
    have e2 := hA2other _ (hTne _ hplt hpc) (hheapN _ (geti_mem hplt))
    have hc12 : MemorySegmentSizeCompare A2 (geti st.heap c)
        (geti st.heap (Heap.Parent c)) =
        MemorySegmentSizeCompare st.arena (geti st.heap c)
        (geti st.heap (Heap.Parent c)) :=
      cmp_congr_pair (by rw [e1]) (by rw [e1]) (by rw [e2]) (by rw [e2])
    rw [hc12]
    exact hinv.heap_ordered c hc hc0
  have hEperm : List.Perm ((MSHeap.erase A2 st.heap 0).2 ++ [T]) st.heap :=
    (msErase_pack_root A2 st.heap hne0 hlenk hrootA2).1
  have hElr := (msErase_spec A2 st.heap 0).2
  have hPlist : List.Perm (MSHeap.push (MSHeap.erase A2 st.heap 0).1
      (MSHeap.erase A2 st.heap 0).2 T).2.1
      ((MSHeap.erase A2 st.heap 0).2 ++ [T]) :=
    msPush_list (MSHeap.erase A2 st.heap 0).1 (MSHeap.erase A2 st.heap 0).2 T
  have hPperm := hPlist.trans hEperm
  have hlrPA2 : ∀ x,
      (getSeg (MSHeap.push (MSHeap.erase A2 st.heap 0).1
        (MSHeap.erase A2 st.heap 0).2 T).1 x).left = (getSeg A2 x).left ∧
      (getSeg (MSHeap.push (MSHeap.erase A2 st.heap 0).1
        (MSHeap.erase A2 st.heap 0).2 T).1 x).right = (getSeg A2 x).right := by
    intro x
    obtain ⟨a1, a2⟩ := (msPush_spec (MSHeap.erase A2 st.heap 0).1
      (MSHeap.erase A2 st.heap 0).2 T).2 x
    obtain ⟨b1, b2⟩ := hElr x
    exact ⟨a1.trans b1, a2.trans b2⟩
  refine ⟨fun x => hPperm.mem_iff, ?_, ?_, trivial⟩
  · intro k hkT hkN
    obtain ⟨c1, c2⟩ := hlrPA2 k
    rw [c1, c2, hA2other k hkT hkN]
    exact ⟨rfl, rfl⟩
  · obtain ⟨c1, c2⟩ := hlrPA2 T
    rw [c1, c2, hA2T]
    exact ⟨rfl, rfl⟩

/-! ## Claim C1: best-fit correctness of Allocate -/

/-- C1: for every reachable manager state, Allocate(s) returns a handle
iff some free segment has Size ≥ s (so it fails when the free heap is
empty); moreover the heap top — the segment the successful branches
allocate from — is extremal: no free segment compares ahead of it under
MemorySegmentSizeCompare (size descending, ties by smaller left), and the
returned handle's range starts at the top segment's left endpoint. -/
theorem alloc_best_fit {memory_size : Nat} {st : MMState}
    (h : Reach memory_size st) (s : Nat) :
    ((MemoryManager.Allocate st s).2 ≠ none ↔
      ∃ i ∈ st.heap, s ≤ (getSeg st.arena i).Size) ∧
    (∀ i ∈ st.heap,
      MemorySegmentSizeCompare st.arena i (geti st.heap 0) = false) ∧
    (∀ handle, (MemoryManager.Allocate st s).2 = some handle →
      (getSeg (MemoryManager.Allocate st s).1.arena handle).left =
        (getSeg st.arena (geti st.heap 0)).left) := by
  have hinv := reach_inv h
  have hext : ∀ i ∈ st.heap,
      MemorySegmentSizeCompare st.arena i (geti st.heap 0) = false := by
    intro i hi
    obtain ⟨k0, hk0lt, hk0e⟩ := List.getElem_of_mem hi
    have hk0 : geti st.heap k0 = i := by
      rw [geti_eq_getElem hk0lt]
      exact hk0e
    rw [← hk0]
    exact Heap.heapProp_top _ (msCompare_swo st.arena) st.heap
      hinv.heap_ordered k0 hk0lt
  have hsizele : ∀ i ∈ st.heap,
      (getSeg st.arena i).Size ≤ (getSeg st.arena (geti st.heap 0)).Size := by
    intro i hi
    have hc := hext i hi
    unfold MemorySegmentSizeCompare at hc
    split_ifs at hc with he
    · omega
    · simp only [decide_eq_false_iff_not, not_lt] at hc
      exact hc
  refine ⟨?_, hext, ?_⟩
  · constructor
    · intro hsucc
      have hf := mt (alloc_fail_iff st s).mpr hsucc
      push_neg at hf
      obtain ⟨hf0, hf1⟩ := hf
      exact ⟨geti st.heap 0, geti_mem (Nat.pos_of_ne_zero hf0), by omega⟩
    · rintro ⟨i, hi, hsz⟩ hnone
      rcases (alloc_fail_iff st s).mp hnone with h0 | h1
      · rw [List.length_eq_zero] at h0
        rw [h0] at hi
        cases hi
      · have h5 := hsizele i hi
        omega
  · intro handle halloc
    by_cases h0 : st.heap.length = 0
    · rw [(alloc_fail_iff st s).mpr (Or.inl h0)] at halloc
      simp at halloc
    · by_cases h1 : s > (getSeg st.arena (geti st.heap 0)).Size
      · rw [(alloc_fail_iff st s).mpr (Or.inr h1)] at halloc
        simp at halloc
      · by_cases h2 : s = (getSeg st.arena (geti st.heap 0)).Size
        · obtain ⟨he1, he2⟩ := alloc_equal_handle st s h0 h2
          rw [he1] at halloc
          have hh : geti st.heap 0 = handle := Option.some.inj halloc
          rw [← hh]
          exact (he2 _).1
        · have hT : geti st.heap 0 < st.arena.length :=
            hinv.segs_lt _ (hinv.heap_sub _ (geti_mem (Nat.pos_of_ne_zero h0)))
          obtain ⟨he1, he2, he3⟩ := alloc_split_handle st s h0 h1 h2 hT
          rw [he1] at halloc
          have hh : st.arena.length = handle := Option.some.inj halloc
          rw [← hh]
          exact he2

theorem alloc_best_fit_witness :
    ((MemoryManager.Allocate (MemoryManager.init 10) 4).2 ≠ none ↔
      ∃ i ∈ (MemoryManager.init 10).heap,
        4 ≤ (getSeg (MemoryManager.init 10).arena i).Size) ∧
    (∀ i ∈ (MemoryManager.init 10).heap,
      MemorySegmentSizeCompare (MemoryManager.init 10).arena i
        (geti (MemoryManager.init 10).heap 0) = false) ∧
    (∀ handle,
      (MemoryManager.Allocate (MemoryManager.init 10) 4).2 = some handle →
      (getSeg (MemoryManager.Allocate (MemoryManager.init 10) 4).1.arena
        handle).left =
        (getSeg (MemoryManager.init 10).arena
          (geti (MemoryManager.init 10).heap 0)).left) :=
  alloc_best_fit Reach.init 4

/-! ## Claim C10: zero-size allocation -/

/-- C10: for every reachable state whose free heap is nonempty,
Allocate(0) succeeds: if the top (best-fit) segment has Size 0 the handle
is that segment itself, otherwise the handle is a fresh empty segment
[L, L) at the top's left endpoint L, consuming no address space; and
Allocate(0) returns the null handle exactly when the free heap is
empty. -/
theorem alloc_zero {memory_size : Nat} {st : MMState}
    (h : Reach memory_size st) :
    ((MemoryManager.Allocate st 0).2 = none ↔ st.heap = []) ∧
    (st.heap ≠ [] →
      ∃ handle, (MemoryManager.Allocate st 0).2 = some handle ∧
        (getSeg (MemoryManager.Allocate st 0).1.arena handle).left =
          (getSeg st.arena (geti st.heap 0)).left ∧
        ((getSeg st.arena (geti st.heap 0)).Size = 0 →
          handle = geti st.heap 0) ∧
        (0 < (getSeg st.arena (geti st.heap 0)).Size →
          handle = st.arena.length ∧
          (getSeg (MemoryManager.Allocate st 0).1.arena handle).right =
            (getSeg (MemoryManager.Allocate st 0).1.arena handle).left)) := by
  have hinv := reach_inv h
  constructor
  · rw [alloc_fail_iff]
    constructor
    · rintro (h0 | h1)
      · exact List.length_eq_zero.mp h0
      · omega
    · intro he
      refine Or.inl ?_
      rw [he]
      rfl
  · intro hne
    have h0 : ¬st.heap.length = 0 := fun hc => hne (List.length_eq_zero.mp hc)
    by_cases h2 : (getSeg st.arena (geti st.heap 0)).Size = 0
    · obtain ⟨he1, he2⟩ := alloc_equal_handle st 0 h0 h2.symm
      exact ⟨geti st.heap 0, he1, (he2 _).1, fun _ => rfl,
        fun hpos => absurd h2 (by omega)⟩
    · have h1 : ¬((0 : Nat) > (getSeg st.arena (geti st.heap 0)).Size) := by
        omega
      have hT : geti st.heap 0 < st.arena.length :=
        hinv.segs_lt _ (hinv.heap_sub _ (geti_mem (Nat.pos_of_ne_zero h0)))
      obtain ⟨he1, he2, he3⟩ := alloc_split_handle st 0 h0 h1
        (fun hc => h2 hc.symm) hT
      refine ⟨st.arena.length, he1, he2, fun hz => absurd hz h2,
        fun _ => ⟨rfl, ?_⟩⟩
      rw [he2, he3]
      simp

theorem alloc_zero_witness :
    ((MemoryManager.Allocate (MemoryManager.init 6) 0).2 = none ↔
      (MemoryManager.init 6).heap = []) ∧
    ((MemoryManager.init 6).heap ≠ [] →
      ∃ handle, (MemoryManager.Allocate (MemoryManager.init 6) 0).2 =
          some handle ∧
        (getSeg (MemoryManager.Allocate (MemoryManager.init 6) 0).1.arena
          handle).left =
          (getSeg (MemoryManager.init 6).arena
            (geti (MemoryManager.init 6).heap 0)).left ∧
        ((getSeg (MemoryManager.init 6).arena
            (geti (MemoryManager.init 6).heap 0)).Size = 0 →
          handle = geti (MemoryManager.init 6).heap 0) ∧
        (0 < (getSeg (MemoryManager.init 6).arena
            (geti (MemoryManager.init 6).heap 0)).Size →
          handle = (MemoryManager.init 6).arena.length ∧
          (getSeg (MemoryManager.Allocate (MemoryManager.init 6) 0).1.arena
            handle).right =
          (getSeg (MemoryManager.Allocate (MemoryManager.init 6) 0).1.arena
            handle).left)) :=
  alloc_zero Reach.init

/-! ## Claim C7: allocate-then-free round trip -/

/-- C7: if Allocate(s) on a reachable state succeeds with some handle,
then immediately Freeing that handle succeeds and yields a state whose
free segments cover exactly the same addresses as before the Allocate.
The arena-length side condition is the same platform bound Reach's alloc
step carries (a process cannot hold SIZE_MAX list nodes, which is what
makes the kNullIndex sentinel usable). -/
theorem alloc_free_roundtrip {memory_size : Nat} {st : MMState}
    (h : Reach memory_size st)
    (hbound : st.arena.length + 1 < kNullIndex) {s handle : Nat}
    (halloc : (MemoryManager.Allocate st s).2 = some handle) :
    ∃ st'', MemoryManager.Free (MemoryManager.Allocate st s).1 handle =
        some st'' ∧
      (∀ x : Int, FreeCovers st'' x ↔ FreeCovers st x) := by
  have hinv := reach_inv h
  have hinv1 : MMInv (MemoryManager.Allocate st s).1 memory_size :=
    alloc_inv hinv hbound s
  have hnnone : (MemoryManager.Allocate st s).2 ≠ none := by
    rw [halloc]
    simp
  have hf := mt (alloc_fail_iff st s).mpr hnnone
  push_neg at hf
  obtain ⟨h0, h1⟩ := hf
  have hpos : 0 < st.heap.length := Nat.pos_of_ne_zero h0
  have hTmem : geti st.heap 0 ∈ st.heap := geti_mem hpos
  have hTsegs : geti st.heap 0 ∈ st.segs := hinv.heap_sub _ hTmem
  have hTlt : geti st.heap 0 < st.arena.length := hinv.segs_lt _ hTsegs
  have hbid : ∀ id ∈ st.heap, id < st.arena.length :=
    fun id hid => hinv.segs_lt id (hinv.heap_sub id hid)
  have hidxT : geti st.segs (st.segs.indexOf (geti st.heap 0)) =
      geti st.heap 0 := geti_indexOf hTsegs
  have hidxTlt : st.segs.indexOf (geti st.heap 0) < st.segs.length :=
    indexOf_lt hTsegs
  have hlen1k : (MemoryManager.Allocate st s).1.heap.length ≤ kNullIndex :=
    le_of_lt (lt_of_le_of_lt (nodup_lt_length_le hinv1.heap_nodup
      (fun x hx => hinv1.segs_lt x (hinv1.heap_sub x hx))) hinv1.arena_bound)
  by_cases h2 : s = (getSeg st.arena (geti st.heap 0)).Size
  · -- equal branch: the top segment itself is handed out and pushed back
    obtain ⟨he1, helr⟩ := alloc_equal_handle st s h0 h2
    obtain ⟨hmem1, hsegs1⟩ := alloc_equal_mem hinv s h0 h2
    have hhT : geti st.heap 0 = handle := Option.some.inj (he1.symm.trans halloc)
    rw [← hhT]
    have hTsegs1 : geti st.heap 0 ∈ (MemoryManager.Allocate st s).1.segs := by
      rw [hsegs1]
      exact hTsegs
    have hTnh1 : geti st.heap 0 ∉ (MemoryManager.Allocate st s).1.heap :=
      fun hc => ((hmem1 _).mp hc).2 rfl
    have hidx1 : (MemoryManager.Allocate st s).1.segs.indexOf (geti st.heap 0) =
        st.segs.indexOf (geti st.heap 0) := by
      rw [hsegs1]
    have pf1 : (if (MemoryManager.Allocate st s).1.segs.indexOf
          (geti st.heap 0) ≠ 0 then
        MemoryManager.AppendIfFree (MemoryManager.Allocate st s).1
          (geti st.heap 0)
          (geti (MemoryManager.Allocate st s).1.segs
            ((MemoryManager.Allocate st s).1.segs.indexOf (geti st.heap 0) - 1))
      else some (MemoryManager.Allocate st s).1) =
        some (MemoryManager.Allocate st s).1 := by
      split_ifs with hif
      · rw [hidx1] at hif
        have hnb : geti st.segs (st.segs.indexOf (geti st.heap 0) - 1) ∉
            st.heap := by
          intro hc
          have h5 := hinv.no_adj (st.segs.indexOf (geti st.heap 0) - 1)
            (by omega)
          rw [show st.segs.indexOf (geti st.heap 0) - 1 + 1 =
            st.segs.indexOf (geti st.heap 0) from by omega, hidxT] at h5
          exact h5 ⟨hc, hTmem⟩
        have hnbsegs1 : geti st.segs (st.segs.indexOf (geti st.heap 0) - 1) ∈
            (MemoryManager.Allocate st s).1.segs := by
          rw [hsegs1]
          exact geti_mem (by omega)
        have hnbnh1 : geti st.segs (st.segs.indexOf (geti st.heap 0) - 1) ∉
            (MemoryManager.Allocate st s).1.heap :=
          fun hc => hnb ((hmem1 _).mp hc).1
        have hnull := hinv1.track_out _ hnbsegs1 hnbnh1
        rw [hidx1, hsegs1]
        exact appendIfFree_noop _ _ _ hnull
      · rfl
    have pf2 : (match (MemoryManager.Allocate st s).1.segs[
          (MemoryManager.Allocate st s).1.segs.indexOf (geti st.heap 0) + 1]? with
        | some r => MemoryManager.AppendIfFree (MemoryManager.Allocate st s).1
            (geti st.heap 0) r
        | none => some (MemoryManager.Allocate st s).1) =
        some (MemoryManager.Allocate st s).1 := by
      rw [hidx1, hsegs1]
      rcases hrn : st.segs[st.segs.indexOf (geti st.heap 0) + 1]? with _ | r
      · rfl
      · obtain ⟨h9, h10⟩ := List.getElem?_eq_some.mp hrn
        have hgr : geti st.segs (st.segs.indexOf (geti st.heap 0) + 1) = r := by
          rw [geti_eq_getElem h9]
          exact h10
        have hnb : r ∉ st.heap := by
          intro hc
          have h5 := hinv.no_adj (st.segs.indexOf (geti st.heap 0)) (by omega)
          rw [hidxT, hgr] at h5
          exact h5 ⟨hTmem, hc⟩
        have hnbsegs1 : r ∈ (MemoryManager.Allocate st s).1.segs := by
          rw [hsegs1, ← hgr]
          exact geti_mem (by omega)
        have hnbnh1 : r ∉ (MemoryManager.Allocate st s).1.heap :=
          fun hc => hnb ((hmem1 _).mp hc).1
        exact appendIfFree_noop _ _ _ (hinv1.track_out _ hnbsegs1 hnbnh1)
    refine ⟨_, free_eq (MemoryManager.Allocate st s).1 (geti st.heap 0) pf1 pf2,
      ?_⟩
    intro x
    have hm2 := msPush_mem (MemoryManager.Allocate st s).1.arena
      (MemoryManager.Allocate st s).1.heap (geti st.heap 0)
    have hlr2 := (msPush_spec (MemoryManager.Allocate st s).1.arena
      (MemoryManager.Allocate st s).1.heap (geti st.heap 0)).2
    constructor
    · rintro ⟨i, hi, hx1, hx2⟩
      have hi2 : i ∈ st.heap := by
        rcases (hm2 i).mp hi with h5 | h5
        · exact ((hmem1 i).mp h5).1
        · exact h5 ▸ hTmem
      refine ⟨i, hi2, ?_, ?_⟩
      · rw [← (helr i).1, ← (hlr2 i).1]
        exact hx1
      · rw [← (helr i).2, ← (hlr2 i).2]
        exact hx2
    · rintro ⟨i, hi, hx1, hx2⟩
      have hi2 : i ∈ (MSHeap.push (MemoryManager.Allocate st s).1.arena
          (MemoryManager.Allocate st s).1.heap (geti st.heap 0)).2.1 := by
        rw [hm2 i]
        by_cases hiT : i = geti st.heap 0
        · exact Or.inr hiT
        · exact Or.inl ((hmem1 i).mpr ⟨hi, hiT⟩)
      refine ⟨i, hi2, ?_, ?_⟩
      · rw [(hlr2 i).1, (helr i).1]
        exact hx1
      · rw [(hlr2 i).2, (helr i).2]
        exact hx2
  · -- split branch: the fresh handle merges back into the shrunk top
    have h1n : ¬s > (getSeg st.arena (geti st.heap 0)).Size := by omega
    obtain ⟨hmem1, hlrO, hlrT, hsegs1⟩ := alloc_split_mem hinv s h0 h1n h2
    obtain ⟨he1, hlrN1, hlrN2⟩ := alloc_split_handle st s h0 h1n h2 hTlt
    have hhN : st.arena.length = handle := Option.some.inj (he1.symm.trans halloc)
    rw [← hhN]
    have hszlt : s < (getSeg st.arena (geti st.heap 0)).Size := by omega
    have hRL : (getSeg st.arena (geti st.heap 0)).left <
        (getSeg st.arena (geti st.heap 0)).right := by
      unfold MemorySegment.Size at hszlt
      split_ifs at hszlt with hge
      · omega
      · omega
    have hNsegs : st.arena.length ∉ st.segs :=
      fun hc => absurd (hinv.segs_lt _ hc) (by omega)
    obtain ⟨hix, hbef, hsome⟩ := insertBefore_facts hinv.segs_nodup hTsegs hNsegs
    have hNsegs1 : st.arena.length ∈ (MemoryManager.Allocate st s).1.segs := by
      rw [hsegs1]
      exact (MemoryManager.insertBefore_perm _ _ _).mem_iff.mpr
        (List.mem_cons_self _ _)
    have hNnh1 : st.arena.length ∉ (MemoryManager.Allocate st s).1.heap :=
      fun hc => absurd (hbid _ ((hmem1 _).mp hc)) (by omega)
    have hidx1 : (MemoryManager.Allocate st s).1.segs.indexOf st.arena.length =
        st.segs.indexOf (geti st.heap 0) := by
      rw [hsegs1]
      exact hix
    have pf1 : (if (MemoryManager.Allocate st s).1.segs.indexOf
          st.arena.length ≠ 0 then
        MemoryManager.AppendIfFree (MemoryManager.Allocate st s).1
          st.arena.length
          (geti (MemoryManager.Allocate st s).1.segs
            ((MemoryManager.Allocate st s).1.segs.indexOf st.arena.length - 1))
      else some (MemoryManager.Allocate st s).1) =
        some (MemoryManager.Allocate st s).1 := by
      split_ifs with hif
      · rw [hidx1] at hif
        have hgb : geti (MemoryManager.Allocate st s).1.segs
            (st.segs.indexOf (geti st.heap 0) - 1) =
            geti st.segs (st.segs.indexOf (geti st.heap 0) - 1) := by
          rw [hsegs1]
          exact hbef _ (by omega)
        have hnb : geti st.segs (st.segs.indexOf (geti st.heap 0) - 1) ∉
            st.heap := by
          intro hc
          have h5 := hinv.no_adj (st.segs.indexOf (geti st.heap 0) - 1)
            (by omega)
          rw [show st.segs.indexOf (geti st.heap 0) - 1 + 1 =
            st.segs.indexOf (geti st.heap 0) from by omega, hidxT] at h5
          exact h5 ⟨hc, hTmem⟩
        have hnbsegs1 : geti st.segs (st.segs.indexOf (geti st.heap 0) - 1) ∈
            (MemoryManager.Allocate st s).1.segs := by
          rw [hsegs1]
          exact (MemoryManager.insertBefore_perm _ _ _).mem_iff.mpr
            (List.mem_cons_of_mem _ (geti_mem (by omega)))
        have hnbnh1 : geti st.segs (st.segs.indexOf (geti st.heap 0) - 1) ∉
            (MemoryManager.Allocate st s).1.heap :=
          fun hc => hnb ((hmem1 _).mp hc)
        rw [hidx1, hgb]
        exact appendIfFree_noop _ _ _ (hinv1.track_out _ hnbsegs1 hnbnh1)
      · rfl
    -- the right neighbour is the shrunk top: it is free, adjacent, and merges
    have hTheap1 : geti st.heap 0 ∈ (MemoryManager.Allocate st s).1.heap :=
      (hmem1 _).mpr hTmem
    have hne_hi : (getSeg (MemoryManager.Allocate st s).1.arena
        (geti st.heap 0)).heap_index ≠ kNullIndex := by
      obtain ⟨k1, hk1lt, hk1e⟩ := List.getElem_of_mem hTheap1
      have hk1 : geti (MemoryManager.Allocate st s).1.heap k1 = geti st.heap 0 := by
        rw [geti_eq_getElem hk1lt]
        exact hk1e
      rw [← hk1, hinv1.track_in k1 hk1lt]
      omega
    have hu : (getSeg (MemoryManager.Allocate st s).1.arena
          st.arena.length).Unite
        (getSeg (MemoryManager.Allocate st s).1.arena (geti st.heap 0)) =
        some ⟨(getSeg (MemoryManager.Allocate st s).1.arena
            st.arena.length).left,
          (getSeg (MemoryManager.Allocate st s).1.arena
            (geti st.heap 0)).right, kNullIndex⟩ := by
      unfold MemorySegment.Unite
      rw [if_neg (by rw [hlrN1, hlrT.2]; omega), if_pos (by rw [hlrN2, hlrT.1])]
    obtain ⟨hE2perm, hmemE2, hE2nd, _, _, _, hMpos, _, _, hElr2⟩ :=
      merge_core hinv1.segs_nodup hinv1.segs_lt hinv1.heap_sub hinv1.heap_nodup
        hinv1.track_in hinv1.arena_bound hinv1.heap_ordered hNsegs1 hNnh1
        hTheap1
        ⟨(getSeg (MemoryManager.Allocate st s).1.arena st.arena.length).left,
          (getSeg (MemoryManager.Allocate st s).1.arena
            (geti st.heap 0)).right, kNullIndex⟩
    have pf2 : (match (MemoryManager.Allocate st s).1.segs[
          (MemoryManager.Allocate st s).1.segs.indexOf st.arena.length + 1]? with
        | some r => MemoryManager.AppendIfFree (MemoryManager.Allocate st s).1
            st.arena.length r
        | none => some (MemoryManager.Allocate st s).1) =
        some ⟨(MSHeap.erase ((MemoryManager.Allocate st s).1.arena.set
            st.arena.length
            ⟨(getSeg (MemoryManager.Allocate st s).1.arena
                st.arena.length).left,
              (getSeg (MemoryManager.Allocate st s).1.arena
                (geti st.heap 0)).right, kNullIndex⟩) (MemoryManager.Allocate st s).1.heap
            ((getSeg ((MemoryManager.Allocate st s).1.arena.set st.arena.length
              ⟨(getSeg (MemoryManager.Allocate st s).1.arena
                  st.arena.length).left,
                (getSeg (MemoryManager.Allocate st s).1.arena
                  (geti st.heap 0)).right, kNullIndex⟩)
              (geti st.heap 0)).heap_index)).1,
          (MemoryManager.insertBefore st.segs (geti st.heap 0)
            st.arena.length).erase (geti st.heap 0),
          (MSHeap.erase ((MemoryManager.Allocate st s).1.arena.set
            st.arena.length
            ⟨(getSeg (MemoryManager.Allocate st s).1.arena
                st.arena.length).left,
              (getSeg (MemoryManager.Allocate st s).1.arena
                (geti st.heap 0)).right, kNullIndex⟩) (MemoryManager.Allocate st s).1.heap
            ((getSeg ((MemoryManager.Allocate st s).1.arena.set st.arena.length
              ⟨(getSeg (MemoryManager.Allocate st s).1.arena
                  st.arena.length).left,
                (getSeg (MemoryManager.Allocate st s).1.arena
                  (geti st.heap 0)).right, kNullIndex⟩)
              (geti st.heap 0)).heap_index)).2⟩ := by
      rw [hidx1, hsegs1, hsome]
      show MemoryManager.AppendIfFree (MemoryManager.Allocate st s).1
        st.arena.length (geti st.heap 0) = _
      rw [appendIfFree_merge_eq _ _ _ hne_hi hu, hsegs1]
    refine ⟨_, free_eq (MemoryManager.Allocate st s).1 st.arena.length pf1 pf2,
      ?_⟩
    intro x
    have hm2 := msPush_mem
      (MSHeap.erase ((MemoryManager.Allocate st s).1.arena.set st.arena.length
          ⟨(getSeg (MemoryManager.Allocate st s).1.arena st.arena.length).left,
            (getSeg (MemoryManager.Allocate st s).1.arena
              (geti st.heap 0)).right, kNullIndex⟩)
        (MemoryManager.Allocate st s).1.heap
        ((getSeg ((MemoryManager.Allocate st s).1.arena.set st.arena.length
          ⟨(getSeg (MemoryManager.Allocate st s).1.arena st.arena.length).left,
            (getSeg (MemoryManager.Allocate st s).1.arena
              (geti st.heap 0)).right, kNullIndex⟩)
          (geti st.heap 0)).heap_index)).1
      (MSHeap.erase ((MemoryManager.Allocate st s).1.arena.set st.arena.length
          ⟨(getSeg (MemoryManager.Allocate st s).1.arena st.arena.length).left,
            (getSeg (MemoryManager.Allocate st s).1.arena
              (geti st.heap 0)).right, kNullIndex⟩)
        (MemoryManager.Allocate st s).1.heap
        ((getSeg ((MemoryManager.Allocate st s).1.arena.set st.arena.length
          ⟨(getSeg (MemoryManager.Allocate st s).1.arena st.arena.length).left,
            (getSeg (MemoryManager.Allocate st s).1.arena
              (geti st.heap 0)).right, kNullIndex⟩)
          (geti st.heap 0)).heap_index)).2
      st.arena.length
    have hlr2 := (msPush_spec (MSHeap.erase
        ((MemoryManager.Allocate st s).1.arena.set st.arena.length
          ⟨(getSeg (MemoryManager.Allocate st s).1.arena st.arena.length).left,
            (getSeg (MemoryManager.Allocate st s).1.arena
              (geti st.heap 0)).right, kNullIndex⟩)
        (MemoryManager.Allocate st s).1.heap
        ((getSeg ((MemoryManager.Allocate st s).1.arena.set st.arena.length
          ⟨(getSeg (MemoryManager.Allocate st s).1.arena st.arena.length).left,
            (getSeg (MemoryManager.Allocate st s).1.arena
              (geti st.heap 0)).right, kNullIndex⟩)
          (geti st.heap 0)).heap_index)).1
      (MSHeap.erase ((MemoryManager.Allocate st s).1.arena.set st.arena.length
          ⟨(getSeg (MemoryManager.Allocate st s).1.arena st.arena.length).left,
            (getSeg (MemoryManager.Allocate st s).1.arena
              (geti st.heap 0)).right, kNullIndex⟩)
        (MemoryManager.Allocate st s).1.heap
        ((getSeg ((MemoryManager.Allocate st s).1.arena.set st.arena.length
          ⟨(getSeg (MemoryManager.Allocate st s).1.arena st.arena.length).left,
            (getSeg (MemoryManager.Allocate st s).1.arena
              (geti st.heap 0)).right, kNullIndex⟩)
          (geti st.heap 0)).heap_index)).2
      st.arena.length).2
    constructor
    · rintro ⟨i, hi, hx1, hx2⟩
      rcases (hm2 i).mp hi with h5 | h5
      · have hi1 : i ∈ (MemoryManager.Allocate st s).1.heap ∧
            i ≠ geti st.heap 0 := (hmemE2 i).mp h5
        have hiheap : i ∈ st.heap := (hmem1 i).mp hi1.1
        have hiN : i ≠ st.arena.length :=
          fun hc => absurd (hbid i hiheap) (by omega)
        refine ⟨i, hiheap, ?_, ?_⟩
        · rw [← (hlrO i hi1.2 hiN).1, ← (hElr2 i hiN).1, ← (hlr2 i).1]
          exact hx1
        · rw [← (hlrO i hi1.2 hiN).2, ← (hElr2 i hiN).2, ← (hlr2 i).2]
          exact hx2
      · refine ⟨geti st.heap 0, hTmem, ?_, ?_⟩
        · rw [h5] at hx1
          rw [(hlr2 _).1, hMpos] at hx1
          rw [← hlrN1]
          exact hx1
        · rw [h5] at hx2
          rw [(hlr2 _).2, hMpos] at hx2
          rw [← hlrT.2]
          exact hx2
    · rintro ⟨i, hi, hx1, hx2⟩
      by_cases hiT : i = geti st.heap 0
      · refine ⟨st.arena.length, (hm2 _).mpr (Or.inr rfl), ?_, ?_⟩
        · rw [(hlr2 _).1, hMpos]
          show (getSeg (MemoryManager.Allocate st s).1.arena
            st.arena.length).left ≤ x
          rw [hlrN1, ← hiT]
          exact hx1
        · rw [(hlr2 _).2, hMpos]
          show x < (getSeg (MemoryManager.Allocate st s).1.arena
            (geti st.heap 0)).right
          rw [hlrT.2, ← hiT]
          exact hx2
      · have hiN : i ≠ st.arena.length :=
          fun hc => absurd (hbid i hi) (by omega)
        have hi2 : i ∈ (MSHeap.push _ _ st.arena.length).2.1 :=
          (hm2 i).mpr (Or.inl ((hmemE2 i).mpr ⟨(hmem1 i).mpr hi, hiT⟩))
        refine ⟨i, hi2, ?_, ?_⟩
        · rw [(hlr2 i).1, (hElr2 i hiN).1, (hlrO i hiT hiN).1]
          exact hx1
        · rw [(hlr2 i).2, (hElr2 i hiN).2, (hlrO i hiT hiN).2]
          exact hx2

theorem alloc_free_roundtrip_witness :
    ∃ st'', MemoryManager.Free
        (MemoryManager.Allocate (MemoryManager.init 10) 4).1 1 = some st'' ∧
      (∀ x : Int, FreeCovers st'' x ↔ FreeCovers (MemoryManager.init 10) x) := by
  have hb : (MemoryManager.init 10).arena.length + 1 < kNullIndex := by
    rw [init_eq]
    norm_num [kNullIndex]
  have hh0 : ¬(MemoryManager.init 10).heap.length = 0 := by
    rw [init_eq]
    decide
  have hh1 : ¬(4 : Nat) > (getSeg (MemoryManager.init 10).arena
      (geti (MemoryManager.init 10).heap 0)).Size := by
    rw [init_eq]
    decide
  have hh2 : ¬(4 : Nat) = (getSeg (MemoryManager.init 10).arena
      (geti (MemoryManager.init 10).heap 0)).Size := by
    rw [init_eq]
    decide
  have hhT : geti (MemoryManager.init 10).heap 0 <
      (MemoryManager.init 10).arena.length := by
    rw [init_eq]
    decide
  have ha : (MemoryManager.Allocate (MemoryManager.init 10) 4).2 = some 1 := by
    rw [(alloc_split_handle (MemoryManager.init 10) 4 hh0 hh1 hh2 hhT).1,
      init_eq]
    rfl
  exact alloc_free_roundtrip Reach.init hb ha
